import Mathlib

/-!
# sing: address codec, Trojan framing and user registry

A shallow embedding of `common/metadata/serializer.go`, `common/uot/uot.go`,
`protocol/trojan/protocol.go` and `protocol/trojan/service.go`, with theorems about
the wire format, the handshake and the user registry.

Conventions of the embedding.

* A Go `byte` is a `Nat` below 256 and a `uint16` a `Nat` below 65536; a `[]byte`
  and a Go `string` are both a list of bytes (`Octets`).
* A Go `error` result is an `Option Err` (`none` is `nil`); a function that also
  changes a connection or a buffer returns the new state next to its result.
* A `panic` raised by `common.Must` / `common.Must1` is the result `none` of a
  function returning `Option`.
* A transport may hand out its stream in pieces: one `Read` call can deliver fewer
  bytes than it was asked for although more follow (`Conn.cuts`), while `io.ReadFull`
  and what is built on it read in full. Theorems that need a `Read` to deliver all it
  was asked for say that the transport does not cut the stream (`cuts = []`).
* Declarations of this repository that are used by the embedded code but are not in
  the embedded files (package `buf`, package `rw`, the `Socksaddr` type, the
  address-family constants, the `SocksaddrSerializer` variable) are either parameters
  of the definitions or are modelled from the specification; each such definition
  says so in its comment.
-/

namespace Sing

/-! ## Octets, errors, transports -/

/-- A Go byte slice or string: a list of bytes, each a natural number below 256. -/
abbrev Octets := List Nat

/-- The error values the embedded code produces. `New msg args` is
`E.New(msg, args...)`, `Cause inner msg` is `E.Cause(inner, msg)`; the others are the
standard library's `io.EOF`, `io.ErrUnexpectedEOF`, `io.ErrShortBuffer` and the error
of a transport that refuses a write. -/
inductive Err where
  | EOF : Err
  | ErrUnexpectedEOF : Err
  | ErrShortBuffer : Err
  | ErrClosed : Err
  | New (msg : String) (args : List Nat) : Err
  | Cause (inner : Err) (msg : String) : Err
  deriving DecidableEq, Repr

/-- A `net.Conn` seen from one end: the bytes of the stream that are not yet read, the
`Write` calls the transport has accepted so far (oldest first), how many more `Write`
calls it will accept (`none`: every one), and where the transport cuts the stream into
the pieces it hands out. A number `k` in `cuts` is a cut in front of the last `k` bytes
of the stream; one `Read` call never delivers bytes from both sides of a cut, so it may
deliver fewer bytes than it was asked for although more follow. With no cut, which is the
default, every `Read` delivers all the bytes it was asked for that are there. -/
structure Conn where
  input : Octets
  writes : List Octets
  quota : Option Nat
  cuts : List Nat := []
  deriving DecidableEq, Repr

/-- Every byte the transport has accepted, in order. -/
def Conn.sent (c : Conn) : Octets := c.writes.flatten

/-- A connection on which nothing has happened yet and that accepts every write. -/
def Conn.fresh : Conn := { input := [], writes := [], quota := none }

/-- A connection whose unread input is `bs`. -/
def Conn.ofInput (bs : Octets) : Conn := { input := bs, writes := [], quota := none }

/-- The method `conn.Write(p)`: the transport either takes the whole of `p` as one
write or refuses it. -/
def Conn.Write (c : Conn) (p : Octets) : Option Err × Conn :=
  match c.quota with
  | none => (none, { c with writes := c.writes ++ [p] })
  | some 0 => (some Err.ErrClosed, c)
  | some (k + 1) => (none, { c with writes := c.writes ++ [p], quota := some k })

/-- The number of bytes one `Read` call with `len(p) = n` delivers: at most `n`, and
only the bytes in front of the next cut of the stream (the end of the stream when no cut
is left). It is at least 1 when `n` is and a byte is there. -/
def Conn.readLen (c : Conn) (n : Nat) : Nat :=
  min n (c.input.length - (c.cuts.filter (fun k => k < c.input.length)).foldl max 0)

/-- The method `reader.Read(p)` with `len(p) = n` on a byte stream: it delivers at most
`n` of the bytes that are there, possibly fewer than are there (`readLen`), and reports
`io.EOF` when asked for bytes at the end of the stream. The result is the bytes
delivered, the error, and the stream after. -/
def Conn.Read (c : Conn) (n : Nat) : Octets × Option Err × Conn :=
  if n = 0 then ([], none, c)
  else if c.input = [] then ([], some Err.EOF, c)
  else (c.input.take (c.readLen n), none, { c with input := c.input.drop (c.readLen n) })

/-- The standard library's `io.ReadFull(reader, p)` with `len(p) = n`: exactly `n`
bytes, or `io.EOF` when there is none, or `io.ErrUnexpectedEOF` after a shorter read
(which it has consumed). It calls `Read` until it has the `n` bytes, so what it returns
does not depend on where the transport cuts the stream. -/
def ReadFull (c : Conn) (n : Nat) : Octets × Option Err × Conn :=
  if n ≤ c.input.length then (c.input.take n, none, { c with input := c.input.drop n })
  else if c.input = [] then ([], some Err.EOF, c)
  else (c.input, some Err.ErrUnexpectedEOF, { c with input := [] })

/-- The interface `io.Writer`: a state that takes byte slices. -/
class Writer (σ : Type) where
  Write : σ → Octets → Option Err × σ

instance : Writer Conn := ⟨Conn.Write⟩

/-! ## Package `buf` -/

/-- Modelled from the spec: package `buf` is not among the embedded files. A buffer
owns a byte region `data` with the offsets `start` (payload begin) and `stop` (payload
end and write cursor, the spec's `end`); its capacity is the length of `data`, and
the spec's invariant is `start ≤ stop ≤ capacity`. `released` counts the `Release`
calls made on it. -/
structure Buffer where
  data : Octets
  start : Nat
  stop : Nat
  released : Nat
  deriving DecidableEq, Repr

/-- Modelled from the spec: `Buffer.Len`, the number of payload bytes. -/
def Buffer.Len (b : Buffer) : Nat := b.stop - b.start

/-- Modelled from the spec: `Buffer.Start`, the headroom left before the payload. -/
def Buffer.Start (b : Buffer) : Nat := b.start

/-- Modelled from the spec: `Buffer.FreeLen`, the length of the writable slice
`[end, capacity)`. -/
def Buffer.FreeLen (b : Buffer) : Nat := b.data.length - b.stop

/-- Modelled from the spec: `Buffer.Bytes`, the payload `[start, end)`. -/
def Buffer.Bytes (b : Buffer) : Octets := (b.data.take b.stop).drop b.start

/-- Modelled from the spec: `buf.StackNewSize(size)`, an empty buffer of capacity
`size` with no headroom. -/
def Buffer.StackNewSize (size : Nat) : Buffer :=
  { data := List.replicate size 0, start := 0, stop := 0, released := 0 }

/-- Modelled from the spec: `buf.With(slice)`, an empty buffer whose region is the
given slice (the spec's `wrap`, with the write cursor at the beginning). -/
def Buffer.With (slice : Octets) : Buffer :=
  { data := slice, start := 0, stop := 0, released := 0 }

/-- A buffer with `headroom` reserved bytes before the payload `payload` and `tailroom`
after it (the spec's `allocate`, followed by writing the payload). -/
def Buffer.ofPayload (headroom : Nat) (payload : Octets) (tailroom : Nat) : Buffer :=
  { data := List.replicate headroom 0 ++ payload ++ List.replicate tailroom 0,
    start := headroom, stop := headroom + payload.length, released := 0 }

/-- Modelled from the spec: `Buffer.Write(p)`, which copies `p` to the write cursor and
advances it; it fails with a short-buffer error, writing nothing, when `p` does not fit
in the free tail. -/
def Buffer.Write (b : Buffer) (p : Octets) : Option Err × Buffer :=
  if p.length ≤ b.FreeLen then
    (none, { b with data := b.data.take b.stop ++ p ++ b.data.drop (b.stop + p.length),
                    stop := b.stop + p.length })
  else (some Err.ErrShortBuffer, b)

/-- Modelled from the spec: `Buffer.WriteByte(c)`. -/
def Buffer.WriteByte (b : Buffer) (c : Nat) : Option Err × Buffer := b.Write [c]

instance : Writer Buffer := ⟨Buffer.Write⟩

/-- Modelled from the spec: `Buffer.ExtendHeader(n)` moves `start` back by `n` bytes
without copying and returns the `n` bytes of the new header region; it fails (`none`)
when `n` exceeds the remaining headroom. -/
def Buffer.ExtendHeader (b : Buffer) (n : Nat) : Option (Octets × Buffer) :=
  if n ≤ b.start then
    some ((b.data.drop (b.start - n)).take n, { b with start := b.start - n })
  else none

/-- The header region returned by `ExtendHeader` is a slice of the buffer's own memory:
what is written through the view `header` (made by `buf.With` from that slice) is
written into the buffer. This puts the view's bytes back where they live, at
`[start, start + len)` of the buffer. -/
def Buffer.storeHeader (b : Buffer) (header : Buffer) : Buffer :=
  { b with data := b.data.take b.start ++ header.data ++
                   b.data.drop (b.start + header.data.length) }

/-- Modelled from the spec: `Buffer.Release`, which gives the buffer back to the pool;
the embedding counts the calls. -/
def Buffer.Release (b : Buffer) : Buffer := { b with released := b.released + 1 }

/-- Modelled from the spec: `Buffer.ReadFullFrom(reader, n)` (the spec's
`read_exact_into`) appends exactly `n` bytes from the reader at the write cursor, or
fails and appends nothing. -/
def Buffer.ReadFullFrom (b : Buffer) (c : Conn) (n : Nat) : Option Err × Buffer × Conn :=
  if b.FreeLen < n then (some Err.ErrShortBuffer, b, c)
  else
    match ReadFull c n with
    | (bs, none, c1) => ((b.Write bs).1, (b.Write bs).2, c1)
    | (_, some e, c1) => (some e, b, c1)

/-! ## Package `rw` -/

/-- Modelled from the spec: `rw.WriteByte(writer, b)`, one write of one byte. -/
def rw.WriteByte {σ : Type} [Writer σ] (w : σ) (b : Nat) : Option Err × σ :=
  Writer.Write w [b]

/-- Modelled from the spec: `rw.WriteBytes(writer, p)`, one write of `p`. -/
def rw.WriteBytes {σ : Type} [Writer σ] (w : σ) (p : Octets) : Option Err × σ :=
  Writer.Write w p

/-- Modelled from the spec: `rw.WriteString(writer, s)`, one write of the string's
bytes. -/
def rw.WriteString {σ : Type} [Writer σ] (w : σ) (s : Octets) : Option Err × σ :=
  Writer.Write w s

/-- Modelled from the spec: `rw.ReadByte(reader)`, exactly one byte or a short-read
error. -/
def rw.ReadByte (c : Conn) : Except Err Nat × Conn :=
  match ReadFull c 1 with
  | (bs, none, c1) => (.ok (bs.headD 0), c1)
  | (_, some e, c1) => (.error e, c1)

/-- Modelled from the spec: `rw.ReadBytes(reader, n)`, exactly `n` bytes or a
short-read error. -/
def rw.ReadBytes (c : Conn) (n : Nat) : Except Err Octets × Conn :=
  match ReadFull c n with
  | (bs, none, c1) => (.ok bs, c1)
  | (_, some e, c1) => (.error e, c1)

/-- Modelled from the spec: `rw.ReadString(reader, n)`, a string of exactly `n` bytes
or a short-read error. -/
def rw.ReadString (c : Conn) (n : Nat) : Except Err Octets × Conn :=
  rw.ReadBytes c n

/-- Modelled from the spec: `rw.SkipN(reader, n)`, which reads and drops exactly `n`
bytes or fails. -/
def rw.SkipN (c : Conn) (n : Nat) : Option Err × Conn :=
  match ReadFull c n with
  | (_, none, c1) => (none, c1)
  | (_, some e, c1) => (some e, c1)

/-! ## Package `metadata`: addresses -/

/-- The standard library's `netip.Addr` (zones apart): the zero value, which is not a
valid address, an IPv4 address of 4 bytes, or an IPv6 address of 16 bytes. -/
inductive NetipAddr where
  | zero : NetipAddr
  | ip4 (b : Octets) : NetipAddr
  | ip6 (b : Octets) : NetipAddr
  deriving DecidableEq, Repr

/-- The method `netip.Addr.IsValid`. -/
def NetipAddr.IsValid : NetipAddr → Bool
  | .zero => false
  | _ => true

/-- The method `netip.Addr.Is4`. -/
def NetipAddr.Is4 : NetipAddr → Bool
  | .ip4 _ => true
  | _ => false

/-- The method `netip.Addr.Is6`. -/
def NetipAddr.Is6 : NetipAddr → Bool
  | .ip6 _ => true
  | _ => false

/-- The method `netip.Addr.AsSlice`: the 4 or 16 raw bytes, nothing for the zero
value. -/
def NetipAddr.AsSlice : NetipAddr → Octets
  | .zero => []
  | .ip4 b => b
  | .ip6 b => b

/-- The function `netip.AddrFrom4`. -/
def AddrFrom4 (b : Octets) : NetipAddr := .ip4 b

/-- The function `netip.AddrFrom16`. -/
def AddrFrom16 (b : Octets) : NetipAddr := .ip6 b

/-- Modelled from the spec: the type `Socksaddr` is not among the embedded files. It
holds a numeric address, a domain name and a 16-bit port, with fields named as the
embedded code uses them; the spec's invariant is that exactly one of the address
representations is populated. -/
structure Socksaddr where
  Addr : NetipAddr
  Port : Nat
  Fqdn : Octets
  deriving DecidableEq, Repr

/-- The zero value `Socksaddr{}`. -/
def Socksaddr.empty : Socksaddr := { Addr := .zero, Port := 0, Fqdn := [] }

/-- Modelled from the spec: `Socksaddr.IsIPv4`, true of the numeric IPv4
representation. -/
def Socksaddr.IsIPv4 (a : Socksaddr) : Bool := a.Addr.Is4

/-- Modelled from the spec: `Socksaddr.IsIPv6`, true of the numeric IPv6
representation. -/
def Socksaddr.IsIPv6 (a : Socksaddr) : Bool := a.Addr.Is6

/-- Modelled from the spec: `Socksaddr.Unwrap`. In the spec's data model an address
has exactly one of the three representations and is written in that representation
(4 raw bytes, 16 raw bytes, or a name), so unwrapping leaves the address as it is. -/
def Socksaddr.Unwrap (a : Socksaddr) : Socksaddr := a

/-- The address-family constants `AddressFamilyIPv4`, `AddressFamilyIPv6` and
`AddressFamilyFqdn` are declared outside the embedded files; `Family` is the type
`byte` (the code passes a `Family` where a `byte` is required). The three values are
parameters of the embedding. -/
structure Families where
  AddressFamilyIPv4 : Nat
  AddressFamilyIPv6 : Nat
  AddressFamilyFqdn : Nat
  deriving DecidableEq, Repr

/-- The three constants are bytes and are different from each other. -/
def Families.Valid (F : Families) : Prop :=
  F.AddressFamilyIPv4 < 256 ∧ F.AddressFamilyIPv6 < 256 ∧ F.AddressFamilyFqdn < 256 ∧
  F.AddressFamilyIPv4 ≠ F.AddressFamilyIPv6 ∧ F.AddressFamilyIPv4 ≠ F.AddressFamilyFqdn ∧
  F.AddressFamilyIPv6 ≠ F.AddressFamilyFqdn

instance (F : Families) : Decidable F.Valid := by
  unfold Families.Valid; infer_instance

/-- None of the three constants is the zero byte, the value a Go map lookup yields for
a key that is not in the map. -/
def Families.NonZero (F : Families) : Prop :=
  F.AddressFamilyIPv4 ≠ 0 ∧ F.AddressFamilyIPv6 ≠ 0 ∧ F.AddressFamilyFqdn ≠ 0

instance (F : Families) : Decidable F.NonZero := by
  unfold Families.NonZero; infer_instance

/-! ## Package `metadata`: the serializer (`serializer.go`) -/

/-- The type `Serializer`: the two Go maps and the port-order flag. A map is a function
to `Option`, `none` for a key that is not in the map. -/
structure Serializer where
  familyMap : Nat → Option Nat
  familyByteMap : Nat → Option Nat
  portFirst : Bool

/-- The Go expression `m[k]` on a map of bytes: the zero value for a missing key. -/
def mapIndex (m : Nat → Option Nat) (k : Nat) : Nat := (m k).getD 0

/-- The Go statement `m[k] = v`. -/
def mapStore (m : Nat → Option Nat) (k v : Nat) : Nat → Option Nat :=
  fun x => if x = k then some v else m x

/-- The type `SerializerOption`. -/
abbrev SerializerOption := Serializer → Serializer

/-- The function `AddressFamilyByte`. -/
def AddressFamilyByte (b : Nat) (f : Nat) : SerializerOption := fun s =>
  { s with familyMap := mapStore s.familyMap b f,
           familyByteMap := mapStore s.familyByteMap f b }

/-- The function `PortThenAddress`. -/
def PortThenAddress : SerializerOption := fun s => { s with portFirst := true }

/-- The function `NewSerializer`. -/
def NewSerializer (options : List SerializerOption) : Serializer :=
  options.foldl (fun s option => option s)
    { familyMap := fun _ => none, familyByteMap := fun _ => none, portFirst := false }

/-- The function `WriteSocksString`. -/
def WriteSocksString {σ : Type} [Writer σ] (writer : σ) (str : Octets) : Option Err × σ :=
  let strLen := str.length
  if strLen > 255 then (some (Err.New "fqdn too long" []), writer)
  else
    match rw.WriteByte writer (strLen % 256) with
    | (some err, w1) => (some err, w1)
    | (none, w1) => rw.WriteString w1 str

/-- The function `ReadSockString`. -/
def ReadSockString (reader : Conn) : Except Err Octets × Conn :=
  match rw.ReadByte reader with
  | (.error err, r1) => (.error err, r1)
  | (.ok strLen, r1) => rw.ReadString r1 strLen

set_option linter.unusedVariables false in
/-- The method `Serializer.WriteAddress`. -/
def Serializer.WriteAddress {σ : Type} [Writer σ] (F : Families) (s : Serializer)
    (writer : σ) (addr : Socksaddr) : Option Err × σ :=
  let family :=
    if addr.IsIPv4 then F.AddressFamilyIPv4
    else if addr.IsIPv6 then F.AddressFamilyIPv6
    else F.AddressFamilyFqdn
  match rw.WriteByte writer family with
  | (some err, w1) => (some err, w1)
  | (none, w1) =>
    if addr.Addr.IsValid then rw.WriteBytes w1 addr.Unwrap.Addr.AsSlice
    else WriteSocksString w1 addr.Fqdn

set_option linter.unusedVariables false in
/-- The method `Serializer.AddressLen`. -/
def Serializer.AddressLen (s : Serializer) (addr : Socksaddr) : Nat :=
  if addr.IsIPv4 then 5
  else if addr.IsIPv6 then 17
  else 2 + addr.Fqdn.length

/-- The two bytes of a `uint16` in big-endian order. -/
def bigEndian16 (v : Nat) : Octets := [v / 256 % 256, v % 256]

/-- The value `binary.BigEndian.Uint16(p)` of a two-byte slice. -/
def uint16OfBigEndian (p : Octets) : Nat := p.headD 0 * 256 + p.tail.headD 0

set_option linter.unusedVariables false in
/-- The method `Serializer.WritePort`: `binary.Write` of a `uint16`, one write of two
bytes. -/
def Serializer.WritePort {σ : Type} [Writer σ] (s : Serializer) (writer : σ) (port : Nat) :
    Option Err × σ :=
  Writer.Write writer (bigEndian16 port)

/-- The method `Serializer.WriteAddrPort`. -/
def Serializer.WriteAddrPort {σ : Type} [Writer σ] (F : Families) (s : Serializer)
    (writer : σ) (destination : Socksaddr) : Option Err × σ :=
  let first :=
    if !s.portFirst then s.WriteAddress F writer destination
    else s.WritePort writer destination.Port
  match first with
  | (some err, w1) => (some err, w1)
  | (none, w1) =>
    if s.portFirst then s.WriteAddress F w1 destination
    else s.WritePort w1 destination.Port

/-- The method `Serializer.AddrPortLen`. -/
def Serializer.AddrPortLen (s : Serializer) (destination : Socksaddr) : Nat :=
  s.AddressLen destination + 2

/-- A Go array `[n]byte` after `reader.Read` has put the bytes `bs` at its front: the
rest keeps the zero bytes the array was declared with. -/
def arrayFilled (n : Nat) (bs : Octets) : Octets :=
  (bs ++ List.replicate (n - bs.length) 0).take n

/-- The method `Serializer.ReadAddress`. -/
def Serializer.ReadAddress (F : Families) (s : Serializer) (reader : Conn) :
    Except Err Socksaddr × Conn :=
  match rw.ReadByte reader with
  | (.error err, r1) => (.error err, r1)
  | (.ok af, r1) =>
    let family := mapIndex s.familyMap af
    if family = F.AddressFamilyFqdn then
      match ReadSockString r1 with
      | (.error err, r2) => (.error (Err.Cause err "read fqdn"), r2)
      | (.ok fqdn, r2) => (.ok { Socksaddr.empty with Fqdn := fqdn }, r2)
    else if family = F.AddressFamilyIPv4 then
      match r1.Read 4 with
      | (_, some err, r2) => (.error (Err.Cause err "read ipv4 address"), r2)
      | (bs, none, r2) =>
        (.ok { Socksaddr.empty with Addr := AddrFrom4 (arrayFilled 4 bs) }, r2)
    else if family = F.AddressFamilyIPv6 then
      match r1.Read 16 with
      | (_, some err, r2) => (.error (Err.Cause err "read ipv6 address"), r2)
      | (bs, none, r2) =>
        (.ok (Socksaddr.Unwrap { Socksaddr.empty with Addr := AddrFrom16 (arrayFilled 16 bs) }),
          r2)
    else (.error (Err.New "unknown address family: " [af]), r1)

set_option linter.unusedVariables false in
/-- The method `Serializer.ReadPort`. -/
def Serializer.ReadPort (s : Serializer) (reader : Conn) : Except Err Nat × Conn :=
  match rw.ReadBytes reader 2 with
  | (.error err, r1) => (.error (Err.Cause err "read port"), r1)
  | (.ok port, r1) => (.ok (uint16OfBigEndian port), r1)

/-- The method `Serializer.ReadAddrPort`. The address and the port are read in the
configured order; the first failure is returned at once. -/
def Serializer.ReadAddrPort (F : Families) (s : Serializer) (reader : Conn) :
    Except Err Socksaddr × Conn :=
  if !s.portFirst then
    match s.ReadAddress F reader with
    | (.error err, r1) => (.error err, r1)
    | (.ok addr, r1) =>
      match s.ReadPort r1 with
      | (.error err, r2) => (.error err, r2)
      | (.ok port, r2) => (.ok { addr with Port := port }, r2)
  else
    match s.ReadPort reader with
    | (.error err, r1) => (.error err, r1)
    | (.ok port, r1) =>
      match s.ReadAddress F r1 with
      | (.error err, r2) => (.error err, r2)
      | (.ok addr, r2) => (.ok { addr with Port := port }, r2)

/-! ## Package `uot` -/

/-- The variable `uot.AddrParser`. -/
def AddrParser (F : Families) : Serializer :=
  NewSerializer [AddressFamilyByte 0x00 F.AddressFamilyIPv4,
                 AddressFamilyByte 0x01 F.AddressFamilyIPv6,
                 AddressFamilyByte 0x02 F.AddressFamilyFqdn]

/-! ## Package `trojan`: the client side (`protocol.go`) -/

/-- The constant `KeyLength`. -/
def KeyLength : Nat := 56

/-- The constant `CommandTCP`. -/
def CommandTCP : Nat := 1

/-- The constant `CommandUDP`. -/
def CommandUDP : Nat := 3

/-- The variable `CRLF`: carriage return, line feed. -/
def CRLF : Octets := [13, 10]

/-- The functions `common.Must` and `common.Must1`: the call panics (`none`) when the
error is not `nil`, and goes on with the state the operation left otherwise. -/
def Must {σ : Type} (r : Option Err × σ) : Option σ :=
  match r with
  | (none, w) => some w
  | (some _, _) => none

/-- One lowercase hexadecimal digit as an ASCII byte. -/
def hexDigit (d : Nat) : Nat := if d < 10 then 48 + d else 87 + d

/-- The standard library's `hex.Encode`: two lowercase digits for each byte. -/
def hexEncode : Octets → Octets
  | [] => []
  | b :: bs => hexDigit (b / 16 % 16) :: hexDigit (b % 16) :: hexEncode bs

/-- The function `Key`. The SHA-224 digest of the standard library (`sha256.New224`) is
the parameter `sha224`; the digest's hexadecimal digits are put into the array
`[KeyLength]byte`. -/
def Key (sha224 : Octets → Octets) (password : Octets) : Octets :=
  arrayFilled KeyLength (hexEncode (sha224 password))

/-- The header buffer of `ClientHandshake` as it is when the function comes to its
first transport write: `none` when one of the `Must` assertions on the header writes
fails. `SocksaddrSerializer` is the package variable `M.SocksaddrSerializer`, declared
outside the embedded files and taken as a parameter. -/
def ClientHandshake.header (F : Families) (SocksaddrSerializer : Serializer) (key : Octets)
    (destination : Socksaddr) (payload : Octets) : Option Buffer :=
  let headerLen := KeyLength + SocksaddrSerializer.AddrPortLen destination + 5
  let writeHeader := !(decide (payload.length > 0) && decide (headerLen + payload.length < 65535))
  let header :=
    if writeHeader then Buffer.StackNewSize headerLen
    else Buffer.StackNewSize (headerLen + payload.length)
  (Must (header.Write key)).bind fun header =>
  (Must (header.Write CRLF)).bind fun header =>
  (Must (header.WriteByte CommandTCP)).bind fun header =>
  (Must (SocksaddrSerializer.WriteAddrPort F header destination)).bind fun header =>
  (Must (header.Write CRLF)).bind fun header =>
  if !writeHeader then Must (header.Write payload) else some header

/-- The function `ClientHandshake`: the result is `none` when a `Must` assertion fails,
otherwise the returned error and the transport after the call. -/
def ClientHandshake (F : Families) (SocksaddrSerializer : Serializer) (conn : Conn)
    (key : Octets) (destination : Socksaddr) (payload : Octets) : Option (Option Err × Conn) :=
  let headerLen := KeyLength + SocksaddrSerializer.AddrPortLen destination + 5
  let writeHeader := !(decide (payload.length > 0) && decide (headerLen + payload.length < 65535))
  (ClientHandshake.header F SocksaddrSerializer key destination payload).bind fun header =>
  match conn.Write header.Bytes with
  | (some err, c1) => some (some (Err.Cause err "write request"), c1)
  | (none, c1) =>
    if writeHeader then
      match c1.Write payload with
      | (some err, c2) => some (some (Err.Cause err "write payload"), c2)
      | (none, c2) => some (none, c2)
    else some (none, c1)

/-- The function `ClientHandshakeBuffer`: the header is written into the headroom of
the payload buffer, and the whole buffer goes out in one write. The result is `none`
when `ExtendHeader` fails or a `Must` assertion fails. -/
def ClientHandshakeBuffer (F : Families) (SocksaddrSerializer : Serializer) (conn : Conn)
    (key : Octets) (destination : Socksaddr) (payload : Buffer) :
    Option (Option Err × Conn × Buffer) :=
  (payload.ExtendHeader (KeyLength + SocksaddrSerializer.AddrPortLen destination + 5)).bind
    fun (region, payload1) =>
  let header := Buffer.With region
  (Must (header.Write key)).bind fun header =>
  (Must (header.Write CRLF)).bind fun header =>
  (Must (header.WriteByte CommandTCP)).bind fun header =>
  (Must (SocksaddrSerializer.WriteAddrPort F header destination)).bind fun header =>
  (Must (header.Write CRLF)).bind fun header =>
  let payload2 := payload1.storeHeader header
  match conn.Write payload2.Bytes with
  | (some err, c1) => some (some (Err.Cause err "write request"), c1, payload2)
  | (none, c1) => some (none, c1, payload2)

/-- The standard library's `binary.Read(conn, binary.BigEndian, &length)` for a
`uint16`: two bytes read in full. -/
def binaryReadUint16 (c : Conn) : Except Err Nat × Conn :=
  match ReadFull c 2 with
  | (bs, none, c1) => (.ok (uint16OfBigEndian bs), c1)
  | (_, some e, c1) => (.error e, c1)

/-- The function `ReadPacket`: the returned destination and error, the transport and
the buffer after the call. -/
def ReadPacket (F : Families) (SocksaddrSerializer : Serializer) (conn : Conn)
    (buffer : Buffer) : (Socksaddr × Option Err) × Conn × Buffer :=
  match SocksaddrSerializer.ReadAddrPort F conn with
  | (.error err, c1) => ((Socksaddr.empty, some (Err.Cause err "read destination")), c1, buffer)
  | (.ok destination, c1) =>
    match binaryReadUint16 c1 with
    | (.error err, c2) =>
      ((Socksaddr.empty, some (Err.Cause err "read chunk length")), c2, buffer)
    | (.ok length, c2) =>
      if buffer.FreeLen < length then ((Socksaddr.empty, some Err.ErrShortBuffer), c2, buffer)
      else
        match rw.SkipN c2 2 with
        | (some err, c3) => ((Socksaddr.empty, some (Err.Cause err "skip crlf")), c3, buffer)
        | (none, c3) =>
          match buffer.ReadFullFrom c3 length with
          | (err, b1, c4) => ((destination, err), c4, b1)

/-- The function `WritePacket`: the relay header is written into the headroom of the
buffer, the whole buffer goes out in one write, and the deferred `Release` runs. The
result is `none` when `ExtendHeader` fails or a `Must` assertion fails. -/
def WritePacket (F : Families) (SocksaddrSerializer : Serializer) (conn : Conn)
    (buffer : Buffer) (destination : Socksaddr) : Option (Option Err × Conn × Buffer) :=
  let bufferLen := buffer.Len
  (buffer.ExtendHeader (SocksaddrSerializer.AddrPortLen destination + 4)).bind
    fun (region, buffer1) =>
  let header := Buffer.With region
  (Must (SocksaddrSerializer.WriteAddrPort F header destination)).bind fun header =>
  (Must (Writer.Write header (bigEndian16 (bufferLen % 65536)))).bind fun header =>
  (Must (header.Write CRLF)).bind fun header =>
  let buffer2 := buffer1.storeHeader header
  match conn.Write buffer2.Bytes with
  | (some err, c1) => some (some (Err.Cause err "write packet"), c1, buffer2.Release)
  | (none, c1) => some (none, c1, buffer2.Release)

/-! ## Package `trojan`: the service (`service.go`) -/

/-- The type `Service[K]`: the two Go maps of the user registry (the handler is an
argument of `NewConnection`). -/
structure Service (K : Type) where
  keys : Octets → Option K
  users : K → Option Octets

/-- The function `NewService`. -/
def NewService (K : Type) : Service K := { keys := fun _ => none, users := fun _ => none }

/-- The errors of `AddUser`: the variable `ErrUserExists`, and
`E.New("password used by ", oldUser)`. -/
inductive RegistryErr (K : Type) where
  | ErrUserExists : RegistryErr K
  | passwordUsedBy (oldUser : K) : RegistryErr K
  deriving DecidableEq, Repr

/-- The method `Service.AddUser`. -/
def Service.AddUser {K : Type} [DecidableEq K] (sha224 : Octets → Octets) (s : Service K)
    (user : K) (password : Octets) : Option (RegistryErr K) × Service K :=
  match s.users user with
  | some _ => (some RegistryErr.ErrUserExists, s)
  | none =>
    let key := Key sha224 password
    match s.keys key with
    | some oldUser => (some (RegistryErr.passwordUsedBy oldUser), s)
    | none =>
      (none, { users := fun u => if u = user then some key else s.users u,
               keys := fun k => if k = key then some user else s.keys k })

/-- The method `Service.RemoveUser`. -/
def Service.RemoveUser {K : Type} [DecidableEq K] (s : Service K) (user : K) :
    Bool × Service K :=
  match s.users user with
  | some key =>
    (true, { users := fun u => if u = user then none else s.users u,
             keys := fun k => if k = key then none else s.keys k })
  | none => (false, s)

/-- The method `Service.ResetUsers`. -/
def Service.ResetUsers {K : Type} (_s : Service K) : Service K :=
  { keys := fun _ => none, users := fun _ => none }

/-- Modelled from the spec: the type `M.Metadata`, with the fields the embedded code
uses. -/
structure Metadata where
  Protocol : String
  Source : Socksaddr
  Destination : Socksaddr
  deriving DecidableEq, Repr

/-- Modelled from the spec: the request context; `user` is the user identifier that
`auth.ContextWithUser` has attached to it, if any. -/
structure Context (K : Type) where
  user : Option K
  deriving DecidableEq, Repr

/-- Modelled from the spec: `auth.ContextWithUser`, which attaches the resolved user
identifier to the request context. -/
def ContextWithUser {K : Type} (_ctx : Context K) (user : K) : Context K :=
  { user := some user }

/-- The type `Error` of `service.go`. -/
structure Error where
  Metadata : Metadata
  Conn : Conn
  Inner : Err
  deriving DecidableEq, Repr

/-- What `NewConnection` returns as its error: an error passed on as it is, or a
pointer to an `Error`. -/
inductive ServiceErr where
  | plain (err : Err) : ServiceErr
  | wrapped (e : Error) : ServiceErr
  deriving DecidableEq, Repr

/-- The type `PacketConn`. -/
structure PacketConn where
  Conn : Conn
  deriving DecidableEq, Repr

/-- A call made to the handler: `NewConnection` (the stream handler) or
`NewPacketConnection` (the datagram handler), with its arguments. -/
inductive HandlerCall (K : Type) where
  | NewConnection (ctx : Context K) (conn : Conn) (metadata : Metadata) : HandlerCall K
  | NewPacketConnection (ctx : Context K) (conn : PacketConn) (metadata : Metadata) :
      HandlerCall K
  deriving DecidableEq, Repr

/-- The interface `Handler`: what the two handlers return. -/
structure Handler (K : Type) where
  NewConnection : Context K → Conn → Metadata → Option Err
  NewPacketConnection : Context K → PacketConn → Metadata → Option Err

/-- The outcome of `Service.NewConnection`: the error it returns, the handler calls it
has made, in order, and the transport as the parser left it. -/
structure Accepted (K : Type) where
  err : Option ServiceErr
  calls : List (HandlerCall K)
  conn : Conn

/-- The statements after the label `returnErr`. -/
def returnErr {K : Type} (metadata : Metadata) (conn : Conn) (err : Err) : Accepted K :=
  { err := some (ServiceErr.wrapped { Metadata := metadata, Conn := conn, Inner := err }),
    calls := [], conn := conn }

/-- The method `Service.NewConnection`. -/
def Service.NewConnection {K : Type} (F : Families) (SocksaddrSerializer : Serializer)
    (s : Service K) (handler : Handler K) (ctx : Context K) (conn : Conn)
    (metadata : Metadata) : Accepted K :=
  match ReadFull conn KeyLength with
  | (_, some err, c1) => { err := some (ServiceErr.plain err), calls := [], conn := c1 }
  | (key, none, c1) =>
    match s.keys key with
    | none => returnErr metadata c1 (Err.New "bad request" [])
    | some user =>
      let ctx := ContextWithUser ctx user
      match rw.SkipN c1 2 with
      | (some err, c2) => returnErr metadata c2 (Err.Cause err "skip crlf")
      | (none, c2) =>
        match rw.ReadByte c2 with
        | (.error err, c3) => returnErr metadata c3 (Err.Cause err "read command")
        | (.ok command, c3) =>
          if command ≠ CommandTCP ∧ command ≠ CommandUDP then
            returnErr metadata c3 (Err.New "unknown command " [command])
          else
            match SocksaddrSerializer.ReadAddrPort F c3 with
            | (.error err, c4) => returnErr metadata c4 (Err.Cause err "read destination")
            | (.ok destination, c4) =>
              match rw.SkipN c4 2 with
              | (some err, c5) => returnErr metadata c5 (Err.Cause err "skip crlf")
              | (none, c5) =>
                let metadata := { metadata with Protocol := "trojan", Destination := destination }
                if command = CommandTCP then
                  { err := (handler.NewConnection ctx c5 metadata).map ServiceErr.plain,
                    calls := [HandlerCall.NewConnection ctx c5 metadata], conn := c5 }
                else
                  { err := (handler.NewPacketConnection ctx ⟨c5⟩ metadata).map ServiceErr.plain,
                    calls := [HandlerCall.NewPacketConnection ctx ⟨c5⟩ metadata], conn := c5 }

/-! ## Vocabulary of the theorems -/

/-- The writes of a list of slices one after the other, stopping at the first one the
writer refuses. -/
def writeAll {σ : Type} [Writer σ] (w : σ) : List Octets → Option Err × σ
  | [] => (none, w)
  | p :: ps =>
    match Writer.Write w p with
    | (some err, w1) => (some err, w1)
    | (none, w1) => writeAll w1 ps

/-- The family constant `WriteAddress` computes for an address (its variable
`family`). -/
def Socksaddr.family (F : Families) (a : Socksaddr) : Nat :=
  if a.IsIPv4 then F.AddressFamilyIPv4
  else if a.IsIPv6 then F.AddressFamilyIPv6
  else F.AddressFamilyFqdn

/-- The slices `WriteAddress` hands to its writer for an address, in order. -/
def Socksaddr.chunks (F : Families) (a : Socksaddr) : List Octets :=
  match a.Addr with
  | .ip4 b => [[F.AddressFamilyIPv4], b]
  | .ip6 b => [[F.AddressFamilyIPv6], b]
  | .zero => [[F.AddressFamilyFqdn], [a.Fqdn.length], a.Fqdn]

/-- The slices `WriteAddrPort` hands to its writer, in order. -/
def Serializer.chunks (F : Families) (s : Serializer) (a : Socksaddr) : List Octets :=
  if s.portFirst then bigEndian16 a.Port :: a.chunks F else a.chunks F ++ [bigEndian16 a.Port]

/-- A domain name, if the address is one, has at most 255 bytes. -/
def Socksaddr.NameFits (a : Socksaddr) : Prop := a.Addr = .zero → a.Fqdn.length ≤ 255

instance (a : Socksaddr) : Decidable a.NameFits := by
  unfold Socksaddr.NameFits; infer_instance

/-- The addresses of the spec's data model: an IPv4 address of 4 bytes, an IPv6 address
of 16 bytes, or a domain name of at most 255 bytes, with exactly one representation
populated. -/
def Socksaddr.Representable (a : Socksaddr) : Prop :=
  match a.Addr with
  | .ip4 b => b.length = 4 ∧ a.Fqdn = []
  | .ip6 b => b.length = 16 ∧ a.Fqdn = []
  | .zero => a.Fqdn.length ≤ 255

instance (a : Socksaddr) : Decidable a.Representable := by
  unfold Socksaddr.Representable; cases a.Addr <;> infer_instance

/-- The bytes `WriteAddress` puts on a transport that accepts every write. -/
def Serializer.addressWire (F : Families) (s : Serializer) (a : Socksaddr) : Octets :=
  (s.WriteAddress F Conn.fresh a).2.sent

/-- The bytes `WriteAddrPort` puts on a transport that accepts every write: the
encoding of a destination. -/
def Serializer.wire (F : Families) (s : Serializer) (a : Socksaddr) : Octets :=
  (s.WriteAddrPort F Conn.fresh a).2.sent

/-- The tag-to-family table of the serializer sends the byte of each family constant to
that family: the serializer reads a tag byte as the family whose constant it is. -/
def Serializer.TagsAreFamilies (F : Families) (s : Serializer) : Prop :=
  mapIndex s.familyMap F.AddressFamilyIPv4 = F.AddressFamilyIPv4 ∧
  mapIndex s.familyMap F.AddressFamilyIPv6 = F.AddressFamilyIPv6 ∧
  mapIndex s.familyMap F.AddressFamilyFqdn = F.AddressFamilyFqdn

instance (F : Families) (s : Serializer) : Decidable (s.TagsAreFamilies F) := by
  unfold Serializer.TagsAreFamilies; infer_instance

/-- A call that changes the user registry. -/
inductive RegistryOp (K : Type) where
  | AddUser (user : K) (password : Octets) : RegistryOp K
  | RemoveUser (user : K) : RegistryOp K
  | ResetUsers : RegistryOp K
  deriving DecidableEq, Repr

/-- The registry after one call. -/
def Service.step {K : Type} [DecidableEq K] (sha224 : Octets → Octets) (s : Service K) :
    RegistryOp K → Service K
  | .AddUser user password => (s.AddUser sha224 user password).2
  | .RemoveUser user => (s.RemoveUser user).2
  | .ResetUsers => s.ResetUsers

/-- The registry that a sequence of calls makes of the one `NewService` returns. -/
def Service.run {K : Type} [DecidableEq K] (sha224 : Octets → Octets)
    (ops : List (RegistryOp K)) : Service K :=
  ops.foldl (Service.step sha224) (NewService K)

/-- The two maps of a registry are inverse to each other. -/
def Service.Inverse {K : Type} (s : Service K) : Prop :=
  ∀ u k, s.users u = some k ↔ s.keys k = some u

/-- Family constants for the examples: 1 for IPv4, 4 for IPv6, 3 for a domain name. -/
def exampleFamilies : Families :=
  { AddressFamilyIPv4 := 1, AddressFamilyIPv6 := 4, AddressFamilyFqdn := 3 }

/-- A serializer for the examples, whose tags are the family constants of
`exampleFamilies`. -/
def exampleSerializer : Serializer :=
  NewSerializer [AddressFamilyByte 1 exampleFamilies.AddressFamilyIPv4,
                 AddressFamilyByte 4 exampleFamilies.AddressFamilyIPv6,
                 AddressFamilyByte 3 exampleFamilies.AddressFamilyFqdn]

/-- The address 1.2.3.4:80. -/
def exampleIPv4 : Socksaddr := { Addr := .ip4 [1, 2, 3, 4], Port := 80, Fqdn := [] }

/-- The domain name "abc" with port 8080. -/
def exampleDomain : Socksaddr := { Addr := .zero, Port := 8080, Fqdn := [97, 98, 99] }

/-- A key of 56 bytes. -/
def exampleKey : Octets := List.replicate 56 97

/-- A registry in which `exampleKey` is bound to the user 7. -/
def exampleService : Service Nat :=
  { keys := fun k => if k = exampleKey then some 7 else none,
    users := fun u => if u = 7 then some exampleKey else none }

/-- A handler that accepts every connection. -/
def exampleHandler : Handler Nat :=
  { NewConnection := fun _ _ _ => none, NewPacketConnection := fun _ _ _ => none }

/-- Metadata with nothing filled in. -/
def exampleMetadata : Metadata :=
  { Protocol := "", Source := Socksaddr.empty, Destination := Socksaddr.empty }

/-- A domain name of 256 bytes with port 8080: one byte too long for the codec. -/
def exampleLongDomain : Socksaddr :=
  { Addr := .zero, Port := 8080, Fqdn := List.replicate 256 97 }

/-! ## Package `trojan`: the client connections (`protocol.go`) -/

/-- What a Go `Write` method returns, the count and the error, for the transport: the
whole slice on success, nothing on failure. -/
def Conn.WriteN (c : Conn) (p : Octets) : (Nat × Option Err) × Conn :=
  match c.Write p with
  | (none, c1) => ((p.length, none), c1)
  | (some err, c1) => ((0, some err), c1)

/-- The type `ClientConn`: the transport, the key, the destination and the latch
`headerWritten`. -/
structure ClientConn where
  Conn : Conn
  key : Octets
  destination : Socksaddr
  headerWritten : Bool
  deriving DecidableEq, Repr

/-- The function `NewClientConn`. -/
def NewClientConn (conn : Conn) (key : Octets) (destination : Socksaddr) : ClientConn :=
  { Conn := conn, key := key, destination := destination, headerWritten := false }

/-- The method `ClientConn.Write`: the returned count and error and the connection after
the call; `none` when a `Must` assertion of the handshake fails. -/
def ClientConn.Write (F : Families) (SocksaddrSerializer : Serializer) (c : ClientConn)
    (p : Octets) : Option ((Nat × Option Err) × ClientConn) :=
  if c.headerWritten then
    some ((c.Conn.WriteN p).1, { c with Conn := (c.Conn.WriteN p).2 })
  else
    match ClientHandshake F SocksaddrSerializer c.Conn c.key c.destination p with
    | none => none
    | some (some err, c1) => some ((0, some err), { c with Conn := c1 })
    | some (none, c1) => some ((p.length, none), { c with Conn := c1, headerWritten := true })

/-- The method `ClientConn.WriteBuffer`: the returned error, the connection and the
buffer after the call, the deferred `Release` included; `none` when `ExtendHeader` or a
`Must` assertion of the handshake fails. -/
def ClientConn.WriteBuffer (F : Families) (SocksaddrSerializer : Serializer) (c : ClientConn)
    (buffer : Buffer) : Option (Option Err × ClientConn × Buffer) :=
  if c.headerWritten then
    some ((c.Conn.Write buffer.Bytes).1, { c with Conn := (c.Conn.Write buffer.Bytes).2 },
      buffer.Release)
  else
    match ClientHandshakeBuffer F SocksaddrSerializer c.Conn c.key c.destination buffer with
    | none => none
    | some (some err, c1, b1) => some (some err, { c with Conn := c1 }, b1.Release)
    | some (none, c1, b1) =>
      some (none, { c with Conn := c1, headerWritten := true }, b1.Release)

/-- The function `ClientHandshakePacket`: the handshake with the command UDP and the
relay header of the first datagram. With enough headroom the header is written in front
of the payload and all goes out in one write; otherwise the header goes out in a write
of its own before the payload. The result is `none` when `ExtendHeader` or a `Must`
assertion fails. -/
def ClientHandshakePacket (F : Families) (SocksaddrSerializer : Serializer) (conn : Conn)
    (key : Octets) (destination : Socksaddr) (payload : Buffer) :
    Option (Option Err × Conn × Buffer) :=
  let headerLen := KeyLength + 2 * SocksaddrSerializer.AddrPortLen destination + 9
  let payloadLen := payload.Len
  let fill := fun (header : Buffer) =>
    (Must (header.Write key)).bind fun header =>
    (Must (header.Write CRLF)).bind fun header =>
    (Must (header.WriteByte CommandUDP)).bind fun header =>
    (Must (SocksaddrSerializer.WriteAddrPort F header destination)).bind fun header =>
    (Must (header.Write CRLF)).bind fun header =>
    (Must (SocksaddrSerializer.WriteAddrPort F header destination)).bind fun header =>
    (Must (Writer.Write header (bigEndian16 (payloadLen % 65536)))).bind fun header =>
    Must (header.Write CRLF)
  if payload.Start ≥ headerLen then
    (payload.ExtendHeader headerLen).bind fun (region, payload1) =>
    (fill (Buffer.With region)).bind fun header =>
    let payload2 := payload1.storeHeader header
    match conn.Write payload2.Bytes with
    | (some err, c1) => some (some (Err.Cause err "write payload"), c1, payload2)
    | (none, c1) => some (none, c1, payload2)
  else
    (fill (Buffer.StackNewSize headerLen)).bind fun header =>
    match conn.Write header.Bytes with
    | (some err, c1) => some (some (Err.Cause err "write request"), c1, payload)
    | (none, c1) =>
      match c1.Write payload.Bytes with
      | (some err, c2) => some (some (Err.Cause err "write payload"), c2, payload)
      | (none, c2) => some (none, c2, payload)

/-- The type `ClientPacketConn`: the transport, the key and the latch
`headerWritten`. -/
structure ClientPacketConn where
  Conn : Conn
  key : Octets
  headerWritten : Bool
  deriving DecidableEq, Repr

/-- The function `NewClientPacketConn`. -/
def NewClientPacketConn (conn : Conn) (key : Octets) : ClientPacketConn :=
  { Conn := conn, key := key, headerWritten := false }

/-- The method `ClientPacketConn.WritePacket`: the returned error, the connection and
the buffer after the call, the deferred `Release` of this method included. -/
def ClientPacketConn.WritePacket (F : Families) (SocksaddrSerializer : Serializer)
    (c : ClientPacketConn) (buffer : Buffer) (destination : Socksaddr) :
    Option (Option Err × ClientPacketConn × Buffer) :=
  if !c.headerWritten then
    match ClientHandshakePacket F SocksaddrSerializer c.Conn c.key destination buffer with
    | none => none
    | some (err, c1, b1) => some (err, { c with Conn := c1, headerWritten := true }, b1.Release)
  else
    match Sing.WritePacket F SocksaddrSerializer c.Conn buffer destination with
    | none => none
    | some (err, c1, b1) => some (err, { c with Conn := c1 }, b1.Release)

/-- The method `PacketConn.WritePacket` of `service.go`. -/
def PacketConn.WritePacket (F : Families) (SocksaddrSerializer : Serializer) (c : PacketConn)
    (buffer : Buffer) (destination : Socksaddr) : Option (Option Err × PacketConn × Buffer) :=
  match Sing.WritePacket F SocksaddrSerializer c.Conn buffer destination with
  | none => none
  | some (err, c1, b1) => some (err, { Conn := c1 }, b1)

/-! ## Package `bufio` (`io.go`) -/

/-- The function `bufio.Write`. The argument `WriteBuffer` is the method of the
interface `N.ExtendedWriter` that the writer implements; the result is the returned
count and error, the writer and the buffer after the call, the deferred `Release` of
this function included. -/
def bufio.Write {σ : Type} (WriteBuffer : σ → Buffer → Option (Option Err × σ × Buffer))
    (writer : σ) (buffer : Buffer) : Option ((Nat × Option Err) × σ × Buffer) :=
  let dataLen := buffer.Len
  match WriteBuffer writer buffer with
  | none => none
  | some (none, w1, b1) => some ((dataLen, none), w1, b1.Release)
  | some (some err, w1, b1) => some ((0, some err), w1, b1.Release)

/-- The function `bufio.WriteTo`. The argument `WritePacket` is the method of the
interface `N.PacketWriter` that the writer implements, and `SocksaddrFromNet` is the
conversion `M.SocksaddrFromNet`, declared outside the embedded files. -/
def bufio.WriteTo {σ α : Type}
    (WritePacket : σ → Buffer → Socksaddr → Option (Option Err × σ × Buffer))
    (SocksaddrFromNet : α → Socksaddr) (writer : σ) (buffer : Buffer) (addr : α) :
    Option ((Nat × Option Err) × σ × Buffer) :=
  let dataLen := buffer.Len
  match WritePacket writer buffer (SocksaddrFromNet addr) with
  | none => none
  | some (none, w1, b1) => some ((dataLen, none), w1, b1.Release)
  | some (some err, w1, b1) => some ((0, some err), w1, b1.Release)

/-! ## Package `exceptions` (`error.go`) and package `task` (`task.go`) -/

/-- Modelled from the spec: `common.FilterNotNil` is not among the embedded files; it
drops the `nil` entries of a slice and keeps the others in order. -/
def FilterNotNil {ε : Type} (arr : List (Option ε)) : List ε :=
  arr.filterMap id

/-- The loop of `UniqBy`: `seen` holds the keys met so far; an item whose key has been
met is skipped. -/
def UniqBy.loop {ε κ : Type} [DecidableEq κ] (block : ε → κ) : List κ → List ε → List ε
  | _, [] => []
  | seen, item :: rest =>
    if block item ∈ seen then UniqBy.loop block seen rest
    else item :: UniqBy.loop block (block item :: seen) rest

/-- Modelled from the spec: `common.UniqBy` is not among the embedded files; it
de-duplicates a slice by the key `block` gives each item, going through the slice from
the front and keeping an item when its key has not occurred before. -/
def UniqBy {ε κ : Type} [DecidableEq κ] (arr : List ε) (block : ε → κ) : List ε :=
  UniqBy.loop block [] arr

/-- A Go `error` value that `Errors` returns when it is not `nil`: one of the errors it
was given, or a pointer to a `multiError` with its list. -/
inductive ErrorValue (ε : Type) where
  | plain (err : ε) : ErrorValue ε
  | multiError (errors : List ε) : ErrorValue ε
  deriving DecidableEq, Repr

/-- The function `Errors`. The error values are of a type `ε`, and `Error` is their
method `Error()`, the message. -/
def Errors {ε : Type} (Error : ε → String) (errors : List (Option ε)) :
    Option (ErrorValue ε) :=
  let errors := FilterNotNil errors
  let errors := UniqBy errors Error
  match errors with
  | [] => none
  | [err] => some (ErrorValue.plain err)
  | _ => some (ErrorValue.multiError errors)

/-- The function `Run`, from the point where its `select` has fired: `finished` holds
what the tasks that have returned by then have returned, in the order in which they
appended to `retErr` (the appends of the goroutines are taken one after the other), and
`ctxErr` is `ctx.Err()`, `nil` for a context that is not cancelled. With a context that
is never cancelled the `select` fires when every task has returned. -/
def Run {ε : Type} (Error : ε → String) (ctxErr : Option ε) (finished : List (Option ε)) :
    Option (ErrorValue ε) :=
  let retErr := (FilterNotNil finished).map some
  Errors Error (retErr ++ [ctxErr])

/-! ## Vocabulary of the later theorems -/

/-- A relay chunk: the encoded destination, the payload length as 2 big-endian bytes,
CR LF, and the payload. -/
def relayChunk (F : Families) (s : Serializer) (destination : Socksaddr) (payload : Octets) :
    Octets :=
  s.wire F destination ++ bigEndian16 payload.length ++ CRLF ++ payload

/-- A sequence of `WritePacket` calls on a `ClientPacketConn`, each with its buffer and
destination: the connection after the last call, or `none` when a call returns an error
or panics. -/
def ClientPacketConn.WritePackets (F : Families) (SocksaddrSerializer : Serializer)
    (c : ClientPacketConn) : List (Buffer × Socksaddr) → Option ClientPacketConn
  | [] => some c
  | (buffer, destination) :: rest =>
    match c.WritePacket F SocksaddrSerializer buffer destination with
    | some (none, c1, _) => ClientPacketConn.WritePackets F SocksaddrSerializer c1 rest
    | _ => none

/-- The buffer after the bytes `header` have been written into the headroom right before
its payload (by `ExtendHeader` and writes through the view of the header region). -/
def Buffer.withHeader (b : Buffer) (header : Octets) : Buffer :=
  { b with data := b.data.take (b.start - header.length) ++ header ++ b.data.drop b.start,
           start := b.start - header.length }

/-- A buffer holds its offsets in order: `start ≤ end ≤ capacity`, the invariant of the
spec. -/
def Buffer.WellFormed (b : Buffer) : Prop := b.start ≤ b.stop ∧ b.stop ≤ b.data.length

instance (b : Buffer) : Decidable b.WellFormed := by
  unfold Buffer.WellFormed; infer_instance

/-- A call of the user on a `ClientConn`. -/
inductive ClientConnCall where
  | Write (p : Octets) : ClientConnCall
  | WriteBuffer (buffer : Buffer) : ClientConnCall
  deriving DecidableEq, Repr

/-- The connection after one call, when the call does not panic. -/
def ClientConn.step (F : Families) (SocksaddrSerializer : Serializer) (c : ClientConn) :
    ClientConnCall → Option ClientConn
  | .Write p => (c.Write F SocksaddrSerializer p).map fun r => r.2
  | .WriteBuffer buffer => (c.WriteBuffer F SocksaddrSerializer buffer).map fun r => r.2.1

/-- The spec's "one error per distinct message in first-occurrence order", written out:
the first item is kept, and of the rest the first of each key, those with the key of the
first item left out. -/
def firstOfEachKey {ε κ : Type} [DecidableEq κ] (block : ε → κ) : List ε → List ε
  | [] => []
  | item :: rest => item :: (firstOfEachKey block rest).filter (fun x => block x ≠ block item)

/-- The connection after a sequence of calls, one after the other; `none` when a call
panics. -/
def ClientConn.steps (F : Families) (SocksaddrSerializer : Serializer) (c : ClientConn) :
    List ClientConnCall → Option ClientConn
  | [] => some c
  | call :: rest =>
    (c.step F SocksaddrSerializer call).bind fun c1 =>
      ClientConn.steps F SocksaddrSerializer c1 rest

/-- The first 64 prime numbers. -/
def sha256.primes : List Nat :=
  [2, 3, 5, 7, 11, 13, 17, 19, 23, 29, 31, 37, 41, 43, 47, 53, 59, 61, 67, 71, 73, 79, 83, 89,
   97, 101, 103, 107, 109, 113, 127, 131, 137, 139, 149, 151, 157, 163, 167, 173, 179, 181, 191,
   193, 197, 199, 211, 223, 227, 229, 233, 239, 241, 251, 257, 263, 269, 271, 277, 281, 283, 293,
   307, 311]

/-- The round constants of SHA-256 and SHA-224 (FIPS 180-4, 4.2.2), in decimal: the
first 32 bits of the fractional parts of the cube roots of the first 64 prime numbers. -/
def sha256.K : List Nat :=
  [1116352408, 1899447441, 3049323471, 3921009573, 961987163, 1508970993,
   2453635748, 2870763221, 3624381080, 310598401, 607225278, 1426881987,
   1925078388, 2162078206, 2614888103, 3248222580, 3835390401, 4022224774,
   264347078, 604807628, 770255983, 1249150122, 1555081692, 1996064986,
   2554220882, 2821834349, 2952996808, 3210313671, 3336571891, 3584528711,
   113926993, 338241895, 666307205, 773529912, 1294757372, 1396182291,
   1695183700, 1986661051, 2177026350, 2456956037, 2730485921, 2820302411,
   3259730800, 3345764771, 3516065817, 3600352804, 4094571909, 275423344,
   430227734, 506948616, 659060556, 883997877, 958139571, 1322822218,
   1537002063, 1747873779, 1955562222, 2024104815, 2227730452, 2361852424,
   2428436474, 2756734187, 3204031479, 3329325298]

/-- The eight 32-bit words of a SHA-256 state. -/
structure sha256.State where
  a : Nat
  b : Nat
  c : Nat
  d : Nat
  e : Nat
  f : Nat
  g : Nat
  h : Nat
  deriving DecidableEq, Repr

/-- The initial state of SHA-224 (FIPS 180-4, 5.3.2). -/
def sha256.init224 : sha256.State :=
  { a := 0xc1059ed8, b := 0x367cd507, c := 0x3070dd17, d := 0xf70e5939,
    e := 0xffc00b31, f := 0x68581511, g := 0x64f98fa7, h := 0xbefa4fa4 }

/-- Rotation of a 32-bit word to the right. -/
def sha256.rotr (x n : Nat) : Nat := (x >>> n ||| x <<< (32 - n)) % 4294967296

/-- The message with its padding: the byte 0x80, zero bytes up to 56 modulo 64, and the
length in bits as 8 big-endian bytes. -/
def sha256.pad (msg : Octets) : Octets :=
  msg ++ [0x80] ++ List.replicate ((119 - msg.length % 64) % 64) 0 ++
    (List.range 8).map (fun i => (msg.length * 8) >>> (8 * (7 - i)) % 256)

/-- A 32-bit word of 4 big-endian bytes. -/
def sha256.word (bs : Octets) : Nat :=
  bs.foldl (fun acc b => acc * 256 + b % 256) 0

/-- The 16 words of a block of 64 bytes. -/
def sha256.words (block : Octets) : List Nat :=
  (List.range 16).map fun i => sha256.word ((block.drop (4 * i)).take 4)

/-- The message schedule: the 16 words of the block extended to 64 words. -/
def sha256.schedule (block : Octets) : List Nat :=
  (List.range 48).foldl (fun w i =>
    let w15 := w.getD (i + 1) 0
    let w2 := w.getD (i + 14) 0
    let s0 := sha256.rotr w15 7 ^^^ sha256.rotr w15 18 ^^^ (w15 >>> 3)
    let s1 := sha256.rotr w2 17 ^^^ sha256.rotr w2 19 ^^^ (w2 >>> 10)
    w ++ [(w.getD i 0 + s0 + w.getD (i + 9) 0 + s1) % 4294967296]) (sha256.words block)

/-- One round of the compression function. -/
def sha256.round (s : sha256.State) (kw : Nat × Nat) : sha256.State :=
  let S1 := sha256.rotr s.e 6 ^^^ sha256.rotr s.e 11 ^^^ sha256.rotr s.e 25
  let ch := (s.e &&& s.f) ^^^ ((s.e ^^^ 4294967295) &&& s.g)
  let t1 := (s.h + S1 + ch + kw.1 + kw.2) % 4294967296
  let S0 := sha256.rotr s.a 2 ^^^ sha256.rotr s.a 13 ^^^ sha256.rotr s.a 22
  let maj := (s.a &&& s.b) ^^^ (s.a &&& s.c) ^^^ (s.b &&& s.c)
  let t2 := (S0 + maj) % 4294967296
  { a := (t1 + t2) % 4294967296, b := s.a, c := s.b, d := s.c,
    e := (s.d + t1) % 4294967296, f := s.e, g := s.f, h := s.g }

/-- The compression of one block of 64 bytes into the state. -/
def sha256.block (s : sha256.State) (block : Octets) : sha256.State :=
  let t := (sha256.K.zip (sha256.schedule block)).foldl sha256.round s
  { a := (s.a + t.a) % 4294967296, b := (s.b + t.b) % 4294967296,
    c := (s.c + t.c) % 4294967296, d := (s.d + t.d) % 4294967296,
    e := (s.e + t.e) % 4294967296, f := (s.f + t.f) % 4294967296,
    g := (s.g + t.g) % 4294967296, h := (s.h + t.h) % 4294967296 }

/-- The 4 big-endian bytes of a 32-bit word. -/
def sha256.bytes (w : Nat) : Octets :=
  [w / 16777216 % 256, w / 65536 % 256, w / 256 % 256, w % 256]

/-- The standard library's `sha256.Sum224`, the SHA-224 digest of FIPS 180-4, which is
also what `sha256.New224()`, `Write(data)` and `Sum(nil)` give: the first seven words of
the state after the blocks of the padded message, 28 bytes. -/
def sha256.Sum224 (data : Octets) : Octets :=
  let padded := sha256.pad data
  let s := (List.range (padded.length / 64)).foldl
    (fun s i => sha256.block s ((padded.drop (64 * i)).take 64)) sha256.init224
  sha256.bytes s.a ++ sha256.bytes s.b ++ sha256.bytes s.c ++ sha256.bytes s.d ++
    sha256.bytes s.e ++ sha256.bytes s.f ++ sha256.bytes s.g

/-! ## Package `task`: the function `Any` (`task.go`) -/

/-- Where one of the goroutines that `Any` starts is in its body
`if err := currentTask(runtimeCtx); err != nil { retErr = err }; cancel()`.
A task is given by what it returns, which may depend on whether `runtimeCtx` has been
cancelled when it returns. -/
inductive AnyGoroutine (ε : Type) where
  | running (currentTask : Bool → Option ε) : AnyGoroutine ε
  | returned (err : Option ε) : AnyGoroutine ε
  | assigned : AnyGoroutine ε
  | exited : AnyGoroutine ε

/-- The state of a call of `Any` with a context that is never cancelled: the shared
variable `retErr`, whether `runtimeCtx` has been cancelled, the goroutines, and what
`Any` has returned, once it has. -/
structure AnyState (ε : Type) where
  retErr : Option ε
  runtimeDone : Bool
  goroutines : List (AnyGoroutine ε)
  returned : Option (Option (ErrorValue ε))

/-- Who takes the next step: the goroutine of the task with the given index, or the
goroutine that called `Any`. -/
inductive AnyStep where
  | goroutine (i : Nat) : AnyStep
  | caller : AnyStep
  deriving DecidableEq, Repr

/-- The state of `Any` when the goroutines have been started and none has taken a
step. -/
def Any.start {ε : Type} (tasks : List (Bool → Option ε)) : AnyState ε :=
  { retErr := none, runtimeDone := false, goroutines := tasks.map AnyGoroutine.running,
    returned := none }

/-- One step of `Any`; `none` when the step cannot be taken. A goroutine lets its task
return, then runs `if err != nil { retErr = err }`, then `cancel()`. The caller waits in
`select` for `runtimeCtx.Done()` (`ctx.Done()` never fires) and then returns
`E.Errors(retErr, ctx.Err())`, with `ctx.Err()` being `nil`; the deferred `cancel()`
runs as it returns. -/
def Any.step {ε : Type} (Error : ε → String) (s : AnyState ε) : AnyStep → Option (AnyState ε)
  | .goroutine i =>
    match s.goroutines.get? i with
    | some (.running currentTask) =>
      some { s with goroutines := s.goroutines.set i (.returned (currentTask s.runtimeDone)) }
    | some (.returned err) =>
      some { s with retErr := if err.isSome then err else s.retErr,
                    goroutines := s.goroutines.set i .assigned }
    | some .assigned =>
      some { s with runtimeDone := true, goroutines := s.goroutines.set i .exited }
    | _ => none
  | .caller =>
    if s.returned.isSome then none
    else if s.runtimeDone then
      some { s with returned := some (Errors Error [s.retErr, none]), runtimeDone := true }
    else none

/-- A sequence of steps of `Any`, one after the other; `none` when one of them cannot be
taken. -/
def Any.run {ε : Type} (Error : ε → String) (s : AnyState ε) :
    List AnyStep → Option (AnyState ε)
  | [] => some s
  | step :: rest => (Any.step Error s step).bind fun s1 => Any.run Error s1 rest

/-- A task that succeeds. -/
def taskSucceeds {ε : Type} : Bool → Option ε := fun _ => none

/-- A task that fails with `err`. -/
def taskFails {ε : Type} (err : ε) : Bool → Option ε := fun _ => some err

/-- A task that waits for `runtimeCtx` to be cancelled and then returns `err` (in Go,
`ctx.Err()`), and that succeeds when it returns before that. -/
def taskUntilCancelled {ε : Type} (err : ε) : Bool → Option ε :=
  fun cancelled => if cancelled then some err else none

/-! ## Further values for the examples -/

/-- A serializer for the examples that puts the port before the address, with the tags
of `exampleSerializer`. -/
def examplePortFirstSerializer : Serializer :=
  NewSerializer [PortThenAddress,
                 AddressFamilyByte 1 exampleFamilies.AddressFamilyIPv4,
                 AddressFamilyByte 4 exampleFamilies.AddressFamilyIPv6,
                 AddressFamilyByte 3 exampleFamilies.AddressFamilyFqdn]

/-- The value of a hexadecimal digit written as one of the ASCII characters `0` to `9`
(48 to 57) and `a` to `f` (97 to 102). -/
def hexValue (c : Nat) : Nat := if c < 58 then c - 48 else c - 87

/-- The bytes that a string of lowercase hexadecimal digits stands for, two digits to a
byte, the high digit first. -/
def hexDecode : Octets → Octets
  | c1 :: c2 :: rest => (hexValue c1 * 16 + hexValue c2) :: hexDecode rest
  | _ => []

/-! ## Lemmas: writers and readers -/

/-- Writing two lists of slices one after the other is writing the first and, if that
went through, the second. -/
theorem writeAll_append {σ : Type} [Writer σ] (w : σ) (ps qs : List Octets) :
    writeAll w (ps ++ qs) =
      match writeAll w ps with
      | (some err, w1) => (some err, w1)
      | (none, w1) => writeAll w1 qs := by
  induction ps generalizing w with
  | nil => simp [writeAll]
  | cons p ps ih =>
    simp only [List.cons_append, writeAll]
    rcases h : Writer.Write w p with ⟨_ | e, w1⟩
    · simp [ih]
    · simp

/-- Writing a list of one slice is one write. -/
theorem writeAll_singleton {σ : Type} [Writer σ] (w : σ) (p : Octets) :
    writeAll w [p] = Writer.Write w p := by
  simp only [writeAll]
  rcases h : Writer.Write w p with ⟨_ | e, w1⟩ <;> simp

/-- On every writer, failing or not, `WriteAddress` makes the writes of
`Socksaddr.chunks` in order and stops at the first one that fails, when the name, if
any, has at most 255 bytes. -/
theorem WriteAddress_eq_writeAll {σ : Type} [Writer σ] (F : Families) (s : Serializer)
    (w : σ) (a : Socksaddr) (ha : a.NameFits) :
    s.WriteAddress F w a = writeAll w (a.chunks F) := by
  unfold Serializer.WriteAddress Socksaddr.chunks
  rcases a with ⟨addr, port, fqdn⟩
  cases addr with
  | zero =>
    have hlen : fqdn.length ≤ 255 := ha rfl
    have hmod : fqdn.length % 256 = fqdn.length := Nat.mod_eq_of_lt (by omega)
    have hgt : ¬ fqdn.length > 255 := by omega
    simp only [Socksaddr.IsIPv4, Socksaddr.IsIPv6, NetipAddr.Is4, NetipAddr.Is6,
      NetipAddr.IsValid, rw.WriteByte, WriteSocksString, rw.WriteString, writeAll,
      Bool.false_eq_true, ↓reduceIte, hmod, hgt]
    rcases h1 : Writer.Write w [F.AddressFamilyFqdn] with ⟨_ | e, w1⟩
    · rcases h2 : Writer.Write w1 [fqdn.length] with ⟨_ | e, w2⟩
      · rcases h3 : Writer.Write w2 fqdn with ⟨_ | e, w3⟩ <;> simp [h1, h2, h3]
      · simp [h1, h2]
    · simp [h1]
  | ip4 b =>
    simp only [Socksaddr.IsIPv4, Socksaddr.IsIPv6, NetipAddr.Is4, NetipAddr.Is6,
      NetipAddr.IsValid, rw.WriteByte, rw.WriteBytes, writeAll, Socksaddr.Unwrap,
      NetipAddr.AsSlice, ↓reduceIte]
    rcases h1 : Writer.Write w [F.AddressFamilyIPv4] with ⟨_ | e, w1⟩
    · rcases h2 : Writer.Write w1 b with ⟨_ | e, w2⟩ <;> simp [h1, h2]
    · simp [h1]
  | ip6 b =>
    simp only [Socksaddr.IsIPv4, Socksaddr.IsIPv6, NetipAddr.Is4, NetipAddr.Is6,
      NetipAddr.IsValid, rw.WriteByte, rw.WriteBytes, writeAll, Socksaddr.Unwrap,
      NetipAddr.AsSlice, Bool.false_eq_true, ↓reduceIte]
    rcases h1 : Writer.Write w [F.AddressFamilyIPv6] with ⟨_ | e, w1⟩
    · rcases h2 : Writer.Write w1 b with ⟨_ | e, w2⟩ <;> simp [h1, h2]
    · simp [h1]

/-- On every writer, failing or not, `WriteAddrPort` makes the writes of
`Serializer.chunks` in order and stops at the first one that fails. -/
theorem WriteAddrPort_eq_writeAll {σ : Type} [Writer σ] (F : Families) (s : Serializer)
    (w : σ) (a : Socksaddr) (ha : a.NameFits) :
    s.WriteAddrPort F w a = writeAll w (s.chunks F a) := by
  unfold Serializer.WriteAddrPort Serializer.chunks
  cases hp : s.portFirst with
  | false =>
    simp only [Bool.not_false, ↓reduceIte, Bool.false_eq_true, WriteAddress_eq_writeAll F s _ a ha,
      writeAll_append, Serializer.WritePort, writeAll_singleton]
  | true =>
    simp only [Bool.not_true, Bool.false_eq_true, ↓reduceIte, Serializer.WritePort, writeAll,
      WriteAddress_eq_writeAll F s _ a ha]

/-- A transport that accepts every write records each slice as one write. -/
theorem writeAll_conn (c : Conn) (h : c.quota = none) (ps : List Octets) :
    writeAll c ps = (none, { c with writes := c.writes ++ ps }) := by
  induction ps generalizing c with
  | nil => simp [writeAll]
  | cons p ps ih =>
    have hw : Writer.Write c p = (none, { c with writes := c.writes ++ [p] }) := by
      show Conn.Write c p = _
      simp [Conn.Write, h]
    simp only [writeAll, hw]
    rw [ih { c with writes := c.writes ++ [p] } h]
    simp

/-- The front of a region up to the end of a slice copied at offset `n`. -/
theorem take_splice (d p r : Octets) (n : Nat) (h : n ≤ d.length) :
    (d.take n ++ p ++ r).take (n + p.length) = d.take n ++ p := by
  apply List.take_left'
  simp [List.length_take, h]

/-- Copying a slice at offset `n` leaves the region behind the slice as it was. -/
theorem drop_splice (d p : Octets) (n k : Nat) (h : n ≤ d.length) :
    (d.take n ++ p ++ d.drop (n + p.length)).drop (n + p.length + k) =
      d.drop (n + p.length + k) := by
  have hl : (d.take n ++ p).length = n + p.length := by simp [List.length_take, h]
  rw [← hl, List.drop_append, List.drop_drop, hl]

/-- The buffer after `p` has been written at its write cursor. -/
theorem Buffer.Write_ok (b : Buffer) (p : Octets) (hroom : p.length ≤ b.FreeLen) :
    b.Write p = (none, { b with data := b.data.take b.stop ++ p ++ b.data.drop (b.stop + p.length),
                                stop := b.stop + p.length }) := by
  simp [Buffer.Write, hroom]

/-- Writes that fit into the free tail of a buffer all succeed and append their bytes at
the write cursor. -/
theorem writeAll_buffer (b : Buffer) (ps : List Octets) (hstop : b.stop ≤ b.data.length)
    (hroom : ps.flatten.length ≤ b.FreeLen) :
    writeAll b ps =
      (none, { b with data := b.data.take b.stop ++ ps.flatten ++
                                b.data.drop (b.stop + ps.flatten.length),
                      stop := b.stop + ps.flatten.length }) := by
  induction ps generalizing b with
  | nil => simp [writeAll]
  | cons p ps ih =>
    simp only [List.flatten_cons, List.length_append] at hroom
    have hfree : b.FreeLen = b.data.length - b.stop := rfl
    have hw : Writer.Write b p = (none, { b with
        data := b.data.take b.stop ++ p ++ b.data.drop (b.stop + p.length),
        stop := b.stop + p.length }) := by
      show Buffer.Write b p = _
      exact Buffer.Write_ok b p (by omega)
    simp only [writeAll, hw]
    have hlen : (b.data.take b.stop ++ p ++ b.data.drop (b.stop + p.length)).length
        = b.data.length := by
      simp [List.length_take, List.length_drop]; omega
    rw [ih]
    · simp only [List.flatten_cons, List.length_append]
      rw [take_splice _ _ _ _ hstop, drop_splice _ _ _ _ hstop]
      simp [List.append_assoc, Nat.add_assoc]
    · simp only [hlen]; omega
    · simp only [Buffer.FreeLen, hlen]; omega

/-- The function `io.ReadFull` delivers the first `n` bytes when they are there. -/
theorem ReadFull_append (c : Conn) (p rest : Octets) (n : Nat) (hn : p.length = n)
    (hc : c.input = p ++ rest) :
    ReadFull c n = (p, none, { c with input := rest }) := by
  subst hn
  simp [ReadFull, hc]

/-- On a transport that does not cut the stream, a `Read` delivers as many bytes as it
was asked for, or all that are there. -/
theorem readLen_whole (c : Conn) (n : Nat) (hcuts : c.cuts = []) :
    c.readLen n = min n c.input.length := by
  simp [Conn.readLen, hcuts]

/-- With one cut in the stream that is still ahead, a `Read` delivers at most the bytes in
front of the cut. -/
theorem readLen_cut (c : Conn) (n k : Nat) (hcuts : c.cuts = [k]) (hk : k < c.input.length) :
    c.readLen n = min n (c.input.length - k) := by
  simp [Conn.readLen, hcuts, hk]

/-- A `Read` delivers no more bytes than it was asked for and no more than are there, and
at least one byte when it was asked for one and one is there. -/
theorem readLen_bounds (c : Conn) (n : Nat) :
    c.readLen n ≤ n ∧ c.readLen n ≤ c.input.length ∧
      (0 < n → c.input ≠ [] → 1 ≤ c.readLen n) := by
  have hmax : ∀ (l : List Nat) (L m : Nat), (∀ x ∈ l, x < L) → m < L → l.foldl max m < L := by
    intro l
    induction l with
    | nil => intro L m _ hm; simpa using hm
    | cons x xs ih =>
      intro L m hl hm
      simp only [List.foldl_cons]
      apply ih
      · exact fun y hy => hl y (List.mem_cons_of_mem _ hy)
      · exact max_lt hm (hl x (List.mem_cons_self _ _))
  refine ⟨Nat.min_le_left _ _, ?_, ?_⟩
  · exact le_trans (Nat.min_le_right _ _) (Nat.sub_le _ _)
  · intro hn hne
    have hpos : 0 < c.input.length := List.length_pos.mpr hne
    have := hmax (c.cuts.filter (fun k => k < c.input.length)) c.input.length 0
      (fun x hx => by simpa using (List.mem_filter.mp hx).2) hpos
    unfold Conn.readLen
    omega

/-- The method `Read` delivers the first `n` bytes when they are there, on a transport
that does not cut the stream. -/
theorem Conn.Read_append (c : Conn) (p rest : Octets) (n : Nat) (hn : p.length = n)
    (hpos : 0 < n) (hc : c.input = p ++ rest) (hcuts : c.cuts = []) :
    c.Read n = (p, none, { c with input := rest }) := by
  subst hn
  have hne : p ≠ [] := by
    intro h; subst h; simp at hpos
  have h0 : p.length ≠ 0 := by omega
  simp [Conn.Read, readLen_whole c _ hcuts, hc, h0, hne]

/-- The function `rw.ReadByte` delivers the first byte of the input. -/
theorem ReadByte_cons (c : Conn) (b : Nat) (rest : Octets) (hc : c.input = b :: rest) :
    rw.ReadByte c = (.ok b, { c with input := rest }) := by
  have h := ReadFull_append c [b] rest 1 rfl (by simpa using hc)
  simp [rw.ReadByte, h]

/-- The function `rw.ReadBytes` delivers the first `n` bytes when they are there. -/
theorem ReadBytes_append (c : Conn) (p rest : Octets) (n : Nat) (hn : p.length = n)
    (hc : c.input = p ++ rest) :
    rw.ReadBytes c n = (.ok p, { c with input := rest }) := by
  simp [rw.ReadBytes, ReadFull_append c p rest n hn hc]

/-- The function `rw.SkipN` drops the first `n` bytes when they are there. -/
theorem SkipN_append (c : Conn) (p rest : Octets) (n : Nat) (hn : p.length = n)
    (hc : c.input = p ++ rest) :
    rw.SkipN c n = (none, { c with input := rest }) := by
  simp [rw.SkipN, ReadFull_append c p rest n hn hc]

/-- A read that fills the whole array leaves none of its zero bytes. -/
theorem arrayFilled_full (n : Nat) (bs : Octets) (h : bs.length = n) :
    arrayFilled n bs = bs := by
  subst h
  simp [arrayFilled]

/-- Big-endian decoding undoes big-endian encoding of a 16-bit value. -/
theorem uint16_bigEndian (p : Nat) (hp : p < 65536) :
    uint16OfBigEndian (bigEndian16 p) = p := by
  simp only [uint16OfBigEndian, bigEndian16, List.headD_cons, List.tail_cons]
  omega

/-- The method `ReadPort` reads back a 16-bit port written in big-endian order. -/
theorem ReadPort_append (s : Serializer) (c : Conn) (p : Nat) (rest : Octets) (hp : p < 65536)
    (hc : c.input = bigEndian16 p ++ rest) :
    s.ReadPort c = (.ok p, { c with input := rest }) := by
  have h := ReadBytes_append c (bigEndian16 p) rest 2 rfl hc
  simp [Serializer.ReadPort, h, uint16_bigEndian p hp]

/-- The method `ReadAddress` reads back what `WriteAddress` wrote for an address of the
data model, when the tag table sends the byte of the family constant of the address to
that family and, for an IPv4 or IPv6 address, the transport does not cut the stream. -/
theorem ReadAddress_chunks (F : Families) (hF : F.Valid) (s : Serializer) (a : Socksaddr)
    (hrep : a.Representable) (htag : mapIndex s.familyMap (a.family F) = a.family F)
    (c : Conn) (rest : Octets) (hc : c.input = (a.chunks F).flatten ++ rest)
    (hcuts : a.Addr.IsValid = true → c.cuts = []) :
    s.ReadAddress F c = (.ok { a with Port := 0 }, { c with input := rest }) := by
  obtain ⟨_, _, _, h46, h4f, h6f⟩ := hF
  rcases a with ⟨addr, port, fqdn⟩
  cases addr with
  | zero =>
    simp only [Socksaddr.Representable] at hrep
    simp only [Socksaddr.family, Socksaddr.IsIPv4, Socksaddr.IsIPv6, NetipAddr.Is4,
      NetipAddr.Is6, Bool.false_eq_true, ↓reduceIte] at htag
    simp only [Socksaddr.chunks, List.flatten_cons, List.flatten_nil, List.append_nil,
      List.singleton_append, List.cons_append] at hc
    have h1 := ReadByte_cons c _ _ hc
    have h2 := ReadByte_cons { c with input := fqdn.length :: (fqdn ++ rest) } fqdn.length
      (fqdn ++ rest) rfl
    have h3 := ReadBytes_append { c with input := fqdn ++ rest } fqdn rest fqdn.length rfl rfl
    simp [Serializer.ReadAddress, h1, htag, ReadSockString, h2, rw.ReadString, h3,
      Socksaddr.empty]
  | ip4 b =>
    simp only [Socksaddr.Representable] at hrep
    obtain ⟨hb, hfq⟩ := hrep
    subst hfq
    simp only [Socksaddr.family, Socksaddr.IsIPv4, NetipAddr.Is4, ↓reduceIte] at htag
    simp only [Socksaddr.chunks, List.flatten_cons, List.flatten_nil, List.append_nil,
      List.singleton_append, List.cons_append] at hc
    have h1 := ReadByte_cons c _ _ hc
    have h2 := Conn.Read_append { c with input := b ++ rest } b rest 4 hb (by omega) rfl
      (hcuts rfl)
    simp [Serializer.ReadAddress, h1, htag, h4f, h2, arrayFilled_full 4 b hb, AddrFrom4,
      Socksaddr.empty]
  | ip6 b =>
    simp only [Socksaddr.Representable] at hrep
    obtain ⟨hb, hfq⟩ := hrep
    subst hfq
    simp only [Socksaddr.family, Socksaddr.IsIPv4, Socksaddr.IsIPv6, NetipAddr.Is4,
      NetipAddr.Is6, Bool.false_eq_true, ↓reduceIte] at htag
    simp only [Socksaddr.chunks, List.flatten_cons, List.flatten_nil, List.append_nil,
      List.singleton_append, List.cons_append] at hc
    have h1 := ReadByte_cons c _ _ hc
    have h2 := Conn.Read_append { c with input := b ++ rest } b rest 16 hb (by omega) rfl
      (hcuts rfl)
    simp [Serializer.ReadAddress, h1, htag, h6f, Ne.symm h46, h2, arrayFilled_full 16 b hb,
      AddrFrom16, Socksaddr.empty, Socksaddr.Unwrap]

/-- The method `ReadAddrPort` reads back what `WriteAddrPort` wrote, in both port
orders, when the tag table sends the byte of the family constant of the address to that
family and, for an IPv4 or IPv6 address, the transport does not cut the stream. This is
the round trip the code does have. -/
theorem ReadAddrPort_chunks (F : Families) (hF : F.Valid) (s : Serializer) (a : Socksaddr)
    (hrep : a.Representable) (hport : a.Port < 65536)
    (htag : mapIndex s.familyMap (a.family F) = a.family F)
    (c : Conn) (rest : Octets) (hc : c.input = (s.chunks F a).flatten ++ rest)
    (hcuts : a.Addr.IsValid = true → c.cuts = []) :
    s.ReadAddrPort F c = (.ok a, { c with input := rest }) := by
  unfold Serializer.ReadAddrPort
  cases hp : s.portFirst with
  | false =>
    simp only [Serializer.chunks, hp, Bool.false_eq_true, ↓reduceIte, List.flatten_append,
      List.flatten_cons, List.flatten_nil, List.append_nil, List.append_assoc] at hc
    have h1 := ReadAddress_chunks F hF s a hrep htag c _ hc hcuts
    have h2 := ReadPort_append s { c with input := bigEndian16 a.Port ++ rest } a.Port rest
      hport rfl
    simp [h1, h2]
  | true =>
    simp only [Serializer.chunks, hp, ↓reduceIte, List.flatten_cons, List.append_assoc] at hc
    have h1 := ReadPort_append s c a.Port _ hport hc
    have h2 := ReadAddress_chunks F hF s a hrep htag
      { c with input := (a.chunks F).flatten ++ rest } rest rfl hcuts
    simp [h1, h2]

/-- The array of `n` bytes after a read of fewer bytes: the bytes read, then zero
bytes. -/
theorem arrayFilled_short (n : Nat) (bs : Octets) (h : bs.length ≤ n) :
    arrayFilled n bs = bs ++ List.replicate (n - bs.length) 0 := by
  unfold arrayFilled
  apply List.take_of_length_le
  simp
  omega

/-- The method `ReadAddress` after a tag byte that the tag table sends to IPv4, on every
transport: one `Read` call is made for the 4 address bytes, and the address returned is
made of the `k` bytes this call delivers, followed by zero bytes when it delivers fewer
than 4; no error is returned, and what the call did not deliver stays unread. -/
theorem ReadAddress_ip4_read (F : Families) (s : Serializer) (tag : Nat) (bs : Octets)
    (c : Conn) (htag : mapIndex s.familyMap tag = F.AddressFamilyIPv4)
    (hne : F.AddressFamilyIPv4 ≠ F.AddressFamilyFqdn) (hc : c.input = tag :: bs)
    (hbs : bs ≠ []) :
    s.ReadAddress F c =
      (.ok { Socksaddr.empty with
             Addr := AddrFrom4 (bs.take (({ c with input := bs } : Conn).readLen 4) ++
               List.replicate (4 - min (({ c with input := bs } : Conn).readLen 4) bs.length) 0) },
        { c with input := bs.drop (({ c with input := bs } : Conn).readLen 4) }) := by
  have hk := (readLen_bounds { c with input := bs } 4).1
  have h4 : (bs.take (({ c with input := bs } : Conn).readLen 4)).length ≤ 4 := by
    rw [List.length_take]
    omega
  have hr : ({ c with input := bs } : Conn).Read 4 =
      (bs.take (({ c with input := bs } : Conn).readLen 4), none,
        { c with input := bs.drop (({ c with input := bs } : Conn).readLen 4) }) := by
    simp [Conn.Read, hbs]
  simp only [Serializer.ReadAddress, ReadByte_cons c tag bs hc, htag, hne, ↓reduceIte, hr,
    arrayFilled_short 4 _ h4, List.length_take]

/-- The method `ReadAddress` after a tag byte that the tag table sends to IPv6, on every
transport: the address returned is made of the bytes the one `Read` call delivers,
followed by zero bytes when it delivers fewer than 16. -/
theorem ReadAddress_ip6_read (F : Families) (s : Serializer) (tag : Nat) (bs : Octets)
    (c : Conn) (htag : mapIndex s.familyMap tag = F.AddressFamilyIPv6)
    (hne : F.AddressFamilyIPv6 ≠ F.AddressFamilyFqdn)
    (hne4 : F.AddressFamilyIPv6 ≠ F.AddressFamilyIPv4) (hc : c.input = tag :: bs)
    (hbs : bs ≠ []) :
    s.ReadAddress F c =
      (.ok { Socksaddr.empty with
             Addr := AddrFrom16 (bs.take (({ c with input := bs } : Conn).readLen 16) ++
               List.replicate
                 (16 - min (({ c with input := bs } : Conn).readLen 16) bs.length) 0) },
        { c with input := bs.drop (({ c with input := bs } : Conn).readLen 16) }) := by
  have hk := (readLen_bounds { c with input := bs } 16).1
  have h16 : (bs.take (({ c with input := bs } : Conn).readLen 16)).length ≤ 16 := by
    rw [List.length_take]
    omega
  have hr : ({ c with input := bs } : Conn).Read 16 =
      (bs.take (({ c with input := bs } : Conn).readLen 16), none,
        { c with input := bs.drop (({ c with input := bs } : Conn).readLen 16) }) := by
    simp [Conn.Read, hbs]
  simp only [Serializer.ReadAddress, ReadByte_cons c tag bs hc, htag, hne, hne4, ↓reduceIte, hr,
    arrayFilled_short 16 _ h16, List.length_take, Socksaddr.Unwrap]

/-- The method `ReadPort` on two bytes. -/
theorem ReadPort_cons (s : Serializer) (c : Conn) (p1 p2 : Nat) (rest : Octets)
    (hc : c.input = p1 :: p2 :: rest) :
    s.ReadPort c = (.ok (p1 * 256 + p2), { c with input := rest }) := by
  have h := ReadBytes_append c [p1, p2] rest 2 rfl (by simpa using hc)
  simp [Serializer.ReadPort, h, uint16OfBigEndian]

/-- The method `ReadAddrPort` of a serializer that reads the address first, on the bytes
of an IPv4 address `a.b.c.d` and what follows them, from a transport that cuts the
stream after the byte `b`: the `Read` call for the address delivers `a`, `b`, the
address returned is `a.b.0.0`, and the bytes `c`, `d` are taken for the port. No error
is returned. -/
theorem ReadAddrPort_cut_ip4 (F : Families) (s : Serializer) (tag a b c d : Nat)
    (rest : Octets) (r : Conn) (htag : mapIndex s.familyMap tag = F.AddressFamilyIPv4)
    (hne : F.AddressFamilyIPv4 ≠ F.AddressFamilyFqdn) (hfirst : s.portFirst = false)
    (hin : r.input = tag :: a :: b :: c :: d :: rest) (hcuts : r.cuts = [rest.length + 2]) :
    s.ReadAddrPort F r =
      (.ok { Addr := .ip4 [a, b, 0, 0], Port := c * 256 + d, Fqdn := [] },
        { r with input := rest }) := by
  have hk : ({ r with input := a :: b :: c :: d :: rest } : Conn).readLen 4 = 2 := by
    rw [readLen_cut { r with input := a :: b :: c :: d :: rest } 4 (rest.length + 2) hcuts
      (by simp)]
    simp only [List.length_cons]
    omega
  have h1 := ReadAddress_ip4_read F s tag (a :: b :: c :: d :: rest) r htag hne hin (by simp)
  rw [hk] at h1
  have h2 := ReadPort_cons s { r with input := c :: d :: rest } c d rest rfl
  have h3 : s.ReadAddress F r =
      (.ok { Addr := .ip4 [a, b, 0, 0], Port := 0, Fqdn := [] },
        { r with input := c :: d :: rest }) := by
    rw [h1]
    simp [AddrFrom4, Socksaddr.empty, List.replicate]
  simp [Serializer.ReadAddrPort, hfirst, h3, h2]

/-- The encoding of a destination is the concatenation of the slices `WriteAddrPort`
writes. -/
theorem wire_eq_chunks (F : Families) (s : Serializer) (a : Socksaddr) (ha : a.NameFits) :
    s.wire F a = (s.chunks F a).flatten := by
  rw [Serializer.wire, WriteAddrPort_eq_writeAll F s _ a ha, writeAll_conn Conn.fresh rfl]
  simp [Conn.sent, Conn.fresh]

/-- The encoding of an address is the concatenation of the slices `WriteAddress` writes.
-/
theorem addressWire_eq_chunks (F : Families) (s : Serializer) (a : Socksaddr) (ha : a.NameFits) :
    s.addressWire F a = (a.chunks F).flatten := by
  rw [Serializer.addressWire, WriteAddress_eq_writeAll F s _ a ha, writeAll_conn Conn.fresh rfl]
  simp [Conn.sent, Conn.fresh]

/-- An address of the data model has a name of at most 255 bytes, if it has one. -/
theorem NameFits_of_Representable (a : Socksaddr) (h : a.Representable) : a.NameFits := by
  intro hz
  simpa [Socksaddr.Representable, hz] using h

/-- The number of bytes in the slices `WriteAddress` writes is `AddressLen`. -/
theorem chunks_length (F : Families) (s : Serializer) (a : Socksaddr) (h : a.Representable) :
    (a.chunks F).flatten.length = s.AddressLen a := by
  rcases a with ⟨addr, port, fqdn⟩
  cases addr <;>
    simp_all [Socksaddr.Representable, Socksaddr.chunks, Serializer.AddressLen,
      Socksaddr.IsIPv4, Socksaddr.IsIPv6, NetipAddr.Is4, NetipAddr.Is6]
  omega

/-- The number of bytes in the slices `WriteAddrPort` writes is `AddrPortLen`. -/
theorem portChunks_length (F : Families) (s : Serializer) (a : Socksaddr)
    (h : a.Representable) : (s.chunks F a).flatten.length = s.AddrPortLen a := by
  have h1 := chunks_length F s a h
  unfold Serializer.chunks Serializer.AddrPortLen
  split <;> simp [bigEndian16, h1]

/-- When `rw.ReadByte` succeeds, the input was not empty and the byte is its first one.
-/
theorem ReadByte_ok (c c1 : Conn) (b : Nat) (h : rw.ReadByte c = (.ok b, c1)) :
    c.input ≠ [] ∧ b = c.input.headD 0 ∧ c1 = { c with input := c.input.drop 1 } := by
  unfold rw.ReadByte ReadFull at h
  rcases hin : c.input with _ | ⟨x, xs⟩
  · simp [hin] at h
  · simp [hin] at h
    simp [h.1, h.2]

/-- When `ReadAddress` returns an IPv4 address, the tag table has sent the first byte of
the input to the constant `AddressFamilyIPv4`. -/
theorem ReadAddress_ok_ip4 (F : Families) (s : Serializer) (c c1 : Conn) (x : Socksaddr)
    (h : s.ReadAddress F c = (.ok x, c1)) (hx : x.Addr.Is4 = true) :
    c.input ≠ [] ∧ mapIndex s.familyMap (c.input.headD 0) = F.AddressFamilyIPv4 := by
  unfold Serializer.ReadAddress at h
  rcases hb : rw.ReadByte c with ⟨_ | af, r1⟩
  · simp [hb] at h
  · obtain ⟨hne, haf, -⟩ := ReadByte_ok c r1 af hb
    refine ⟨hne, ?_⟩
    rw [← haf]
    simp only [hb] at h
    by_cases hf : mapIndex s.familyMap af = F.AddressFamilyFqdn
    · simp only [hf, ↓reduceIte] at h
      rcases hs : ReadSockString r1 with ⟨_ | fq, r2⟩
      · simp [hs] at h
      · simp [hs] at h
        rw [← h.1] at hx
        simp [Socksaddr.empty, NetipAddr.Is4] at hx
    · simp only [hf, ↓reduceIte] at h
      by_cases h4 : mapIndex s.familyMap af = F.AddressFamilyIPv4
      · exact h4
      · simp only [h4, ↓reduceIte] at h
        by_cases h6 : mapIndex s.familyMap af = F.AddressFamilyIPv6
        · simp only [h6, ↓reduceIte] at h
          rcases hr : r1.Read 16 with ⟨bs, _ | e, r2⟩
          · simp [hr] at h
            rw [← h.1] at hx
            simp [Socksaddr.empty, Socksaddr.Unwrap, AddrFrom16, NetipAddr.Is4] at hx
          · simp [hr] at h
        · simp [h6] at h

/-- When `ReadPort` succeeds, it has consumed two bytes. -/
theorem ReadPort_ok (s : Serializer) (c c1 : Conn) (p : Nat) (h : s.ReadPort c = (.ok p, c1)) :
    c1.input = c.input.drop 2 := by
  unfold Serializer.ReadPort rw.ReadBytes ReadFull at h
  by_cases hl : 2 ≤ c.input.length
  · simp [hl] at h
    simp [← h.2]
  · by_cases he : c.input = []
    · simp [hl, he] at h
    · simp [hl, he] at h

/-- When `ReadAddrPort` returns an IPv4 address, the tag table has sent the tag byte of
the input to the constant `AddressFamilyIPv4`. -/
theorem ReadAddrPort_ok_ip4 (F : Families) (s : Serializer) (c c1 : Conn) (x : Socksaddr)
    (h : s.ReadAddrPort F c = (.ok x, c1)) (hx : x.Addr.Is4 = true) :
    mapIndex s.familyMap ((if s.portFirst then c.input.drop 2 else c.input).headD 0)
      = F.AddressFamilyIPv4 := by
  unfold Serializer.ReadAddrPort at h
  cases hp : s.portFirst with
  | false =>
    simp only [hp, Bool.not_false, ↓reduceIte] at h
    rcases ha : s.ReadAddress F c with ⟨_ | addr, r1⟩
    · simp [ha] at h
    · simp only [ha] at h
      rcases hq : s.ReadPort r1 with ⟨_ | port, r2⟩
      · simp [hq] at h
      · simp [hq] at h
        have hx2 : addr.Addr.Is4 = true := by rw [← h.1] at hx; exact hx
        simpa using (ReadAddress_ok_ip4 F s c r1 addr ha hx2).2
  | true =>
    simp only [hp, Bool.not_true, Bool.false_eq_true, ↓reduceIte] at h
    rcases hq : s.ReadPort c with ⟨_ | port, r1⟩
    · simp [hq] at h
    · simp only [hq] at h
      rcases ha : s.ReadAddress F r1 with ⟨_ | addr, r2⟩
      · simp [ha] at h
      · simp [ha] at h
        have hx2 : addr.Addr.Is4 = true := by rw [← h.1] at hx; exact hx
        have := (ReadAddress_ok_ip4 F s r1 r2 addr ha hx2).2
        rw [ReadPort_ok s c r1 port hq] at this
        simpa using this

/-- Two asserted runs of writes in a row are one asserted run. -/
theorem Must_writeAll_bind {σ α : Type} [Writer σ] (w : σ) (ps qs : List Octets)
    (f : σ → Option α) :
    (Must (writeAll w ps)).bind (fun w1 => (Must (writeAll w1 qs)).bind f)
      = (Must (writeAll w (ps ++ qs))).bind f := by
  rw [writeAll_append]
  rcases writeAll w ps with ⟨_ | e, w1⟩ <;> simp [Must]

/-- Two asserted runs of writes in a row are one asserted run, at the end of a chain. -/
theorem Must_writeAll_last {σ : Type} [Writer σ] (w : σ) (ps qs : List Octets) :
    (Must (writeAll w ps)).bind (fun w1 => Must (writeAll w1 qs))
      = Must (writeAll w (ps ++ qs)) := by
  rw [writeAll_append]
  rcases writeAll w ps with ⟨_ | e, w1⟩ <;> simp [Must]

/-- The method `Buffer.Write` as a run of one write. -/
theorem Buffer_Write_eq_writeAll (b : Buffer) (p : Octets) : b.Write p = writeAll b [p] :=
  (writeAll_singleton b p).symm

/-- The method `Buffer.WriteByte` as a run of one write. -/
theorem Buffer_WriteByte_eq_writeAll (b : Buffer) (c : Nat) :
    b.WriteByte c = writeAll b [[c]] :=
  (writeAll_singleton b [c]).symm

/-- One write as a run of one write. -/
theorem Writer_Write_eq_writeAll {σ : Type} [Writer σ] (w : σ) (p : Octets) :
    Writer.Write w p = writeAll w [p] :=
  (writeAll_singleton w p).symm

/-- Writes that fill an empty buffer exactly leave it holding the bytes written. -/
theorem writeAll_fill (region : Octets) (ps : List Octets)
    (h : ps.flatten.length = region.length) :
    writeAll (Buffer.With region) ps
      = (none, { data := ps.flatten, start := 0, stop := region.length, released := 0 }) := by
  rw [writeAll_buffer (Buffer.With region) ps (by simp [Buffer.With])
    (by simp [Buffer.With, Buffer.FreeLen, h])]
  simp [Buffer.With, h]

/-- The payload of a buffer after a header of `n` bytes has been put in front of it, in
its headroom. -/
theorem splice_Bytes (d hdr : Octets) (s e n : Nat) (hn : n ≤ s) (hse : s ≤ e)
    (hed : e ≤ d.length) (hh : hdr.length = n) :
    ((d.take (s - n) ++ hdr ++ d.drop (s - n + hdr.length)).take e).drop (s - n)
      = hdr ++ (d.take e).drop s := by
  have e1 : s - n + hdr.length = s := by omega
  rw [e1]
  have hA : (d.take (s - n)).length = s - n := by simp [List.length_take]; omega
  have hAh : (d.take (s - n) ++ hdr).length = s := by simp [List.length_append, hA, hh]; omega
  have e2 : e = (d.take (s - n) ++ hdr).length + (e - s) := by omega
  rw [e2, List.take_append, List.append_assoc]
  rw [← e2, List.drop_left' hA, List.drop_take]

/-- The payload of a buffer after a slice has been written at its write cursor. -/
theorem append_Bytes (d p : Octets) (s e : Nat) (hse : s ≤ e) (hed : e ≤ d.length) :
    ((d.take e ++ p ++ d.drop (e + p.length)).take (e + p.length)).drop s
      = (d.take e).drop s ++ p := by
  rw [take_splice d p _ e hed]
  rw [List.drop_append_of_le_length (by simp [List.length_take]; omega)]

/-- A new buffer of a given size is a view of as many zero bytes. -/
theorem StackNewSize_eq_With (n : Nat) : Buffer.StackNewSize n = Buffer.With (List.replicate n 0) :=
  rfl

/-- An asserted run of writes followed by nothing. -/
theorem Must_writeAll_some {σ : Type} [Writer σ] (w : σ) (ps : List Octets) :
    (Must (writeAll w ps)).bind (fun w1 => some w1) = Must (writeAll w ps) := by
  rcases writeAll w ps with ⟨_ | e, w1⟩ <;> simp [Must]

/-- The header buffer of `ClientHandshake`: no `Must` assertion fails, and the buffer
holds the header, followed by the payload when the two go out in one write. -/
theorem ClientHandshake_header_eq (F : Families) (ser : Serializer) (key : Octets)
    (dest : Socksaddr) (payload : Octets) (hkey : key.length = KeyLength)
    (hrep : dest.Representable) :
    ClientHandshake.header F ser key dest payload =
      some { data := key ++ CRLF ++ [CommandTCP] ++ (ser.chunks F dest).flatten ++ CRLF ++
                (if decide (payload.length > 0) &&
                    decide (KeyLength + ser.AddrPortLen dest + 5 + payload.length < 65535)
                  then payload else []),
             start := 0,
             stop := KeyLength + ser.AddrPortLen dest + 5 +
                (if decide (payload.length > 0) &&
                    decide (KeyLength + ser.AddrPortLen dest + 5 + payload.length < 65535)
                  then payload.length else 0),
             released := 0 } := by
  have hfit := NameFits_of_Representable dest hrep
  have hlen := portChunks_length F ser dest hrep
  unfold ClientHandshake.header
  simp only [Buffer_Write_eq_writeAll, Buffer_WriteByte_eq_writeAll,
    WriteAddrPort_eq_writeAll F ser _ dest hfit, StackNewSize_eq_With]
  cases hsingle : (decide (payload.length > 0) &&
      decide (KeyLength + ser.AddrPortLen dest + 5 + payload.length < 65535)) with
  | true =>
    simp only [Bool.not_true, Bool.false_eq_true, ↓reduceIte, Bool.not_false,
      Must_writeAll_last]
    rw [writeAll_fill]
    · simp [Must, List.length_replicate]
    · simp [List.length_replicate, hlen, hkey, CRLF]; omega
  | false =>
    simp only [Bool.not_false, ↓reduceIte, Bool.not_true, Bool.false_eq_true,
      Must_writeAll_some, Must_writeAll_last]
    rw [writeAll_fill]
    · simp [Must, List.length_replicate]
    · simp [List.length_replicate, hlen, hkey, CRLF]; omega

/-- A transport that accepts every write records the slice. -/
theorem Conn_Write_ok (c : Conn) (p : Octets) (hq : c.quota = none) :
    c.Write p = (none, { c with writes := c.writes ++ [p] }) := by
  simp [Conn.Write, hq]

/-- The method `ExtendHeader` succeeds when the headroom is large enough. -/
theorem ExtendHeader_ok (b : Buffer) (n : Nat) (hn : n ≤ b.start) :
    b.ExtendHeader n = some ((b.data.drop (b.start - n)).take n, { b with start := b.start - n }) := by
  simp [Buffer.ExtendHeader, hn]

/-- The header region `ExtendHeader` returns has the length asked for. -/
theorem region_length (b : Buffer) (n : Nat) (hn : n ≤ b.start) (hs : b.start ≤ b.data.length) :
    ((b.data.drop (b.start - n)).take n).length = n := by
  simp [List.length_take, List.length_drop]; omega

/-- The bytes `ClientHandshake` sends on a transport that accepts every write. -/
theorem ClientHandshake_sent (F : Families) (ser : Serializer) (conn : Conn) (key : Octets)
    (dest : Socksaddr) (payload : Octets) (hq : conn.quota = none)
    (hkey : key.length = KeyLength) (hrep : dest.Representable) :
    ∃ c1, ClientHandshake F ser conn key dest payload = some (none, c1) ∧
      c1.input = conn.input ∧
      c1.sent = conn.sent ++
        (key ++ CRLF ++ [CommandTCP] ++ (ser.chunks F dest).flatten ++ CRLF ++ payload) := by
  unfold ClientHandshake
  rw [ClientHandshake_header_eq F ser key dest payload hkey hrep]
  simp only [Option.some_bind]
  cases hsingle : (decide (payload.length > 0) &&
      decide (KeyLength + ser.AddrPortLen dest + 5 + payload.length < 65535)) with
  | true =>
    simp only [↓reduceIte, Bool.not_true, Bool.false_eq_true]
    rw [Conn_Write_ok _ _ hq]
    refine ⟨_, rfl, rfl, ?_⟩
    have hlen := portChunks_length F ser dest hrep
    have : (key ++ CRLF ++ [CommandTCP] ++ (ser.chunks F dest).flatten ++ CRLF ++ payload).length
        = KeyLength + ser.AddrPortLen dest + 5 + payload.length := by
      simp [hlen, hkey, CRLF]; omega
    simp only [Conn.sent, Buffer.Bytes, List.flatten_append, List.flatten_cons, List.flatten_nil,
      List.append_nil, List.drop_zero]
    rw [← this, List.take_length]
  | false =>
    simp only [Bool.false_eq_true, ↓reduceIte, Bool.not_false, List.append_nil, Nat.add_zero]
    rw [Conn_Write_ok _ _ hq]
    simp only
    rw [Conn_Write_ok _ _ (by exact hq)]
    refine ⟨_, rfl, rfl, ?_⟩
    have hlen := portChunks_length F ser dest hrep
    have : (key ++ CRLF ++ [CommandTCP] ++ (ser.chunks F dest).flatten ++ CRLF).length
        = KeyLength + ser.AddrPortLen dest + 5 := by
      simp [hlen, hkey, CRLF]; omega
    simp only [Conn.sent, Buffer.Bytes, List.flatten_append, List.flatten_cons, List.flatten_nil,
      List.append_nil, List.drop_zero]
    rw [← this, List.take_length]
    simp [List.append_assoc]

/-- The bytes `ClientHandshakeBuffer` sends on a transport that accepts every write,
for a payload buffer with room for the header before the payload. -/
theorem ClientHandshakeBuffer_sent (F : Families) (ser : Serializer) (conn : Conn)
    (key : Octets) (dest : Socksaddr) (buffer : Buffer) (hq : conn.quota = none)
    (hkey : key.length = KeyLength) (hrep : dest.Representable)
    (hse : buffer.start ≤ buffer.stop) (hed : buffer.stop ≤ buffer.data.length)
    (hroom : KeyLength + ser.AddrPortLen dest + 5 ≤ buffer.Start) :
    ∃ c1 b1, ClientHandshakeBuffer F ser conn key dest buffer = some (none, c1, b1) ∧
      c1.input = conn.input ∧
      c1.sent = conn.sent ++
        (key ++ CRLF ++ [CommandTCP] ++ (ser.chunks F dest).flatten ++ CRLF ++ buffer.Bytes) := by
  have hfit := NameFits_of_Representable dest hrep
  have hlen := portChunks_length F ser dest hrep
  unfold ClientHandshakeBuffer
  rw [ExtendHeader_ok buffer _ hroom]
  simp only [Option.some_bind, Buffer_Write_eq_writeAll, Buffer_WriteByte_eq_writeAll,
    WriteAddrPort_eq_writeAll F ser _ dest hfit, Must_writeAll_bind]
  have hreg := region_length buffer _ hroom (by omega)
  rw [writeAll_fill]
  · simp only [Must, Option.some_bind]
    rw [Conn_Write_ok _ _ hq]
    refine ⟨_, _, rfl, rfl, ?_⟩
    simp only [Conn.sent, Buffer.Bytes, Buffer.storeHeader, List.flatten_append,
      List.flatten_cons, List.flatten_nil, List.append_nil]
    rw [splice_Bytes buffer.data _ buffer.start buffer.stop
      (KeyLength + ser.AddrPortLen dest + 5) hroom hse hed
      (by simp [hlen, hkey, CRLF]; omega)]
    simp [List.append_assoc]
  · rw [hreg]
    simp [hlen, hkey, CRLF]; omega

/-- The payload of a buffer has `Len` bytes. -/
theorem Bytes_length (b : Buffer) (hed : b.stop ≤ b.data.length) :
    b.Bytes.length = b.Len := by
  simp [Buffer.Bytes, Buffer.Len, List.length_drop, List.length_take, hed]

/-- A serializer that reads each family constant as its own family does so for the
family of every address. -/
theorem family_tag (F : Families) (ser : Serializer) (hser : ser.TagsAreFamilies F)
    (a : Socksaddr) : mapIndex ser.familyMap (a.family F) = a.family F := by
  obtain ⟨h4, h6, hf⟩ := hser
  unfold Socksaddr.family
  split
  · exact h4
  · split
    · exact h6
    · exact hf

/-- The relay chunk `WritePacket` sends on a transport that accepts every write. -/
theorem WritePacket_sent (F : Families) (ser : Serializer) (conn : Conn) (buffer : Buffer)
    (dest : Socksaddr) (hq : conn.quota = none) (hrep : dest.Representable)
    (hse : buffer.start ≤ buffer.stop) (hed : buffer.stop ≤ buffer.data.length)
    (hroom : ser.AddrPortLen dest + 4 ≤ buffer.Start) (hlen : buffer.Len ≤ 65535) :
    ∃ c1 b1, WritePacket F ser conn buffer dest = some (none, c1, b1) ∧
      c1.input = conn.input ∧ b1.released = buffer.released + 1 ∧
      c1.writes = conn.writes ++
        [(ser.chunks F dest).flatten ++ bigEndian16 buffer.Len ++ CRLF ++ buffer.Bytes] := by
  have hfit := NameFits_of_Representable dest hrep
  have hl := portChunks_length F ser dest hrep
  have hmod : buffer.Len % 65536 = buffer.Len := Nat.mod_eq_of_lt (by omega)
  unfold WritePacket
  rw [ExtendHeader_ok buffer _ hroom]
  simp only [Option.some_bind, Buffer_Write_eq_writeAll, Writer_Write_eq_writeAll,
    WriteAddrPort_eq_writeAll F ser _ dest hfit, Must_writeAll_bind, hmod]
  have hreg := region_length buffer _ hroom (by omega)
  rw [writeAll_fill]
  · simp only [Must, Option.some_bind]
    rw [Conn_Write_ok _ _ hq]
    refine ⟨_, _, rfl, rfl, rfl, ?_⟩
    simp only [Buffer.Bytes, Buffer.storeHeader, List.flatten_append,
      List.flatten_cons, List.flatten_nil, List.append_nil]
    rw [splice_Bytes buffer.data _ buffer.start buffer.stop
      (ser.AddrPortLen dest + 4) hroom hse hed
      (by simp [hl, bigEndian16, CRLF])]
    simp [List.append_assoc]
  · rw [hreg]
    simp [hl, bigEndian16, CRLF]

/-- The function `binary.Read` reads back a 16-bit value written in big-endian order. -/
theorem binaryReadUint16_append (c : Conn) (v : Nat) (rest : Octets) (hv : v < 65536)
    (hc : c.input = bigEndian16 v ++ rest) :
    binaryReadUint16 c = (.ok v, { c with input := rest }) := by
  have h := ReadFull_append c (bigEndian16 v) rest 2 rfl hc
  simp [binaryReadUint16, h, uint16_bigEndian v hv]

/-- The method `ReadFullFrom` appends the first bytes of the input to the buffer when
they are there and fit. -/
theorem ReadFullFrom_append (b : Buffer) (c : Conn) (p rest : Octets)
    (hroom : p.length ≤ b.FreeLen) (hc : c.input = p ++ rest) :
    b.ReadFullFrom c p.length
      = (none, { b with data := b.data.take b.stop ++ p ++ b.data.drop (b.stop + p.length),
                        stop := b.stop + p.length }, { c with input := rest }) := by
  have h := ReadFull_append c p rest p.length rfl hc
  have hlt : ¬ b.FreeLen < p.length := by omega
  simp [Buffer.ReadFullFrom, hlt, h, Buffer.Write_ok b p hroom]

/-- `ReadPacket` on a relay chunk whose address part the serializer reads back. -/
theorem ReadPacket_chunk (F : Families) (hF : F.Valid) (ser : Serializer)
    (hser : ser.TagsAreFamilies F) (dest : Socksaddr) (hrep : dest.Representable)
    (hport : dest.Port < 65536) (payload rest : Octets) (hlen : payload.length ≤ 65535)
    (rconn : Conn) (dst : Buffer) (hse : dst.start ≤ dst.stop)
    (hed : dst.stop ≤ dst.data.length) (hfree : payload.length ≤ dst.FreeLen)
    (hin : rconn.input =
      ((ser.chunks F dest).flatten ++ bigEndian16 payload.length ++ CRLF ++ payload) ++ rest)
    (hcuts : dest.Addr.IsValid = true → rconn.cuts = []) :
    ∃ d1, ReadPacket F ser rconn dst = ((dest, none), { rconn with input := rest }, d1) ∧
      d1.Bytes = dst.Bytes ++ payload ∧ d1.released = dst.released := by
  have htag := family_tag F ser hser dest
  have h1 := ReadAddrPort_chunks F hF ser dest hrep hport htag rconn
    (bigEndian16 payload.length ++ (CRLF ++ (payload ++ rest)))
    (by rw [hin]; simp [List.append_assoc]) hcuts
  have h2 := binaryReadUint16_append
    { rconn with input := bigEndian16 payload.length ++ (CRLF ++ (payload ++ rest)) }
    payload.length (CRLF ++ (payload ++ rest)) (by omega) rfl
  have h3 := SkipN_append { rconn with input := CRLF ++ (payload ++ rest) } CRLF
    (payload ++ rest) 2 rfl rfl
  have h4 := ReadFullFrom_append dst { rconn with input := payload ++ rest } payload rest
    hfree rfl
  have hlt : ¬ dst.FreeLen < payload.length := by omega
  refine ⟨{ dst with
      data := dst.data.take dst.stop ++ payload ++ dst.data.drop (dst.stop + payload.length),
      stop := dst.stop + payload.length }, ?_, ?_, ?_⟩
  · simp only [ReadPacket, h1, h2, hlt, ↓reduceIte, h3, h4]
  · simp only [Buffer.Bytes]
    exact append_Bytes dst.data payload dst.start dst.stop hse hed
  · rfl

/-- `NewConnection` on the bytes of a TCP handshake whose address part the serializer
reads back. -/
theorem NewConnection_handshake {K : Type} (F : Families) (hF : F.Valid) (ser : Serializer)
    (hser : ser.TagsAreFamilies F) (s : Service K) (handler : Handler K) (ctx : Context K)
    (md : Metadata) (k : Octets) (u : K) (dest : Socksaddr) (payload : Octets) (sconn : Conn)
    (hk : s.keys k = some u) (hklen : k.length = KeyLength) (hrep : dest.Representable)
    (hport : dest.Port < 65536)
    (hin : sconn.input =
      k ++ CRLF ++ [CommandTCP] ++ (ser.chunks F dest).flatten ++ CRLF ++ payload)
    (hcuts : dest.Addr.IsValid = true → sconn.cuts = []) :
    s.NewConnection F ser handler ctx sconn md =
      { err := (handler.NewConnection (ContextWithUser ctx u) { sconn with input := payload }
                  { md with Protocol := "trojan", Destination := dest }).map ServiceErr.plain,
        calls := [HandlerCall.NewConnection (ContextWithUser ctx u)
                  { sconn with input := payload }
                  { md with Protocol := "trojan", Destination := dest }],
        conn := { sconn with input := payload } } := by
  have htag := family_tag F ser hser dest
  have h1 := ReadFull_append sconn k
    (CRLF ++ ([CommandTCP] ++ ((ser.chunks F dest).flatten ++ (CRLF ++ payload)))) KeyLength
    hklen (by rw [hin]; simp [List.append_assoc])
  have h2 := SkipN_append
    { sconn with input :=
        CRLF ++ ([CommandTCP] ++ ((ser.chunks F dest).flatten ++ (CRLF ++ payload))) }
    CRLF ([CommandTCP] ++ ((ser.chunks F dest).flatten ++ (CRLF ++ payload))) 2 rfl rfl
  have h3 := ReadByte_cons
    { sconn with input := [CommandTCP] ++ ((ser.chunks F dest).flatten ++ (CRLF ++ payload)) }
    CommandTCP ((ser.chunks F dest).flatten ++ (CRLF ++ payload)) rfl
  have h4 := ReadAddrPort_chunks F hF ser dest hrep hport htag
    { sconn with input := (ser.chunks F dest).flatten ++ (CRLF ++ payload) }
    (CRLF ++ payload) rfl hcuts
  have h5 := SkipN_append { sconn with input := CRLF ++ payload } CRLF payload 2 rfl rfl
  have hcmd : ¬ (CommandTCP ≠ CommandTCP ∧ CommandTCP ≠ CommandUDP) := by
    intro h; exact h.1 rfl
  simp only [Service.NewConnection, h1, hk, h2, h3, hcmd, ↓reduceIte, h4, h5]

/-! ## Lemmas: the user registry -/

/-- The method `AddUser` keeps the two maps inverse to each other. -/
theorem AddUser_Inverse {K : Type} [DecidableEq K] (sha224 : Octets → Octets) (s : Service K)
    (h : s.Inverse) (user : K) (password : Octets) :
    (s.AddUser sha224 user password).2.Inverse := by
  cases hu : s.users user with
  | some k0 =>
    have e : (s.AddUser sha224 user password).2 = s := by simp [Service.AddUser, hu]
    rw [e]; exact h
  | none =>
    cases hk : s.keys (Key sha224 password) with
    | some old =>
      have e : (s.AddUser sha224 user password).2 = s := by simp [Service.AddUser, hu, hk]
      rw [e]; exact h
    | none =>
      have e : (s.AddUser sha224 user password).2 =
          { users := fun u => if u = user then some (Key sha224 password) else s.users u,
            keys := fun k => if k = Key sha224 password then some user else s.keys k } := by
        simp [Service.AddUser, hu, hk]
      rw [e]
      intro u k
      simp only
      by_cases e1 : u = user <;> by_cases e2 : k = Key sha224 password
      · simp [e1, e2]
      · subst e1
        simp only [↓reduceIte, e2, Option.some.injEq]
        constructor
        · intro h'; exact absurd h'.symm e2
        · intro h'
          have := (h u k).2 h'
          rw [hu] at this
          cases this
      · subst e2
        simp only [e1, ↓reduceIte, Option.some.injEq]
        constructor
        · intro h'
          have := (h u _).1 h'
          rw [hk] at this
          cases this
        · intro h'; exact absurd h'.symm e1
      · simp only [e1, e2, ↓reduceIte]
        exact h u k

/-- The method `RemoveUser` keeps the two maps inverse to each other. -/
theorem RemoveUser_Inverse {K : Type} [DecidableEq K] (s : Service K) (h : s.Inverse)
    (user : K) : (s.RemoveUser user).2.Inverse := by
  cases hu : s.users user with
  | none =>
    have e : (s.RemoveUser user).2 = s := by simp [Service.RemoveUser, hu]
    rw [e]; exact h
  | some key =>
    have e : (s.RemoveUser user).2 =
        { users := fun u => if u = user then none else s.users u,
          keys := fun k => if k = key then none else s.keys k } := by
      simp [Service.RemoveUser, hu]
    rw [e]
    intro u k
    simp only
    by_cases e1 : u = user <;> by_cases e2 : k = key
    · simp [e1, e2]
    · subst e1
      simp only [↓reduceIte, e2]
      constructor
      · intro h'; cases h'
      · intro h'
        have := (h u k).2 h'
        rw [hu] at this
        exact absurd (Option.some.inj this).symm e2
    · subst e2
      simp only [e1, ↓reduceIte]
      constructor
      · intro h'
        have := (h u k).1 h'
        have h2 := (h user k).1 hu
        rw [h2] at this
        exact absurd (Option.some.inj this).symm e1
      · intro h'; cases h'
    · simp only [e1, e2, ↓reduceIte]
      exact h u k

/-- Every registry call keeps the two maps inverse to each other. -/
theorem step_Inverse {K : Type} [DecidableEq K] (sha224 : Octets → Octets) (s : Service K)
    (h : s.Inverse) (op : RegistryOp K) : (s.step sha224 op).Inverse := by
  cases op with
  | AddUser user password => exact AddUser_Inverse sha224 s h user password
  | RemoveUser user => exact RemoveUser_Inverse s h user
  | ResetUsers => intro u k; simp [Service.step, Service.ResetUsers]

/-- Every sequence of registry calls keeps the two maps inverse to each other. -/
theorem foldl_Inverse {K : Type} [DecidableEq K] (sha224 : Octets → Octets)
    (ops : List (RegistryOp K)) (s : Service K) (h : s.Inverse) :
    (ops.foldl (Service.step sha224) s).Inverse := by
  induction ops generalizing s with
  | nil => exact h
  | cons op ops ih => exact ih _ (step_Inverse sha224 s h op)

/-! ## The claims -/

/-- C1 (the round trip fails on the code). For every serializer whose tag table does not
send the byte of the constant `AddressFamilyIPv4` to that family, and every IPv4
address: `ReadAddrPort`, applied to the bytes `WriteAddrPort` wrote, does not return the
address. `WriteAddress` writes the family constant itself and never the tag that
`AddressFamilyByte` stored in `familyByteMap`, so the round trip holds only for
serializers whose tags are the family constants. -/
theorem roundtrip_fails_unless_tag_is_family (F : Families) (s : Serializer) (a : Socksaddr)
    (ha : a.Addr.Is4 = true)
    (hs : mapIndex s.familyMap F.AddressFamilyIPv4 ≠ F.AddressFamilyIPv4) :
    (s.ReadAddrPort F (Conn.ofInput (s.wire F a))).1 ≠ .ok a := by
  intro h
  have hfit : a.NameFits := by
    intro hz; rw [hz] at ha; simp [NetipAddr.Is4] at ha
  rcases hr : s.ReadAddrPort F (Conn.ofInput (s.wire F a)) with ⟨r, c1⟩
  rw [hr] at h
  simp only at h
  subst h
  have key := ReadAddrPort_ok_ip4 F s _ c1 a hr ha
  apply hs
  rw [wire_eq_chunks F s a hfit] at key
  rcases a with ⟨addr, port, fqdn⟩
  cases addr with
  | ip4 b =>
    cases hp : s.portFirst <;>
      simpa [Conn.ofInput, Serializer.chunks, Socksaddr.chunks, hp, bigEndian16] using key
  | zero => simp [NetipAddr.Is4] at ha
  | ip6 b => simp [NetipAddr.Is4] at ha

/-- C1, at a concrete input: with the family constants 1, 4 and 3, the UDP-over-TCP
`AddrParser` (tags 0, 1, 2) does not read back the address 1.2.3.4:80 it wrote. -/
theorem roundtrip_fails_unless_tag_is_family_witness :
    ((AddrParser exampleFamilies).ReadAddrPort exampleFamilies
        (Conn.ofInput ((AddrParser exampleFamilies).wire exampleFamilies exampleIPv4))).1
      ≠ .ok exampleIPv4 :=
  roundtrip_fails_unless_tag_is_family exampleFamilies (AddrParser exampleFamilies)
    exampleIPv4 rfl (by decide)

/-- What `AddrParser` does with the address 1.2.3.4:80 when the family constants are 1,
4 and 3: it writes the tag 1, reads that tag back as IPv6, takes the 6 bytes that are
left for an IPv6 address, and fails on the port. -/
theorem AddrParser_roundtrip_example :
    (AddrParser exampleFamilies).wire exampleFamilies exampleIPv4 = [1, 1, 2, 3, 4, 0, 80] ∧
    ((AddrParser exampleFamilies).ReadAddrPort exampleFamilies
        (Conn.ofInput [1, 1, 2, 3, 4, 0, 80])).1
      = .error (Err.Cause Err.EOF "read port") := by
  constructor <;> rfl

/-- For every valid choice of the three family constants there is a serializer with
three different tags on which the round trip fails: the one that gives IPv4 the tag
byte of the IPv6 constant and IPv6 the tag byte of the IPv4 constant. -/
theorem roundtrip_fails_for_swapped_tags (F : Families) (hF : F.Valid) (a : Socksaddr)
    (ha : a.Addr.Is4 = true) (pf : Bool) :
    ((NewSerializer ([AddressFamilyByte F.AddressFamilyIPv6 F.AddressFamilyIPv4,
        AddressFamilyByte F.AddressFamilyIPv4 F.AddressFamilyIPv6,
        AddressFamilyByte F.AddressFamilyFqdn F.AddressFamilyFqdn] ++
        (if pf then [PortThenAddress] else []))).ReadAddrPort F
      (Conn.ofInput ((NewSerializer ([AddressFamilyByte F.AddressFamilyIPv6 F.AddressFamilyIPv4,
        AddressFamilyByte F.AddressFamilyIPv4 F.AddressFamilyIPv6,
        AddressFamilyByte F.AddressFamilyFqdn F.AddressFamilyFqdn] ++
        (if pf then [PortThenAddress] else []))).wire F a))).1 ≠ .ok a := by
  obtain ⟨_, _, _, h46, h4f, h6f⟩ := hF
  intro h
  generalize hs : NewSerializer ([AddressFamilyByte F.AddressFamilyIPv6 F.AddressFamilyIPv4,
        AddressFamilyByte F.AddressFamilyIPv4 F.AddressFamilyIPv6,
        AddressFamilyByte F.AddressFamilyFqdn F.AddressFamilyFqdn] ++
        (if pf then [PortThenAddress] else [])) = s at h
  have hmap : mapIndex s.familyMap F.AddressFamilyIPv4 = F.AddressFamilyIPv6 := by
    subst hs
    cases pf <;>
      simp [NewSerializer, AddressFamilyByte, PortThenAddress, mapIndex, mapStore, h4f]
  have hfit : a.NameFits := by
    intro hz; rw [hz] at ha; simp [NetipAddr.Is4] at ha
  rcases hr : s.ReadAddrPort F (Conn.ofInput (s.wire F a)) with ⟨r, c1⟩
  rw [hr] at h
  simp only at h
  subst h
  have key := ReadAddrPort_ok_ip4 F s _ c1 a hr ha
  rw [wire_eq_chunks F s a hfit] at key
  rcases a with ⟨addr, port, fqdn⟩
  cases addr with
  | ip4 b =>
    have : mapIndex s.familyMap F.AddressFamilyIPv4 = F.AddressFamilyIPv4 := by
      cases hp : s.portFirst <;>
        simpa [Conn.ofInput, Serializer.chunks, Socksaddr.chunks, hp, bigEndian16] using key
    rw [hmap] at this
    exact h46 this.symm
  | zero => simp [NetipAddr.Is4] at ha
  | ip6 b => simp [NetipAddr.Is4] at ha

/-- The round trip of the handshake that the code does have. When the serializer of the
package reads each family constant as its own family: for every registry in which the
key `k` is bound to the user `u`, every destination (IPv4, IPv6 or a domain name of at
most 255 bytes, with a 16-bit port) and every payload, `ClientHandshake` on a new
transport that accepts every write succeeds, and `NewConnection`, reading the bytes it
wrote from a transport that, for an IPv4 or IPv6 destination, does not cut the stream,
makes exactly one handler call, to the stream handler, with a context that carries `u`,
a connection on which exactly the payload is unread, and metadata whose protocol is
"trojan" and whose destination is the one that was sent; it returns what the stream
handler returns, so no parse error, and the datagram handler is not called. -/
theorem NewConnection_accepts_ClientHandshake {K : Type} (F : Families) (hF : F.Valid)
    (ser : Serializer) (hser : ser.TagsAreFamilies F) (s : Service K) (handler : Handler K)
    (ctx : Context K) (md : Metadata) (k : Octets) (u : K) (dest : Socksaddr)
    (payload : Octets) (cconn : Conn) (hk : s.keys k = some u) (hklen : k.length = KeyLength)
    (hrep : dest.Representable) (hport : dest.Port < 65536) (hq : cconn.quota = none)
    (hnew : cconn.writes = []) :
    ∃ c1, ClientHandshake F ser cconn k dest payload = some (none, c1) ∧
      ∀ sconn : Conn, sconn.input = c1.sent → (dest.Addr.IsValid = true → sconn.cuts = []) →
        (s.NewConnection F ser handler ctx sconn md).calls =
          [HandlerCall.NewConnection { user := some u } { sconn with input := payload }
            { md with Protocol := "trojan", Destination := dest }] ∧
        (s.NewConnection F ser handler ctx sconn md).err =
          (handler.NewConnection { user := some u } { sconn with input := payload }
            { md with Protocol := "trojan", Destination := dest }).map ServiceErr.plain ∧
        (∀ e, (s.NewConnection F ser handler ctx sconn md).err ≠ some (ServiceErr.wrapped e)) := by
  obtain ⟨c1, h1, -, h3⟩ := ClientHandshake_sent F ser cconn k dest payload hq hklen hrep
  refine ⟨c1, h1, ?_⟩
  intro sconn hin hcuts
  have hsent : cconn.sent = [] := by simp [Conn.sent, hnew]
  rw [h3, hsent, List.nil_append] at hin
  rw [NewConnection_handshake F hF ser hser s handler ctx md k u dest payload sconn hk hklen
    hrep hport hin hcuts]
  refine ⟨rfl, rfl, ?_⟩
  intro e
  simp only [ContextWithUser]
  cases handler.NewConnection { user := some u } { sconn with input := payload }
    { md with Protocol := "trojan", Destination := dest } <;> simp

/-- The round trip of the handshake at a concrete input: the key of `exampleService`, the
destination "abc" with port 8080, a domain name, and the payload 7, 8, 9, on every
transport, however it cuts the stream. -/
theorem NewConnection_accepts_ClientHandshake_example :
    ∃ c1, ClientHandshake exampleFamilies exampleSerializer Conn.fresh exampleKey exampleDomain
        [7, 8, 9] = some (none, c1) ∧
      ∀ sconn : Conn, sconn.input = c1.sent →
        (exampleService.NewConnection exampleFamilies exampleSerializer exampleHandler
            { user := none } sconn exampleMetadata).calls =
          [HandlerCall.NewConnection { user := some 7 } { sconn with input := [7, 8, 9] }
            { exampleMetadata with Protocol := "trojan", Destination := exampleDomain }] := by
  obtain ⟨c1, h1, h2⟩ := NewConnection_accepts_ClientHandshake exampleFamilies (by decide)
    exampleSerializer (by decide) exampleService exampleHandler { user := none } exampleMetadata
    exampleKey 7 exampleDomain [7, 8, 9] Conn.fresh (by decide) (by decide) (by decide)
    (by decide) rfl rfl
  exact ⟨c1, h1, fun sconn hin => (h2 sconn hin (fun h => by simp [exampleDomain, NetipAddr.IsValid] at h)).1⟩

/-- C2 (the destination is misread when the transport cuts the address). For every
registry in which the key `k` of 56 bytes is bound to the user `u`, every IPv4
destination `a.b.c.d` with port `port` and every payload, with a serializer that reads
each family constant as its own family and puts the address first: `ClientHandshake` on
a new transport that accepts every write succeeds; when `NewConnection` reads the bytes
it wrote from a transport that hands out the stream in two pieces, cut after the second
address byte, the one `Read` call for the address delivers `a`, `b` only, and
`NewConnection` returns no parse error and calls the stream handler with the
destination `a.b.0.0` and the port `c * 256 + d`, and with a connection on which CR LF
and the payload are unread, not the payload alone. -/
theorem NewConnection_misreads_cut_address {K : Type} (F : Families) (ser : Serializer)
    (hser : ser.TagsAreFamilies F) (hne : F.AddressFamilyIPv4 ≠ F.AddressFamilyFqdn)
    (hfirst : ser.portFirst = false) (s : Service K) (handler : Handler K) (ctx : Context K)
    (md : Metadata) (k : Octets) (u : K) (a b c d port : Nat) (payload : Octets)
    (cconn : Conn) (hk : s.keys k = some u) (hklen : k.length = 56)
    (hq : cconn.quota = none) (hnew : cconn.writes = []) :
    ∃ c1, ClientHandshake F ser cconn k
        { Addr := .ip4 [a, b, c, d], Port := port, Fqdn := [] } payload = some (none, c1) ∧
      ∀ sconn : Conn, sconn.input = c1.sent → sconn.cuts = [payload.length + 6] →
        (s.NewConnection F ser handler ctx sconn md).calls =
          [HandlerCall.NewConnection { user := some u }
            { sconn with input := [13, 10] ++ payload }
            { md with Protocol := "trojan",
                      Destination := { Addr := .ip4 [a, b, 0, 0], Port := c * 256 + d,
                                       Fqdn := [] } }] ∧
        (s.NewConnection F ser handler ctx sconn md).err =
          (handler.NewConnection { user := some u } { sconn with input := [13, 10] ++ payload }
            { md with Protocol := "trojan",
                      Destination := { Addr := .ip4 [a, b, 0, 0], Port := c * 256 + d,
                                       Fqdn := [] } }).map ServiceErr.plain := by
  have hrep : ({ Addr := .ip4 [a, b, c, d], Port := port, Fqdn := [] } : Socksaddr).Representable := by
    simp [Socksaddr.Representable]
  obtain ⟨c1, h1, -, h3⟩ := ClientHandshake_sent F ser cconn k
    { Addr := .ip4 [a, b, c, d], Port := port, Fqdn := [] } payload hq hklen hrep
  refine ⟨c1, h1, ?_⟩
  intro sconn hin hcuts
  have hsent : cconn.sent = [] := by simp [Conn.sent, hnew]
  have hin2 : sconn.input = k ++ (CRLF ++ (CommandTCP :: F.AddressFamilyIPv4 ::
      ([a, b, c, d] ++ (bigEndian16 port ++ (CRLF ++ payload))))) := by
    rw [hin, h3, hsent]
    simp [Serializer.chunks, Socksaddr.chunks, hfirst, List.append_assoc]
  have r1 := ReadFull_append sconn k _ KeyLength hklen hin2
  have r2 := SkipN_append { sconn with input := CRLF ++ (CommandTCP :: F.AddressFamilyIPv4 ::
      ([a, b, c, d] ++ (bigEndian16 port ++ (CRLF ++ payload)))) } CRLF _ 2 rfl rfl
  have r3 := ReadByte_cons { sconn with input := CommandTCP :: F.AddressFamilyIPv4 ::
      ([a, b, c, d] ++ (bigEndian16 port ++ (CRLF ++ payload))) } CommandTCP _ rfl
  have r4 := ReadAddrPort_cut_ip4 F ser F.AddressFamilyIPv4 a b c d
    (bigEndian16 port ++ (CRLF ++ payload))
    { sconn with input := F.AddressFamilyIPv4 ::
      ([a, b, c, d] ++ (bigEndian16 port ++ (CRLF ++ payload))) } hser.1 hne hfirst rfl
    (by
      show sconn.cuts = _
      rw [hcuts]
      simp [bigEndian16, CRLF])
  have r6 := SkipN_append { sconn with input := bigEndian16 port ++ (CRLF ++ payload) }
    (bigEndian16 port) (CRLF ++ payload) 2 rfl rfl
  have hcmd : ¬ (CommandTCP ≠ CommandTCP ∧ CommandTCP ≠ CommandUDP) := by
    intro h; exact h.1 rfl
  have hall : s.NewConnection F ser handler ctx sconn md =
      { err := (handler.NewConnection (ContextWithUser ctx u)
                  { sconn with input := [13, 10] ++ payload }
                  { md with Protocol := "trojan",
                            Destination := { Addr := .ip4 [a, b, 0, 0], Port := c * 256 + d,
                                             Fqdn := [] } }).map ServiceErr.plain,
        calls := [HandlerCall.NewConnection (ContextWithUser ctx u)
                  { sconn with input := [13, 10] ++ payload }
                  { md with Protocol := "trojan",
                            Destination := { Addr := .ip4 [a, b, 0, 0], Port := c * 256 + d,
                                             Fqdn := [] } }],
        conn := { sconn with input := [13, 10] ++ payload } } := by
    simp only [Service.NewConnection, r1, hk, r2, r3, hcmd, ↓reduceIte, r4, r6]
    rfl
  rw [hall]
  exact ⟨rfl, rfl⟩

/-- C2, at a concrete input: the key of `exampleService`, the destination 1.2.3.4:80 and
the payload 7, 8, 9, read from a transport that cuts the stream after the byte 2 of the
address. -/
theorem NewConnection_misreads_cut_address_witness :
    ∃ c1, ClientHandshake exampleFamilies exampleSerializer Conn.fresh exampleKey
        { Addr := .ip4 [1, 2, 3, 4], Port := 80, Fqdn := [] } [7, 8, 9] = some (none, c1) ∧
      ∀ sconn : Conn, sconn.input = c1.sent → sconn.cuts = [([7, 8, 9] : Octets).length + 6] →
        (exampleService.NewConnection exampleFamilies exampleSerializer exampleHandler
            { user := none } sconn exampleMetadata).calls =
          [HandlerCall.NewConnection { user := some 7 }
            { sconn with input := [13, 10] ++ [7, 8, 9] }
            { exampleMetadata with
                Protocol := "trojan",
                Destination := { Addr := .ip4 [1, 2, 0, 0], Port := 3 * 256 + 4, Fqdn := [] } }] ∧
        (exampleService.NewConnection exampleFamilies exampleSerializer exampleHandler
            { user := none } sconn exampleMetadata).err =
          (exampleHandler.NewConnection { user := some 7 }
            { sconn with input := [13, 10] ++ [7, 8, 9] }
            { exampleMetadata with
                Protocol := "trojan",
                Destination := { Addr := .ip4 [1, 2, 0, 0], Port := 3 * 256 + 4, Fqdn := [] } }).map
              ServiceErr.plain :=
  NewConnection_misreads_cut_address exampleFamilies exampleSerializer (by decide) (by decide)
    rfl exampleService exampleHandler { user := none } exampleMetadata exampleKey 7 1 2 3 4 80
    [7, 8, 9] Conn.fresh (by decide) (by decide) rfl rfl

set_option maxRecDepth 20000 in
/-- The handshake for 1.2.3.4:80 with the payload 7, 8, 9, written out, read from a
transport that cuts the stream after the byte 2 of the address, and from one that does
not cut it: the first gives the handler the destination 1.2.0.0:772 and leaves
13, 10, 7, 8, 9 unread, the second gives it 1.2.3.4:80 and leaves 7, 8, 9. -/
theorem NewConnection_cut_example :
    (exampleService.NewConnection exampleFamilies exampleSerializer exampleHandler
        { user := none }
        { input := exampleKey ++ [13, 10, 1, 1, 1, 2, 3, 4, 0, 80, 13, 10, 7, 8, 9],
          writes := [], quota := none, cuts := [9] } exampleMetadata).calls.map
      (fun call => match call with
        | .NewConnection _ conn md => (md.Destination, conn.input)
        | .NewPacketConnection _ conn md => (md.Destination, conn.Conn.input))
      = [({ Addr := .ip4 [1, 2, 0, 0], Port := 772, Fqdn := [] }, [13, 10, 7, 8, 9])] ∧
    (exampleService.NewConnection exampleFamilies exampleSerializer exampleHandler
        { user := none }
        { input := exampleKey ++ [13, 10, 1, 1, 1, 2, 3, 4, 0, 80, 13, 10, 7, 8, 9],
          writes := [], quota := none, cuts := [] } exampleMetadata).calls.map
      (fun call => match call with
        | .NewConnection _ conn md => (md.Destination, conn.input)
        | .NewPacketConnection _ conn md => (md.Destination, conn.Conn.input))
      = [({ Addr := .ip4 [1, 2, 3, 4], Port := 80, Fqdn := [] }, [7, 8, 9])] := by
  constructor <;> rfl

/-- C3 fails on the code for `ClientHandshakeBuffer` with a payload buffer that has less
headroom than the header needs: with 10 bytes of headroom in front of the payload 7, 8, 9
and a header of 56 + 7 + 5 bytes, `ExtendHeader` fails, `ClientHandshakeBuffer` panics
and no byte is written. -/
theorem ClientHandshakeBuffer_short_headroom_panics :
    (Buffer.ofPayload 10 [7, 8, 9] 5).Start = 10 ∧
    56 + exampleSerializer.AddrPortLen exampleDomain + 5 = 68 ∧
    ClientHandshakeBuffer exampleFamilies exampleSerializer Conn.fresh exampleKey exampleDomain
      (Buffer.ofPayload 10 [7, 8, 9] 5) = none := by
  refine ⟨rfl, rfl, rfl⟩

/-- C3, as amended. For every key of 56 bytes, every destination (IPv4, IPv6 or a domain
name of at most 255 bytes), every payload and every transport that accepts every write:
no `Must` assertion of `ClientHandshake` fails, it returns no error, and the bytes it has
written to the transport are the key, CR LF (the bytes 13, 10), the byte 1, the
`WriteAddrPort` encoding of the destination, CR LF, and the payload; the header writes
fill the header buffer of `56 + AddrPortLen(destination) + 5` bytes (plus the payload,
when it goes out in the same write) exactly. `ClientHandshakeBuffer` writes the same
bytes when the payload buffer has at least `56 + AddrPortLen(destination) + 5` bytes of
headroom in front of the payload; with less headroom it panics in `ExtendHeader`. -/
theorem ClientHandshake_wire_format (F : Families) (ser : Serializer) (conn : Conn)
    (key : Octets) (dest : Socksaddr) (payload : Octets) (hq : conn.quota = none)
    (hkey : key.length = 56) (hrep : dest.Representable) :
    (∃ c1, ClientHandshake F ser conn key dest payload = some (none, c1) ∧
      c1.sent = conn.sent ++
        (key ++ [13, 10] ++ [1] ++ ser.wire F dest ++ [13, 10] ++ payload)) ∧
    (∃ header, ClientHandshake.header F ser key dest payload = some header ∧
      header.FreeLen = 0 ∧
      (key ++ [13, 10] ++ [1] ++ ser.wire F dest ++ [13, 10]).length
        = 56 + ser.AddrPortLen dest + 5 ∧
      (header.Bytes = key ++ [13, 10] ++ [1] ++ ser.wire F dest ++ [13, 10] ∨
       header.Bytes = key ++ [13, 10] ++ [1] ++ ser.wire F dest ++ [13, 10] ++ payload)) ∧
    (∀ buffer : Buffer, buffer.start ≤ buffer.stop → buffer.stop ≤ buffer.data.length →
      56 + ser.AddrPortLen dest + 5 ≤ buffer.Start →
      ∃ c1 b1, ClientHandshakeBuffer F ser conn key dest buffer = some (none, c1, b1) ∧
        c1.sent = conn.sent ++
          (key ++ [13, 10] ++ [1] ++ ser.wire F dest ++ [13, 10] ++ buffer.Bytes)) ∧
    (∀ buffer : Buffer, buffer.Start < 56 + ser.AddrPortLen dest + 5 →
      ClientHandshakeBuffer F ser conn key dest buffer = none) := by
  have hfit := NameFits_of_Representable dest hrep
  have hl := portChunks_length F ser dest hrep
  have hkey1 : key.length = KeyLength := hkey
  rw [wire_eq_chunks F ser dest hfit]
  refine ⟨?_, ?_, ?_, ?_⟩
  · obtain ⟨c1, h1, -, h3⟩ := ClientHandshake_sent F ser conn key dest payload hq hkey1 hrep
    exact ⟨c1, h1, h3⟩
  · refine ⟨_, ClientHandshake_header_eq F ser key dest payload hkey1 hrep, ?_, ?_, ?_⟩
    · cases hsingle : (decide (payload.length > 0) &&
          decide (KeyLength + ser.AddrPortLen dest + 5 + payload.length < 65535)) <;>
        simp [Buffer.FreeLen, hl, hkey, CRLF, KeyLength] <;> omega
    · simp [hl, hkey]; omega
    · cases hsingle : (decide (payload.length > 0) &&
          decide (KeyLength + ser.AddrPortLen dest + 5 + payload.length < 65535))
      · left
        have : (key ++ CRLF ++ [CommandTCP] ++ (ser.chunks F dest).flatten ++ CRLF).length
            = KeyLength + ser.AddrPortLen dest + 5 := by
          simp [hl, hkey, CRLF, KeyLength]; omega
        simp only [Buffer.Bytes, Bool.false_eq_true, ↓reduceIte, List.append_nil, Nat.add_zero,
          List.drop_zero]
        rw [← this, List.take_length]
        rfl
      · right
        have : (key ++ CRLF ++ [CommandTCP] ++ (ser.chunks F dest).flatten ++ CRLF
            ++ payload).length = KeyLength + ser.AddrPortLen dest + 5 + payload.length := by
          simp [hl, hkey, CRLF, KeyLength]; omega
        simp only [Buffer.Bytes, ↓reduceIte, List.drop_zero]
        rw [← this, List.take_length]
        rfl
  · intro buffer hse hed hroom
    obtain ⟨c1, b1, h1, -, h3⟩ :=
      ClientHandshakeBuffer_sent F ser conn key dest buffer hq hkey1 hrep hse hed hroom
    exact ⟨c1, b1, h1, h3⟩
  · intro buffer hshort
    have hno : ¬ KeyLength + ser.AddrPortLen dest + 5 ≤ buffer.start := by
      have : buffer.Start = buffer.start := rfl
      have hk : KeyLength = 56 := rfl
      omega
    simp [ClientHandshakeBuffer, Buffer.ExtendHeader, hno]

/-- C3 as amended, at a concrete input: `exampleKey`, the domain name "abc" with port 8080
and the payload 7, 8, 9. -/
theorem ClientHandshake_wire_format_witness :
    (∃ c1, ClientHandshake exampleFamilies exampleSerializer Conn.fresh exampleKey
        exampleDomain [7, 8, 9] = some (none, c1) ∧
      c1.sent = Conn.fresh.sent ++
        (exampleKey ++ [13, 10] ++ [1] ++ exampleSerializer.wire exampleFamilies exampleDomain
          ++ [13, 10] ++ [7, 8, 9])) ∧
    (∃ header, ClientHandshake.header exampleFamilies exampleSerializer exampleKey exampleDomain
        [7, 8, 9] = some header ∧
      header.FreeLen = 0 ∧
      (exampleKey ++ [13, 10] ++ [1] ++ exampleSerializer.wire exampleFamilies exampleDomain
          ++ [13, 10]).length
        = 56 + exampleSerializer.AddrPortLen exampleDomain + 5 ∧
      (header.Bytes = exampleKey ++ [13, 10] ++ [1] ++
          exampleSerializer.wire exampleFamilies exampleDomain ++ [13, 10] ∨
       header.Bytes = exampleKey ++ [13, 10] ++ [1] ++
          exampleSerializer.wire exampleFamilies exampleDomain ++ [13, 10] ++ [7, 8, 9])) ∧
    (∀ buffer : Buffer, buffer.start ≤ buffer.stop → buffer.stop ≤ buffer.data.length →
      56 + exampleSerializer.AddrPortLen exampleDomain + 5 ≤ buffer.Start →
      ∃ c1 b1, ClientHandshakeBuffer exampleFamilies exampleSerializer Conn.fresh exampleKey
          exampleDomain buffer = some (none, c1, b1) ∧
        c1.sent = Conn.fresh.sent ++
          (exampleKey ++ [13, 10] ++ [1] ++
            exampleSerializer.wire exampleFamilies exampleDomain ++ [13, 10] ++ buffer.Bytes)) ∧
    (∀ buffer : Buffer, buffer.Start < 56 + exampleSerializer.AddrPortLen exampleDomain + 5 →
      ClientHandshakeBuffer exampleFamilies exampleSerializer Conn.fresh exampleKey exampleDomain
        buffer = none) :=
  ClientHandshake_wire_format exampleFamilies exampleSerializer Conn.fresh exampleKey
    exampleDomain [7, 8, 9] rfl (by decide) (by decide)

set_option maxRecDepth 20000 in
/-- The bytes of the handshake of the example, written out. -/
theorem ClientHandshake_example :
    (ClientHandshake exampleFamilies exampleSerializer Conn.fresh exampleKey exampleDomain
        [7, 8, 9]).map (fun r => (r.1, r.2.writes))
      = some (none, [exampleKey ++ [13, 10, 1, 3, 3, 97, 98, 99, 31, 144, 13, 10, 7, 8, 9]]) ∧
    (ClientHandshakeBuffer exampleFamilies exampleSerializer Conn.fresh exampleKey exampleDomain
        (Buffer.ofPayload 100 [7, 8, 9] 5)).map (fun r => (r.1, r.2.1.writes))
      = some (none, [exampleKey ++ [13, 10, 1, 3, 3, 97, 98, 99, 31, 144, 13, 10, 7, 8, 9]]) := by
  constructor <;> rfl

/-- C4 (the tag byte is not the configured one). Whatever tag `t` the configuration has
stored for the family of an address through `AddressFamilyByte`, when `t` is not the
family constant itself the first byte `WriteAddress` writes is not `t`: it is the
family constant. -/
theorem WriteAddress_first_byte_ignores_tag (F : Families) (s : Serializer) (a : Socksaddr)
    (t : Nat) (hmap : s.familyByteMap (a.family F) = some t) (hne : t ≠ a.family F) :
    (s.addressWire F a).head? = some (a.family F) ∧ (s.addressWire F a).head? ≠ some t := by
  have h1 : (s.addressWire F a).head? = some (a.family F) := by
    unfold Serializer.addressWire Serializer.WriteAddress
    have hw : ∀ b : Nat, rw.WriteByte Conn.fresh b
        = (none, { Conn.fresh with writes := [[b]] }) := by
      intro b; rfl
    simp only [hw]
    rcases a with ⟨addr, port, fqdn⟩
    cases addr with
    | zero =>
      simp only [Socksaddr.IsIPv4, Socksaddr.IsIPv6, NetipAddr.Is4, NetipAddr.Is6,
        NetipAddr.IsValid, Bool.false_eq_true, ↓reduceIte, WriteSocksString, Socksaddr.family]
      split
      · simp [Conn.sent]
      · simp [rw.WriteByte, rw.WriteString, Writer.Write, Conn.Write, Conn.sent, Conn.fresh]
    | ip4 b =>
      simp [Socksaddr.IsIPv4, Socksaddr.IsIPv6, NetipAddr.Is4, NetipAddr.Is6,
        NetipAddr.IsValid, Socksaddr.family, rw.WriteBytes, Writer.Write, Conn.Write,
        Conn.sent, Conn.fresh]
    | ip6 b =>
      simp [Socksaddr.IsIPv4, Socksaddr.IsIPv6, NetipAddr.Is4, NetipAddr.Is6,
        NetipAddr.IsValid, Socksaddr.family, rw.WriteBytes, Writer.Write, Conn.Write,
        Conn.sent, Conn.fresh]
  refine ⟨h1, ?_⟩
  rw [h1]
  intro h
  exact hne (Option.some.inj h).symm

/-- C4, at a concrete input: with the family constants 1, 4 and 3, `AddrParser` has
stored the tag 0 for IPv4, and the first byte written for 1.2.3.4 is 1. -/
theorem WriteAddress_first_byte_ignores_tag_witness :
    ((AddrParser exampleFamilies).addressWire exampleFamilies exampleIPv4).head?
      = some (exampleIPv4.family exampleFamilies) ∧
    ((AddrParser exampleFamilies).addressWire exampleFamilies exampleIPv4).head? ≠ some 0 :=
  WriteAddress_first_byte_ignores_tag exampleFamilies (AddrParser exampleFamilies)
    exampleIPv4 0 (by decide) (by decide)

/-- C4, whatever the family constants are: no value of `AddressFamilyIPv4` makes the
first byte right for both the `AddrParser` configuration (tag 0 for IPv4) and a
configuration that gives IPv4 the tag 1, because the byte written is the same under
every configuration. -/
theorem WriteAddress_first_byte_fits_one_tag_at_most :
    ¬ ∃ F : Families,
      ((AddrParser F).addressWire F exampleIPv4).head? = some 0 ∧
      ((NewSerializer [AddressFamilyByte 1 F.AddressFamilyIPv4]).addressWire F
          exampleIPv4).head? = some 1 := by
  rintro ⟨F, h0, h1⟩
  have e0 : ((AddrParser F).addressWire F exampleIPv4).head? = some F.AddressFamilyIPv4 := rfl
  have e1 : ((NewSerializer [AddressFamilyByte 1 F.AddressFamilyIPv4]).addressWire F
      exampleIPv4).head? = some F.AddressFamilyIPv4 := rfl
  rw [e0] at h0
  rw [e1] at h1
  have a := Option.some.inj h0
  have b := Option.some.inj h1
  omega

/-- C5. For every registry state, user id and password: `AddUser` returns
`ErrUserExists` when the id is registered, whatever the password; otherwise, when
the key of the password is bound to a user `other`, it returns the error "password
used by other", which is not `ErrUserExists`; otherwise it returns no error and binds
the id and the key to each other, leaving every other entry of both maps as it was. On
either failure the registry is exactly as it was. -/
theorem AddUser_outcomes {K : Type} [DecidableEq K] (sha224 : Octets → Octets)
    (s : Service K) (id : K) (password : Octets) :
    (s.users id ≠ none →
      s.AddUser sha224 id password = (some RegistryErr.ErrUserExists, s)) ∧
    (s.users id = none → ∀ other, s.keys (Key sha224 password) = some other →
      s.AddUser sha224 id password = (some (RegistryErr.passwordUsedBy other), s) ∧
      RegistryErr.passwordUsedBy other ≠ RegistryErr.ErrUserExists) ∧
    (s.users id = none → s.keys (Key sha224 password) = none →
      (s.AddUser sha224 id password).1 = none ∧
      (s.AddUser sha224 id password).2.users id = some (Key sha224 password) ∧
      (s.AddUser sha224 id password).2.keys (Key sha224 password) = some id ∧
      (∀ u, u ≠ id → (s.AddUser sha224 id password).2.users u = s.users u) ∧
      (∀ k, k ≠ Key sha224 password → (s.AddUser sha224 id password).2.keys k = s.keys k)) := by
  refine ⟨?_, ?_, ?_⟩
  · intro h
    cases hu : s.users id with
    | none => exact absurd hu h
    | some k => simp [Service.AddUser, hu]
  · intro hu other hk
    refine ⟨?_, ?_⟩
    · simp [Service.AddUser, hu, hk]
    · intro h; cases h
  · intro hu hk
    refine ⟨?_, ?_, ?_, ?_, ?_⟩
    · simp [Service.AddUser, hu, hk]
    · simp [Service.AddUser, hu, hk]
    · simp [Service.AddUser, hu, hk]
    · intro u hne
      simp [Service.AddUser, hu, hk, hne]
    · intro k hne
      simp [Service.AddUser, hu, hk, hne]

/-- The spec's registry example: after `AddUser("a", p1)` on a new registry, `AddUser("a",
p2)` fails with `ErrUserExists` and `AddUser("b", p1)` fails with "password used by a",
whatever the digest function is. -/
theorem AddUser_example (sha224 : Octets → Octets) (p1 p2 : Octets) :
    (((NewService String).AddUser sha224 "a" p1).2.AddUser sha224 "a" p2).1
      = some RegistryErr.ErrUserExists ∧
    (((NewService String).AddUser sha224 "a" p1).2.AddUser sha224 "b" p1).1
      = some (RegistryErr.passwordUsedBy "a") := by
  constructor <;> simp [Service.AddUser, NewService]

/-- C6. In every registry state that a sequence of `AddUser`, `RemoveUser` and
`ResetUsers` calls makes of a new service, the users map and the keys map are inverse
to each other: `users[u] = k` exactly when `keys[k] = u`; so no two users share a key
and no two keys share a user. After `ResetUsers` both maps are empty. -/
theorem registry_maps_are_inverse {K : Type} [DecidableEq K] (sha224 : Octets → Octets)
    (ops : List (RegistryOp K)) :
    (∀ u k, (Service.run sha224 ops).users u = some k ↔
      (Service.run sha224 ops).keys k = some u) ∧
    (∀ u u2 k, (Service.run sha224 ops).users u = some k →
      (Service.run sha224 ops).users u2 = some k → u = u2) ∧
    (∀ k k2 u, (Service.run sha224 ops).keys k = some u →
      (Service.run sha224 ops).keys k2 = some u → k = k2) ∧
    (∀ u k, (Service.run sha224 ops).ResetUsers.users u = none ∧
      (Service.run sha224 ops).ResetUsers.keys k = none) := by
  have hinv : (Service.run sha224 ops).Inverse := by
    apply foldl_Inverse
    intro u k
    simp [NewService]
  refine ⟨hinv, ?_, ?_, ?_⟩
  · intro u u2 k h1 h2
    have a1 := (hinv u k).1 h1
    have a2 := (hinv u2 k).1 h2
    rw [a1] at a2
    exact Option.some.inj a2
  · intro k k2 u h1 h2
    have a1 := (hinv u k).2 h1
    have a2 := (hinv u k2).2 h2
    rw [a1] at a2
    exact Option.some.inj a2
  · intro u k
    simp [Service.ResetUsers]

/-- The spec's registry example, continued: after `RemoveUser("a")`, `AddUser("a", p1)`
succeeds again, whatever the digest function is. -/
theorem RemoveUser_then_AddUser_example (sha224 : Octets → Octets) (p1 : Octets) :
    ((((NewService String).AddUser sha224 "a" p1).2.RemoveUser "a").2.AddUser sha224 "a" p1).1
      = none := by
  simp [Service.AddUser, Service.RemoveUser, NewService]

/-- The round trip of a relay chunk that the code does have. When the serializer of the
package reads each family constant as its own family: for every destination (IPv4, IPv6
or a domain name of at most 255 bytes, with a 16-bit port) and every payload of at most
65535 bytes held in a buffer with enough headroom, `WritePacket` on a transport that
accepts every write sends, in one write, the `WriteAddrPort` encoding of the
destination, the payload length as 2 big-endian bytes, CR LF and the payload; and
`ReadPacket`, applied to those bytes (whatever follows them) from a transport that, for
an IPv4 or IPv6 destination, does not cut the stream, with a buffer whose free space is
at least the payload length, returns the same destination and no error, appends exactly
the payload to the buffer and consumes exactly the chunk. -/
theorem relay_chunk_roundtrip (F : Families) (hF : F.Valid) (ser : Serializer)
    (hser : ser.TagsAreFamilies F) (conn : Conn) (buffer : Buffer) (dest : Socksaddr)
    (hq : conn.quota = none) (hrep : dest.Representable) (hport : dest.Port < 65536)
    (hse : buffer.start ≤ buffer.stop) (hed : buffer.stop ≤ buffer.data.length)
    (hroom : ser.AddrPortLen dest + 4 ≤ buffer.Start) (hlen : buffer.Len ≤ 65535) :
    ∃ c1 b1, WritePacket F ser conn buffer dest = some (none, c1, b1) ∧
      c1.writes = conn.writes ++
        [ser.wire F dest ++ bigEndian16 buffer.Len ++ CRLF ++ buffer.Bytes] ∧
      ∀ (rconn : Conn) (rest : Octets) (dst : Buffer),
        dst.start ≤ dst.stop → dst.stop ≤ dst.data.length → buffer.Len ≤ dst.FreeLen →
        rconn.input = (ser.wire F dest ++ bigEndian16 buffer.Len ++ CRLF ++ buffer.Bytes) ++ rest →
        (dest.Addr.IsValid = true → rconn.cuts = []) →
        ∃ d1, ReadPacket F ser rconn dst = ((dest, none), { rconn with input := rest }, d1) ∧
          d1.Bytes = dst.Bytes ++ buffer.Bytes := by
  have hfit := NameFits_of_Representable dest hrep
  obtain ⟨c1, b1, h1, -, -, h4⟩ :=
    WritePacket_sent F ser conn buffer dest hq hrep hse hed hroom hlen
  rw [wire_eq_chunks F ser dest hfit]
  refine ⟨c1, b1, h1, h4, ?_⟩
  intro rconn rest dst hs1 hs2 hfree hin hcuts
  have hbl := Bytes_length buffer hed
  rw [← hbl] at hin hfree hlen
  obtain ⟨d1, e1, e2, -⟩ := ReadPacket_chunk F hF ser hser dest hrep hport buffer.Bytes rest
    hlen rconn dst hs1 hs2 hfree hin hcuts
  exact ⟨d1, e1, e2⟩

/-- C7 (a relay chunk is misread when the transport cuts the address). For every IPv4
destination `a.b.c.d` with a 16-bit port and every payload of at most 65535 bytes held in
a buffer with enough headroom, with a serializer that reads each family constant as its
own family and puts the address first: `WritePacket` on a transport that accepts every
write sends, in one write, the `WriteAddrPort` encoding of the destination, the payload
length as 2 big-endian bytes, CR LF and the payload. When `ReadPacket` reads those bytes
from a transport that hands out the stream in two pieces, cut after the second address
byte, the `Read` call for the address delivers `a`, `b` only; the bytes `c`, `d` are
taken for the port and the 2 bytes of the port for the payload length. With a buffer
whose free space is at least the payload length but less than the port, `ReadPacket`
fails with `io.ErrShortBuffer`, returns no destination and appends nothing; the length
field, CR LF and the payload are left unread. -/
theorem ReadPacket_misreads_cut_address (F : Families) (ser : Serializer)
    (hser : ser.TagsAreFamilies F) (hne : F.AddressFamilyIPv4 ≠ F.AddressFamilyFqdn)
    (hfirst : ser.portFirst = false) (conn : Conn) (buffer : Buffer) (a b c d port : Nat)
    (hq : conn.quota = none) (hport : port < 65536)
    (hse : buffer.start ≤ buffer.stop) (hed : buffer.stop ≤ buffer.data.length)
    (hroom : ser.AddrPortLen { Addr := .ip4 [a, b, c, d], Port := port, Fqdn := [] } + 4
      ≤ buffer.Start)
    (hlen : buffer.Len ≤ 65535) :
    ∃ c1 b1, WritePacket F ser conn buffer
        { Addr := .ip4 [a, b, c, d], Port := port, Fqdn := [] } = some (none, c1, b1) ∧
      c1.writes = conn.writes ++
        [ser.wire F { Addr := .ip4 [a, b, c, d], Port := port, Fqdn := [] } ++
          [buffer.Len / 256 % 256, buffer.Len % 256] ++ [13, 10] ++ buffer.Bytes] ∧
      ∀ (rconn : Conn) (rest : Octets) (dst : Buffer),
        buffer.Len ≤ dst.FreeLen → dst.FreeLen < port →
        rconn.input = (ser.wire F { Addr := .ip4 [a, b, c, d], Port := port, Fqdn := [] } ++
          [buffer.Len / 256 % 256, buffer.Len % 256] ++ [13, 10] ++ buffer.Bytes) ++ rest →
        rconn.cuts = [buffer.Bytes.length + rest.length + 8] →
        ReadPacket F ser rconn dst =
          ((Socksaddr.empty, some Err.ErrShortBuffer),
            { rconn with
              input := [buffer.Len / 256 % 256, buffer.Len % 256] ++ [13, 10] ++ buffer.Bytes
                ++ rest },
            dst) := by
  have hrep : ({ Addr := .ip4 [a, b, c, d], Port := port, Fqdn := [] } : Socksaddr).Representable := by
    simp [Socksaddr.Representable]
  have hfit := NameFits_of_Representable _ hrep
  obtain ⟨c1, b1, h1, -, -, h4⟩ :=
    WritePacket_sent F ser conn buffer _ hq hrep hse hed hroom hlen
  rw [wire_eq_chunks F ser _ hfit]
  refine ⟨c1, b1, h1, h4, ?_⟩
  intro rconn rest dst hfree hshort hin hcuts
  have hin2 : rconn.input = F.AddressFamilyIPv4 :: a :: b :: c :: d ::
      (bigEndian16 port ++ ([buffer.Len / 256 % 256, buffer.Len % 256] ++
        ([13, 10] ++ (buffer.Bytes ++ rest)))) := by
    rw [hin]
    simp [Serializer.chunks, Socksaddr.chunks, hfirst, List.append_assoc]
  have r1 := ReadAddrPort_cut_ip4 F ser F.AddressFamilyIPv4 a b c d
    (bigEndian16 port ++ ([buffer.Len / 256 % 256, buffer.Len % 256] ++
        ([13, 10] ++ (buffer.Bytes ++ rest)))) rconn hser.1 hne hfirst hin2
    (by
      rw [hcuts]
      simp [bigEndian16])
  have r2 := binaryReadUint16_append
    { rconn with input := bigEndian16 port ++ ([buffer.Len / 256 % 256, buffer.Len % 256] ++
        ([13, 10] ++ (buffer.Bytes ++ rest))) } port _ hport rfl
  simp only [ReadPacket, r1, r2, hshort, ↓reduceIte, List.append_assoc]

/-- C7, at a concrete input: the payload 7, 8, 9 behind 100 bytes of headroom, sent to
1.2.3.4:80 and read, from a transport that cuts the stream after the byte 2 of the
address, into a buffer with 10 free bytes. -/
theorem ReadPacket_misreads_cut_address_witness :
    ∃ c1 b1, WritePacket exampleFamilies exampleSerializer Conn.fresh
        (Buffer.ofPayload 100 [7, 8, 9] 5)
        { Addr := .ip4 [1, 2, 3, 4], Port := 80, Fqdn := [] } = some (none, c1, b1) ∧
      c1.writes = Conn.fresh.writes ++
        [exampleSerializer.wire exampleFamilies
            { Addr := .ip4 [1, 2, 3, 4], Port := 80, Fqdn := [] } ++
          [(Buffer.ofPayload 100 [7, 8, 9] 5).Len / 256 % 256,
           (Buffer.ofPayload 100 [7, 8, 9] 5).Len % 256] ++ [13, 10] ++
          (Buffer.ofPayload 100 [7, 8, 9] 5).Bytes] ∧
      ∀ (rconn : Conn) (rest : Octets) (dst : Buffer),
        (Buffer.ofPayload 100 [7, 8, 9] 5).Len ≤ dst.FreeLen → dst.FreeLen < 80 →
        rconn.input = (exampleSerializer.wire exampleFamilies
            { Addr := .ip4 [1, 2, 3, 4], Port := 80, Fqdn := [] } ++
          [(Buffer.ofPayload 100 [7, 8, 9] 5).Len / 256 % 256,
           (Buffer.ofPayload 100 [7, 8, 9] 5).Len % 256] ++ [13, 10] ++
          (Buffer.ofPayload 100 [7, 8, 9] 5).Bytes) ++ rest →
        rconn.cuts = [(Buffer.ofPayload 100 [7, 8, 9] 5).Bytes.length + rest.length + 8] →
        ReadPacket exampleFamilies exampleSerializer rconn dst =
          ((Socksaddr.empty, some Err.ErrShortBuffer),
            { rconn with
              input := [(Buffer.ofPayload 100 [7, 8, 9] 5).Len / 256 % 256,
                        (Buffer.ofPayload 100 [7, 8, 9] 5).Len % 256] ++ [13, 10] ++
                (Buffer.ofPayload 100 [7, 8, 9] 5).Bytes ++ rest },
            dst) :=
  ReadPacket_misreads_cut_address exampleFamilies exampleSerializer (by decide) (by decide) rfl
    Conn.fresh (Buffer.ofPayload 100 [7, 8, 9] 5) 1 2 3 4 80 rfl (by decide) (by decide)
    (by decide) (by decide) (by decide)

set_option maxRecDepth 20000 in
/-- The relay chunk of the example, written out, and what `ReadPacket` makes of it; and
the relay chunk for 1.2.3.4:80 read into a buffer with 10 free bytes, from a transport
that does not cut the stream and from one that cuts it after the byte 2 of the
address. -/
theorem relay_chunk_example :
    (WritePacket exampleFamilies exampleSerializer Conn.fresh
        (Buffer.ofPayload 100 [7, 8, 9] 5) exampleDomain).map (fun r => (r.1, r.2.1.writes))
      = some (none, [[3, 3, 97, 98, 99, 31, 144, 0, 3, 13, 10, 7, 8, 9]]) ∧
    ReadPacket exampleFamilies exampleSerializer
        (Conn.ofInput [3, 3, 97, 98, 99, 31, 144, 0, 3, 13, 10, 7, 8, 9, 42])
        (Buffer.ofPayload 0 [1] 3)
      = ((exampleDomain, none), Conn.ofInput [42],
          { data := [1, 7, 8, 9], start := 0, stop := 4, released := 0 }) ∧
    (WritePacket exampleFamilies exampleSerializer Conn.fresh
        (Buffer.ofPayload 100 [7, 8, 9] 5) exampleIPv4).map (fun r => (r.1, r.2.1.writes))
      = some (none, [[1, 1, 2, 3, 4, 0, 80, 0, 3, 13, 10, 7, 8, 9]]) ∧
    (ReadPacket exampleFamilies exampleSerializer
        { input := [1, 1, 2, 3, 4, 0, 80, 0, 3, 13, 10, 7, 8, 9], writes := [], quota := none,
          cuts := [] }
        (Buffer.ofPayload 0 [] 10)).1
      = (exampleIPv4, none) ∧
    (ReadPacket exampleFamilies exampleSerializer
        { input := [1, 1, 2, 3, 4, 0, 80, 0, 3, 13, 10, 7, 8, 9], writes := [], quota := none,
          cuts := [11] }
        (Buffer.ofPayload 0 [] 10)).1
      = (Socksaddr.empty, some Err.ErrShortBuffer) := by
  refine ⟨?_, ?_, ?_, ?_, ?_⟩ <;> rfl

/-- C9. For every address `WriteAddress` can encode (an IPv4 address, an IPv6 address,
or a domain name of at most 255 bytes) and every serializer, so in both port orders:
`WriteAddress` and `WriteAddrPort` succeed on a transport that accepts every write,
`AddressLen` is the number of bytes `WriteAddress` writes (5, 17, or 2 plus the length
of the name) and `AddrPortLen` is the number of bytes `WriteAddrPort` writes. -/
theorem AddressLen_is_written_length (F : Families) (s : Serializer) (a : Socksaddr)
    (ha : a.Representable) :
    (s.WriteAddress F Conn.fresh a).1 = none ∧
    (s.addressWire F a).length = s.AddressLen a ∧
    (s.WriteAddrPort F Conn.fresh a).1 = none ∧
    (s.wire F a).length = s.AddrPortLen a ∧
    s.AddressLen a = (match a.Addr with
      | .ip4 _ => 5
      | .ip6 _ => 17
      | .zero => 2 + a.Fqdn.length) := by
  have hfit := NameFits_of_Representable a ha
  refine ⟨?_, ?_, ?_, ?_, ?_⟩
  · rw [WriteAddress_eq_writeAll F s _ a hfit, writeAll_conn Conn.fresh rfl]
  · rw [addressWire_eq_chunks F s a hfit, chunks_length F s a ha]
  · rw [WriteAddrPort_eq_writeAll F s _ a hfit, writeAll_conn Conn.fresh rfl]
  · rw [wire_eq_chunks F s a hfit, portChunks_length F s a ha]
  · rcases a with ⟨addr, port, fqdn⟩
    cases addr <;>
      simp [Serializer.AddressLen, Socksaddr.IsIPv4, Socksaddr.IsIPv6, NetipAddr.Is4,
        NetipAddr.Is6]

/-- C9, at a concrete input: the domain name "abc" with port 8080, port first. -/
theorem AddressLen_is_written_length_witness :
    ((PortThenAddress exampleSerializer).WriteAddress exampleFamilies Conn.fresh
        exampleDomain).1 = none ∧
    ((PortThenAddress exampleSerializer).addressWire exampleFamilies exampleDomain).length
      = (PortThenAddress exampleSerializer).AddressLen exampleDomain ∧
    ((PortThenAddress exampleSerializer).WriteAddrPort exampleFamilies Conn.fresh
        exampleDomain).1 = none ∧
    ((PortThenAddress exampleSerializer).wire exampleFamilies exampleDomain).length
      = (PortThenAddress exampleSerializer).AddrPortLen exampleDomain ∧
    (PortThenAddress exampleSerializer).AddressLen exampleDomain = 2 + 3 :=
  AddressLen_is_written_length exampleFamilies (PortThenAddress exampleSerializer)
    exampleDomain (by decide)

/-- C10. When no family constant is the zero byte: for every serializer and every input
whose first byte `af` is a tag the serializer maps to none of the three families (it
is not in the tag table, or is there with a value that is no family constant),
`ReadAddress` returns the error "unknown address family: af" and no address, having
consumed the tag byte only. -/
theorem ReadAddress_unknown_family (F : Families) (hnz : F.NonZero) (s : Serializer)
    (c : Conn) (af : Nat) (rest : Octets) (hc : c.input = af :: rest)
    (hun : ∀ f, s.familyMap af = some f →
      f ≠ F.AddressFamilyIPv4 ∧ f ≠ F.AddressFamilyIPv6 ∧ f ≠ F.AddressFamilyFqdn) :
    s.ReadAddress F c
      = (.error (Err.New "unknown address family: " [af]), { c with input := rest }) := by
  obtain ⟨n4, n6, nf⟩ := hnz
  have h1 := ReadByte_cons c af rest hc
  have hfam : mapIndex s.familyMap af ≠ F.AddressFamilyIPv4 ∧
      mapIndex s.familyMap af ≠ F.AddressFamilyIPv6 ∧
      mapIndex s.familyMap af ≠ F.AddressFamilyFqdn := by
    unfold mapIndex
    cases hm : s.familyMap af with
    | none => exact ⟨Ne.symm n4, Ne.symm n6, Ne.symm nf⟩
    | some f => exact hun f hm
  simp [Serializer.ReadAddress, h1, hfam.1, hfam.2.1, hfam.2.2]

/-- C10, at a concrete input: with the family constants 1, 4 and 3, `AddrParser` meets
the tag 9. -/
theorem ReadAddress_unknown_family_witness :
    (AddrParser exampleFamilies).ReadAddress exampleFamilies
        (Conn.ofInput [9, 1, 2, 3, 4, 0, 80])
      = (.error (Err.New "unknown address family: " [9]),
          { Conn.ofInput [9, 1, 2, 3, 4, 0, 80] with input := [1, 2, 3, 4, 0, 80] }) :=
  ReadAddress_unknown_family exampleFamilies (by decide) (AddrParser exampleFamilies)
    (Conn.ofInput [9, 1, 2, 3, 4, 0, 80]) 9 [1, 2, 3, 4, 0, 80] rfl (by
      intro f hf
      have hnone : (AddrParser exampleFamilies).familyMap 9 = none := by decide
      rw [hnone] at hf
      cases hf)

/-- The other side of C10: were the constant `AddressFamilyIPv4` the zero byte, a tag
that is not in the tag table would be read as IPv4, because a Go map lookup yields the
zero value for a key that is not there. (The transport is one that does not cut the
stream, so that the 4 bytes are read whole; on every transport the result is an IPv4
address, by `ReadAddress_ip4_read`.) -/
theorem ReadAddress_unmapped_tag_when_IPv4_is_zero (F : Families)
    (h0 : F.AddressFamilyIPv4 = 0) (hf : F.AddressFamilyFqdn ≠ 0) (s : Serializer)
    (c : Conn) (af : Nat) (b rest : Octets) (hb : b.length = 4)
    (hc : c.input = af :: (b ++ rest)) (hun : s.familyMap af = none) (hcuts : c.cuts = []) :
    s.ReadAddress F c
      = (.ok { Socksaddr.empty with Addr := AddrFrom4 b }, { c with input := rest }) := by
  have h1 := ReadByte_cons c af (b ++ rest) hc
  have h2 := Conn.Read_append { c with input := b ++ rest } b rest 4 hb (by omega) rfl hcuts
  have hfam : mapIndex s.familyMap af = 0 := by simp [mapIndex, hun]
  simp [Serializer.ReadAddress, h1, hfam, h0, Ne.symm hf, h2, arrayFilled_full 4 b hb]

/-! ## Lemmas for the later claims -/

/-- The method `WriteSocksString` on a transport that accepts every write: a name of
more than 255 bytes is refused with nothing written, a shorter one goes out as its
length byte and its bytes. -/
theorem WriteSocksString_conn (conn : Conn) (hq : conn.quota = none) (str : Octets) :
    WriteSocksString conn str =
      if str.length > 255 then (some (Err.New "fqdn too long" []), conn)
      else (none, { conn with writes := conn.writes ++ [[str.length], str] }) := by
  unfold WriteSocksString
  by_cases h : str.length > 255
  · simp [h]
  · have hmod : str.length % 256 = str.length := Nat.mod_eq_of_lt (by omega)
    have w1 : rw.WriteByte conn str.length
        = (none, { conn with writes := conn.writes ++ [[str.length]] }) :=
      Conn_Write_ok conn _ hq
    have w2 : rw.WriteString { conn with writes := conn.writes ++ [[str.length]] } str
        = (none, { conn with writes := conn.writes ++ [[str.length]] ++ [str] }) :=
      Conn_Write_ok _ _ hq
    simp only [h, ↓reduceIte, hmod, w1, w2]
    simp [List.append_assoc]

/-- C11. For every domain-name address and every transport that accepts every write:
`WriteAddress` (through `WriteSocksString`) returns an error exactly when the name is
longer than 255 bytes; on that error, "fqdn too long", `WriteSocksString` has written
nothing, so after the tag byte neither a length byte nor a name byte goes out and the
name is not truncated; for a name of `n ≤ 255` bytes the tag byte is followed by the
length byte `n` and exactly the `n` name bytes. -/
theorem WriteAddress_domain_name (F : Families) (s : Serializer) (conn : Conn)
    (a : Socksaddr) (hq : conn.quota = none) (ha : a.Addr = .zero) :
    ((s.WriteAddress F conn a).1 ≠ none ↔ a.Fqdn.length > 255) ∧
    (a.Fqdn.length > 255 →
      WriteSocksString conn a.Fqdn = (some (Err.New "fqdn too long" []), conn) ∧
      s.WriteAddress F conn a = (some (Err.New "fqdn too long" []),
        { conn with writes := conn.writes ++ [[F.AddressFamilyFqdn]] })) ∧
    (a.Fqdn.length ≤ 255 →
      WriteSocksString conn a.Fqdn
        = (none, { conn with writes := conn.writes ++ [[a.Fqdn.length], a.Fqdn] }) ∧
      s.WriteAddress F conn a = (none,
        { conn with writes := conn.writes ++ [[F.AddressFamilyFqdn], [a.Fqdn.length], a.Fqdn] }) ∧
      (s.WriteAddress F conn a).2.sent
        = conn.sent ++ F.AddressFamilyFqdn :: a.Fqdn.length :: a.Fqdn) := by
  have hw : s.WriteAddress F conn a =
      if a.Fqdn.length > 255 then (some (Err.New "fqdn too long" []),
        { conn with writes := conn.writes ++ [[F.AddressFamilyFqdn]] })
      else (none,
        { conn with writes := conn.writes ++ [[F.AddressFamilyFqdn], [a.Fqdn.length], a.Fqdn] }) := by
    have w1 : rw.WriteByte conn F.AddressFamilyFqdn
        = (none, { conn with writes := conn.writes ++ [[F.AddressFamilyFqdn]] }) :=
      Conn_Write_ok conn _ hq
    have w2 := WriteSocksString_conn { conn with writes := conn.writes ++ [[F.AddressFamilyFqdn]] }
      hq a.Fqdn
    simp only [Serializer.WriteAddress, Socksaddr.IsIPv4, Socksaddr.IsIPv6, ha, NetipAddr.Is4,
      NetipAddr.Is6, NetipAddr.IsValid, Bool.false_eq_true, ↓reduceIte, w1, w2]
    split <;> simp [List.append_assoc]
  have hs := WriteSocksString_conn conn hq a.Fqdn
  refine ⟨?_, ?_, ?_⟩
  · rw [hw]
    by_cases h : a.Fqdn.length > 255 <;> simp [h]
  · intro h
    rw [hw, hs]
    simp [h]
  · intro h
    have h2 : ¬ a.Fqdn.length > 255 := by omega
    rw [hw, hs]
    simp [h2, Conn.sent]

/-- C11, at a concrete input: a name of 256 bytes, and the name "abc". -/
theorem WriteAddress_domain_name_witness :
    ((exampleSerializer.WriteAddress exampleFamilies Conn.fresh
        exampleLongDomain).1 ≠ none
      ↔ exampleLongDomain.Fqdn.length > 255) ∧
    (exampleLongDomain.Fqdn.length > 255 →
      WriteSocksString Conn.fresh
          exampleLongDomain.Fqdn
        = (some (Err.New "fqdn too long" []), Conn.fresh) ∧
      exampleSerializer.WriteAddress exampleFamilies Conn.fresh
          exampleLongDomain
        = (some (Err.New "fqdn too long" []),
          { Conn.fresh with
            writes := Conn.fresh.writes ++ [[exampleFamilies.AddressFamilyFqdn]] })) ∧
    (exampleLongDomain.Fqdn.length ≤ 255 →
      WriteSocksString Conn.fresh
          exampleLongDomain.Fqdn
        = (none, { Conn.fresh with writes := Conn.fresh.writes ++
            [[exampleLongDomain.Fqdn.length],
              exampleLongDomain.Fqdn] }) ∧
      exampleSerializer.WriteAddress exampleFamilies Conn.fresh
          exampleLongDomain
        = (none, { Conn.fresh with writes := Conn.fresh.writes ++
            [[exampleFamilies.AddressFamilyFqdn],
              [exampleLongDomain.Fqdn.length],
              exampleLongDomain.Fqdn] }) ∧
      (exampleSerializer.WriteAddress exampleFamilies Conn.fresh
          exampleLongDomain).2.sent
        = Conn.fresh.sent ++ exampleFamilies.AddressFamilyFqdn ::
            exampleLongDomain.Fqdn.length ::
            exampleLongDomain.Fqdn) :=
  WriteAddress_domain_name exampleFamilies exampleSerializer Conn.fresh
    exampleLongDomain rfl rfl

/-- The bytes of a domain-name address, written out: the name "abc" goes out as tag,
length 3 and the three bytes. -/
theorem WriteAddress_domain_name_example :
    (exampleSerializer.WriteAddress exampleFamilies Conn.fresh exampleDomain)
      = (none, { Conn.fresh with writes := [[3], [3], [97, 98, 99]] }) := by
  rfl

/-- C12. For every registry and every input of at least 56 bytes: when the first 56
bytes are not a registered key, `NewConnection` fails with "bad request", having
consumed exactly those 56 bytes; when they are a registered key and the byte after the
next two is neither 1 (TCP) nor 3 (UDP), it fails with "unknown command". In both cases
no handler is called. -/
theorem NewConnection_rejects {K : Type} (F : Families) (ser : Serializer) (s : Service K)
    (handler : Handler K) (ctx : Context K) (md : Metadata) (conn : Conn)
    (key rest : Octets) (hkey : key.length = KeyLength) (hin : conn.input = key ++ rest) :
    (s.keys key = none →
      (s.NewConnection F ser handler ctx conn md).err = some (ServiceErr.wrapped
        { Metadata := md, Conn := { conn with input := rest },
          Inner := Err.New "bad request" [] }) ∧
      (s.NewConnection F ser handler ctx conn md).conn = { conn with input := rest } ∧
      (s.NewConnection F ser handler ctx conn md).calls = []) ∧
    (∀ (u : K) (b1 b2 command : Nat) (tail : Octets), s.keys key = some u →
      rest = b1 :: b2 :: command :: tail → command ≠ CommandTCP → command ≠ CommandUDP →
      (s.NewConnection F ser handler ctx conn md).err = some (ServiceErr.wrapped
        { Metadata := md, Conn := { conn with input := tail },
          Inner := Err.New "unknown command " [command] }) ∧
      (s.NewConnection F ser handler ctx conn md).calls = []) := by
  have h1 := ReadFull_append conn key rest KeyLength hkey hin
  refine ⟨?_, ?_⟩
  · intro hk
    simp [Service.NewConnection, h1, hk, returnErr]
  · intro u b1 b2 command tail hk hrest hc1 hc2
    subst hrest
    have h2 := SkipN_append { conn with input := b1 :: b2 :: command :: tail } [b1, b2]
      (command :: tail) 2 rfl rfl
    have h3 := ReadByte_cons { conn with input := command :: tail } command tail rfl
    have hcmd : command ≠ CommandTCP ∧ command ≠ CommandUDP := ⟨hc1, hc2⟩
    simp [Service.NewConnection, h1, hk, h2, h3, hcmd, returnErr]

/-- C12, at a concrete input: the key of `exampleService` followed by CR LF and the
command byte 2. -/
theorem NewConnection_rejects_witness :
    (exampleService.keys exampleKey = none →
      (exampleService.NewConnection exampleFamilies exampleSerializer exampleHandler
          { user := none } (Conn.ofInput (exampleKey ++ [13, 10, 2, 9])) exampleMetadata).err
        = some (ServiceErr.wrapped
          { Metadata := exampleMetadata,
            Conn := { Conn.ofInput (exampleKey ++ [13, 10, 2, 9]) with input := [13, 10, 2, 9] },
            Inner := Err.New "bad request" [] }) ∧
      (exampleService.NewConnection exampleFamilies exampleSerializer exampleHandler
          { user := none } (Conn.ofInput (exampleKey ++ [13, 10, 2, 9])) exampleMetadata).conn
        = { Conn.ofInput (exampleKey ++ [13, 10, 2, 9]) with input := [13, 10, 2, 9] } ∧
      (exampleService.NewConnection exampleFamilies exampleSerializer exampleHandler
          { user := none } (Conn.ofInput (exampleKey ++ [13, 10, 2, 9])) exampleMetadata).calls
        = []) ∧
    (∀ (u : Nat) (b1 b2 command : Nat) (tail : Octets), exampleService.keys exampleKey = some u →
      [13, 10, 2, 9] = b1 :: b2 :: command :: tail → command ≠ CommandTCP →
      command ≠ CommandUDP →
      (exampleService.NewConnection exampleFamilies exampleSerializer exampleHandler
          { user := none } (Conn.ofInput (exampleKey ++ [13, 10, 2, 9])) exampleMetadata).err
        = some (ServiceErr.wrapped
          { Metadata := exampleMetadata,
            Conn := { Conn.ofInput (exampleKey ++ [13, 10, 2, 9]) with input := tail },
            Inner := Err.New "unknown command " [command] }) ∧
      (exampleService.NewConnection exampleFamilies exampleSerializer exampleHandler
          { user := none } (Conn.ofInput (exampleKey ++ [13, 10, 2, 9])) exampleMetadata).calls
        = []) :=
  NewConnection_rejects exampleFamilies exampleSerializer exampleService exampleHandler
    { user := none } exampleMetadata (Conn.ofInput (exampleKey ++ [13, 10, 2, 9])) exampleKey
    [13, 10, 2, 9] (by decide) rfl

set_option maxRecDepth 20000 in
/-- The two rejections, written out: an input of 56 bytes that are no registered key,
and the registered key followed by CR LF and the command byte 2. -/
theorem NewConnection_rejects_example :
    (exampleService.NewConnection exampleFamilies exampleSerializer exampleHandler
        { user := none } (Conn.ofInput (List.replicate 56 98 ++ [13, 10, 1])) exampleMetadata).err
      = some (ServiceErr.wrapped
        { Metadata := exampleMetadata, Conn := Conn.ofInput [13, 10, 1],
          Inner := Err.New "bad request" [] }) ∧
    (exampleService.NewConnection exampleFamilies exampleSerializer exampleHandler
        { user := none } (Conn.ofInput (exampleKey ++ [13, 10, 2, 9])) exampleMetadata).err
      = some (ServiceErr.wrapped
        { Metadata := exampleMetadata, Conn := Conn.ofInput [9],
          Inner := Err.New "unknown command " [2] }) := by
  constructor <;> rfl

/-- Every outcome of `NewConnection` on an input that holds the 56 key bytes: either
no handler is called and the error is an `Error` value that carries the metadata passed
in, the connection as the parser left it, and the cause; or exactly one handler call is
made. -/
theorem NewConnection_later_errors_are_wrapped {K : Type} (F : Families) (ser : Serializer)
    (s : Service K) (handler : Handler K) (ctx : Context K) (md : Metadata) (conn : Conn)
    (hlen : KeyLength ≤ conn.input.length) :
    (∃ inner, (s.NewConnection F ser handler ctx conn md).err = some (ServiceErr.wrapped
        { Metadata := md, Conn := (s.NewConnection F ser handler ctx conn md).conn,
          Inner := inner }) ∧
      (s.NewConnection F ser handler ctx conn md).calls = []) ∨
    (s.NewConnection F ser handler ctx conn md).calls.length = 1 := by
  have h1 : ReadFull conn KeyLength
      = (conn.input.take KeyLength, none, { conn with input := conn.input.drop KeyLength }) := by
    simp [ReadFull, hlen]
  unfold Service.NewConnection
  simp only [h1]
  repeat' split
  all_goals simp [returnErr]

/-- C13 (the first parse error is not wrapped). When the input ends before the 56 key
bytes are there, `NewConnection` returns the error of `io.ReadFull` as it is (`io.EOF`
for an empty input, `io.ErrUnexpectedEOF` otherwise): the error is not an `Error`
value, so it carries neither the connection nor the metadata. No handler is called. -/
theorem NewConnection_short_key_read_is_not_wrapped {K : Type} (F : Families)
    (ser : Serializer) (s : Service K) (handler : Handler K) (ctx : Context K)
    (md : Metadata) (conn : Conn) (hshort : conn.input.length < KeyLength) :
    (s.NewConnection F ser handler ctx conn md).err
      = some (ServiceErr.plain (if conn.input = [] then Err.EOF else Err.ErrUnexpectedEOF)) ∧
    (∀ e, (s.NewConnection F ser handler ctx conn md).err ≠ some (ServiceErr.wrapped e)) ∧
    (s.NewConnection F ser handler ctx conn md).calls = [] := by
  have hn : ¬ KeyLength ≤ conn.input.length := by omega
  by_cases he : conn.input = []
  · have h1 : ReadFull conn KeyLength = ([], some Err.EOF, conn) := by
      simp [ReadFull, he, KeyLength]
    simp [Service.NewConnection, h1, he]
  · have h1 : ReadFull conn KeyLength
        = (conn.input, some Err.ErrUnexpectedEOF, { conn with input := [] }) := by
      simp [ReadFull, hn, he]
    simp [Service.NewConnection, h1, he]

/-- C13, at a concrete input: a connection that delivers 3 bytes and ends. -/
theorem NewConnection_short_key_read_is_not_wrapped_witness :
    (exampleService.NewConnection exampleFamilies exampleSerializer exampleHandler
        { user := none } (Conn.ofInput [97, 97, 97]) exampleMetadata).err
      = some (ServiceErr.plain
          (if (Conn.ofInput [97, 97, 97]).input = [] then Err.EOF else Err.ErrUnexpectedEOF)) ∧
    (∀ e, (exampleService.NewConnection exampleFamilies exampleSerializer exampleHandler
        { user := none } (Conn.ofInput [97, 97, 97]) exampleMetadata).err
      ≠ some (ServiceErr.wrapped e)) ∧
    (exampleService.NewConnection exampleFamilies exampleSerializer exampleHandler
        { user := none } (Conn.ofInput [97, 97, 97]) exampleMetadata).calls = [] :=
  NewConnection_short_key_read_is_not_wrapped exampleFamilies exampleSerializer exampleService
    exampleHandler { user := none } exampleMetadata (Conn.ofInput [97, 97, 97]) (by decide)

/-! ## Lemmas: buffers with a header, and the client connections -/

/-- Putting a header into the headroom leaves the release count as it is. -/
theorem withHeader_released (b : Buffer) (header : Octets) :
    (b.withHeader header).released = b.released := rfl

/-- The payload of a buffer after a header has been put into its headroom: the header,
then the old payload. -/
theorem withHeader_Bytes (b : Buffer) (header : Octets) (hwf : b.WellFormed)
    (hroom : header.length ≤ b.start) :
    (b.withHeader header).Bytes = header ++ b.Bytes := by
  obtain ⟨hse, hed⟩ := hwf
  have h := splice_Bytes b.data header b.start b.stop header.length hroom hse hed rfl
  have e : b.start - header.length + header.length = b.start := by omega
  rw [e] at h
  exact h

/-- What `ExtendHeader`, writes that fill the header region, and the write-through of
the view leave of a buffer. -/
theorem storeHeader_eq_withHeader (b : Buffer) (header : Octets) (hroom : header.length ≤ b.start) :
    ({ b with start := b.start - header.length } : Buffer).storeHeader
        { data := header, start := 0, stop := header.length, released := 0 }
      = b.withHeader header := by
  have e : b.start - header.length + header.length = b.start := by omega
  simp [Buffer.storeHeader, Buffer.withHeader, e]

/-- The function `WritePacket` on every transport, failing or not, for a buffer with
room for the relay header: it makes one transport write, of the relay chunk, and
releases the buffer once. -/
theorem WritePacket_eq (F : Families) (ser : Serializer) (conn : Conn) (buffer : Buffer)
    (dest : Socksaddr) (hrep : dest.Representable) (hwf : buffer.WellFormed)
    (hroom : ser.AddrPortLen dest + 4 ≤ buffer.Start) (hlen : buffer.Len ≤ 65535) :
    WritePacket F ser conn buffer dest =
      match conn.Write ((ser.chunks F dest).flatten ++ bigEndian16 buffer.Len ++ CRLF
          ++ buffer.Bytes) with
      | (some err, c1) => some (some (Err.Cause err "write packet"), c1,
          (buffer.withHeader
            ((ser.chunks F dest).flatten ++ bigEndian16 buffer.Len ++ CRLF)).Release)
      | (none, c1) => some (none, c1,
          (buffer.withHeader
            ((ser.chunks F dest).flatten ++ bigEndian16 buffer.Len ++ CRLF)).Release) := by
  have hfit := NameFits_of_Representable dest hrep
  have hl := portChunks_length F ser dest hrep
  have hmod : buffer.Len % 65536 = buffer.Len := Nat.mod_eq_of_lt (by omega)
  have hhl : ((ser.chunks F dest).flatten ++ bigEndian16 buffer.Len ++ CRLF).length
      = ser.AddrPortLen dest + 4 := by simp [hl, bigEndian16, CRLF]
  unfold WritePacket
  rw [ExtendHeader_ok buffer _ hroom]
  simp only [Option.some_bind, Buffer_Write_eq_writeAll, Writer_Write_eq_writeAll,
    WriteAddrPort_eq_writeAll F ser _ dest hfit, Must_writeAll_bind, hmod]
  have hreg := region_length buffer _ hroom (by have := hwf.1; have := hwf.2; omega)
  rw [writeAll_fill]
  · simp only [Must, Option.some_bind, hreg]
    have hs := storeHeader_eq_withHeader buffer
      ((ser.chunks F dest).flatten ++ bigEndian16 buffer.Len ++ CRLF) (by rw [hhl]; exact hroom)
    rw [hhl] at hs
    have hflat : (ser.chunks F dest ++ ([bigEndian16 buffer.Len] ++ [CRLF])).flatten
        = (ser.chunks F dest).flatten ++ bigEndian16 buffer.Len ++ CRLF := by simp
    rw [hflat, hs, withHeader_Bytes buffer _ hwf (by rw [hhl]; exact hroom)]
  · rw [hreg]
    simp [hl, bigEndian16, CRLF]

/-- The function `ClientHandshakePacket` on every transport, failing or not: with enough
headroom one write carries the handshake, the relay header and the payload; otherwise
the handshake and the relay header go out in one write and the payload in a second
one. The buffer is not released. -/
theorem ClientHandshakePacket_eq (F : Families) (ser : Serializer) (conn : Conn)
    (key : Octets) (dest : Socksaddr) (payload : Buffer) (hkey : key.length = KeyLength)
    (hrep : dest.Representable) (hwf : payload.WellFormed) (hlen : payload.Len ≤ 65535) :
    ClientHandshakePacket F ser conn key dest payload =
      if payload.Start ≥ KeyLength + 2 * ser.AddrPortLen dest + 9 then
        match conn.Write (key ++ CRLF ++ [CommandUDP] ++ (ser.chunks F dest).flatten ++ CRLF ++
            (ser.chunks F dest).flatten ++ bigEndian16 payload.Len ++ CRLF ++ payload.Bytes) with
        | (some err, c1) => some (some (Err.Cause err "write payload"), c1,
            payload.withHeader (key ++ CRLF ++ [CommandUDP] ++ (ser.chunks F dest).flatten ++
              CRLF ++ (ser.chunks F dest).flatten ++ bigEndian16 payload.Len ++ CRLF))
        | (none, c1) => some (none, c1,
            payload.withHeader (key ++ CRLF ++ [CommandUDP] ++ (ser.chunks F dest).flatten ++
              CRLF ++ (ser.chunks F dest).flatten ++ bigEndian16 payload.Len ++ CRLF))
      else
        match conn.Write (key ++ CRLF ++ [CommandUDP] ++ (ser.chunks F dest).flatten ++ CRLF ++
            (ser.chunks F dest).flatten ++ bigEndian16 payload.Len ++ CRLF) with
        | (some err, c1) => some (some (Err.Cause err "write request"), c1, payload)
        | (none, c1) =>
          match c1.Write payload.Bytes with
          | (some err, c2) => some (some (Err.Cause err "write payload"), c2, payload)
          | (none, c2) => some (none, c2, payload) := by
  have hfit := NameFits_of_Representable dest hrep
  have hl := portChunks_length F ser dest hrep
  have hmod : payload.Len % 65536 = payload.Len := Nat.mod_eq_of_lt (by omega)
  have hb : ∀ b : Buffer, b.Bytes = (b.data.take b.stop).drop b.start := fun _ => rfl
  have hhl : (key ++ CRLF ++ [CommandUDP] ++ (ser.chunks F dest).flatten ++ CRLF ++
      (ser.chunks F dest).flatten ++ bigEndian16 payload.Len ++ CRLF).length
      = KeyLength + 2 * ser.AddrPortLen dest + 9 := by
    simp [hl, hkey, bigEndian16, CRLF]; omega
  have hflat : ([key] ++ ([CRLF] ++ ([[CommandUDP]] ++ (ser.chunks F dest ++ ([CRLF] ++
      (ser.chunks F dest ++ ([bigEndian16 payload.Len] ++ [CRLF]))))))).flatten
      = key ++ CRLF ++ [CommandUDP] ++ (ser.chunks F dest).flatten ++ CRLF ++
        (ser.chunks F dest).flatten ++ bigEndian16 payload.Len ++ CRLF := by
    simp [List.append_assoc]
  unfold ClientHandshakePacket
  by_cases hroom : payload.Start ≥ KeyLength + 2 * ser.AddrPortLen dest + 9
  · simp only [hroom, ↓reduceIte]
    rw [ExtendHeader_ok payload _ hroom]
    simp only [Option.some_bind, Buffer_Write_eq_writeAll, Buffer_WriteByte_eq_writeAll,
      Writer_Write_eq_writeAll, WriteAddrPort_eq_writeAll F ser _ dest hfit,
      Must_writeAll_last, hmod]
    have hreg := region_length payload _ hroom (by have := hwf.1; have := hwf.2; omega)
    rw [writeAll_fill]
    · simp only [Must, Option.some_bind, hreg]
      have hs := storeHeader_eq_withHeader payload
        (key ++ CRLF ++ [CommandUDP] ++ (ser.chunks F dest).flatten ++ CRLF ++
          (ser.chunks F dest).flatten ++ bigEndian16 payload.Len ++ CRLF)
        (by rw [hhl]; exact hroom)
      rw [hhl] at hs
      rw [hflat, hs, withHeader_Bytes payload _ hwf (by rw [hhl]; exact hroom)]
    · rw [hreg, hflat, hhl]
  · simp only [hroom, ↓reduceIte]
    simp only [Buffer_Write_eq_writeAll, Buffer_WriteByte_eq_writeAll,
      Writer_Write_eq_writeAll, WriteAddrPort_eq_writeAll F ser _ dest hfit,
      Must_writeAll_last, hmod, StackNewSize_eq_With]
    rw [writeAll_fill]
    · simp only [Must, Option.some_bind, hflat]
      have e : ∀ n, (Buffer.mk (key ++ CRLF ++ [CommandUDP] ++ (ser.chunks F dest).flatten ++ CRLF ++
          (ser.chunks F dest).flatten ++ bigEndian16 payload.Len ++ CRLF) 0
          (List.replicate (KeyLength + 2 * ser.AddrPortLen dest + 9) 0).length n).Bytes
          = key ++ CRLF ++ [CommandUDP] ++ (ser.chunks F dest).flatten ++ CRLF ++
          (ser.chunks F dest).flatten ++ bigEndian16 payload.Len ++ CRLF := by
        intro n
        simp only [hb, List.drop_zero, List.length_replicate]
        rw [← hhl, List.take_length]
      rw [e]
    · rw [hflat, hhl, List.length_replicate]

/-- The function `ClientHandshakeBuffer` on every transport, failing or not, for a
payload buffer with room for the header: one transport write carries the header and the
payload. The buffer is not released. -/
theorem ClientHandshakeBuffer_eq (F : Families) (ser : Serializer) (conn : Conn)
    (key : Octets) (dest : Socksaddr) (buffer : Buffer) (hkey : key.length = KeyLength)
    (hrep : dest.Representable) (hwf : buffer.WellFormed)
    (hroom : KeyLength + ser.AddrPortLen dest + 5 ≤ buffer.Start) :
    ClientHandshakeBuffer F ser conn key dest buffer =
      match conn.Write (key ++ CRLF ++ [CommandTCP] ++ (ser.chunks F dest).flatten ++ CRLF
          ++ buffer.Bytes) with
      | (some err, c1) => some (some (Err.Cause err "write request"), c1,
          buffer.withHeader (key ++ CRLF ++ [CommandTCP] ++ (ser.chunks F dest).flatten ++ CRLF))
      | (none, c1) => some (none, c1,
          buffer.withHeader (key ++ CRLF ++ [CommandTCP] ++ (ser.chunks F dest).flatten ++ CRLF)) := by
  have hfit := NameFits_of_Representable dest hrep
  have hl := portChunks_length F ser dest hrep
  have hhl : (key ++ CRLF ++ [CommandTCP] ++ (ser.chunks F dest).flatten ++ CRLF).length
      = KeyLength + ser.AddrPortLen dest + 5 := by
    simp [hl, hkey, CRLF]; omega
  have hflat : ([key] ++ ([CRLF] ++ ([[CommandTCP]] ++ (ser.chunks F dest ++ [CRLF])))).flatten
      = key ++ CRLF ++ [CommandTCP] ++ (ser.chunks F dest).flatten ++ CRLF := by
    simp [List.append_assoc]
  unfold ClientHandshakeBuffer
  rw [ExtendHeader_ok buffer _ hroom]
  simp only [Option.some_bind, Buffer_Write_eq_writeAll, Buffer_WriteByte_eq_writeAll,
    WriteAddrPort_eq_writeAll F ser _ dest hfit, Must_writeAll_bind]
  have hreg := region_length buffer _ hroom (by have := hwf.1; have := hwf.2; omega)
  rw [writeAll_fill]
  · simp only [Must, Option.some_bind, hreg]
    have hs := storeHeader_eq_withHeader buffer
      (key ++ CRLF ++ [CommandTCP] ++ (ser.chunks F dest).flatten ++ CRLF)
      (by rw [hhl]; exact hroom)
    rw [hhl] at hs
    rw [hflat, hs, withHeader_Bytes buffer _ hwf (by rw [hhl]; exact hroom)]
  · rw [hreg, hflat, hhl]

/-- The function `WritePacket` releases the buffer exactly once, whether the transport
accepts the write or not. -/
theorem WritePacket_releases_once (F : Families) (ser : Serializer) (conn : Conn)
    (buffer : Buffer) (dest : Socksaddr) (hrep : dest.Representable) (hwf : buffer.WellFormed)
    (hroom : ser.AddrPortLen dest + 4 ≤ buffer.Start) (hlen : buffer.Len ≤ 65535) :
    ∃ err c1 b1, WritePacket F ser conn buffer dest = some (err, c1, b1) ∧
      b1.released = buffer.released + 1 := by
  rw [WritePacket_eq F ser conn buffer dest hrep hwf hroom hlen]
  rcases conn.Write ((ser.chunks F dest).flatten ++ bigEndian16 buffer.Len ++ CRLF
      ++ buffer.Bytes) with ⟨_ | e, c1⟩
  · exact ⟨_, _, _, rfl, rfl⟩
  · exact ⟨_, _, _, rfl, rfl⟩

/-- The method `PacketConn.WritePacket` releases the buffer exactly once, whether the
transport accepts the write or not. -/
theorem PacketConn_WritePacket_releases_once (F : Families) (ser : Serializer)
    (c : PacketConn) (buffer : Buffer) (dest : Socksaddr) (hrep : dest.Representable)
    (hwf : buffer.WellFormed) (hroom : ser.AddrPortLen dest + 4 ≤ buffer.Start)
    (hlen : buffer.Len ≤ 65535) :
    ∃ err c1 b1, c.WritePacket F ser buffer dest = some (err, c1, b1) ∧
      b1.released = buffer.released + 1 := by
  obtain ⟨err, c1, b1, h, hr⟩ :=
    WritePacket_releases_once F ser c.Conn buffer dest hrep hwf hroom hlen
  exact ⟨err, ⟨c1⟩, b1, by simp [PacketConn.WritePacket, h], hr⟩

/-- The method `ClientConn.WriteBuffer` releases the buffer exactly once, with the header
sent or not, whether the transport accepts the write or not. -/
theorem ClientConn_WriteBuffer_releases_once (F : Families) (ser : Serializer)
    (c : ClientConn) (buffer : Buffer)
    (hfirst : c.headerWritten = false → c.key.length = KeyLength ∧ c.destination.Representable ∧
      buffer.WellFormed ∧ KeyLength + ser.AddrPortLen c.destination + 5 ≤ buffer.Start) :
    ∃ err c1 b1, c.WriteBuffer F ser buffer = some (err, c1, b1) ∧
      b1.released = buffer.released + 1 := by
  unfold ClientConn.WriteBuffer
  cases hw : c.headerWritten with
  | true => exact ⟨_, _, _, rfl, rfl⟩
  | false =>
    obtain ⟨hkey, hrep, hwf, hroom⟩ := hfirst hw
    rw [ClientHandshakeBuffer_eq F ser c.Conn c.key c.destination buffer hkey hrep hwf hroom]
    rcases c.Conn.Write (c.key ++ CRLF ++ [CommandTCP] ++ (ser.chunks F c.destination).flatten
        ++ CRLF ++ buffer.Bytes) with ⟨_ | e, c1⟩
    · exact ⟨_, _, _, rfl, rfl⟩
    · exact ⟨_, _, _, rfl, rfl⟩

/-- The first `WritePacket` of a `ClientPacketConn` releases the buffer exactly once,
whether the transport accepts the writes or not. -/
theorem ClientPacketConn_first_WritePacket_releases_once (F : Families) (ser : Serializer)
    (c : ClientPacketConn) (buffer : Buffer) (dest : Socksaddr)
    (hfirst : c.headerWritten = false) (hkey : c.key.length = KeyLength)
    (hrep : dest.Representable) (hwf : buffer.WellFormed) (hlen : buffer.Len ≤ 65535) :
    ∃ err c1 b1, c.WritePacket F ser buffer dest = some (err, c1, b1) ∧
      b1.released = buffer.released + 1 := by
  unfold ClientPacketConn.WritePacket
  rw [ClientHandshakePacket_eq F ser c.Conn c.key dest buffer hkey hrep hwf hlen]
  simp only [hfirst, Bool.not_false, ↓reduceIte]
  by_cases hh : buffer.Start ≥ KeyLength + 2 * ser.AddrPortLen dest + 9
  · rw [if_pos hh]
    rcases c.Conn.Write (c.key ++ CRLF ++ [CommandUDP] ++ (ser.chunks F dest).flatten ++ CRLF ++
        (ser.chunks F dest).flatten ++ bigEndian16 buffer.Len ++ CRLF ++ buffer.Bytes)
      with ⟨_ | e, c1⟩
    · exact ⟨_, _, _, rfl, rfl⟩
    · exact ⟨_, _, _, rfl, rfl⟩
  · rw [if_neg hh]
    rcases c.Conn.Write (c.key ++ CRLF ++ [CommandUDP] ++ (ser.chunks F dest).flatten ++ CRLF ++
        (ser.chunks F dest).flatten ++ bigEndian16 buffer.Len ++ CRLF) with ⟨_ | e, c1⟩
    · rcases hw : c1.Write buffer.Bytes with ⟨_ | e, c2⟩
      · simp only [hw]
        exact ⟨_, _, _, rfl, rfl⟩
      · simp only [hw]
        exact ⟨_, _, _, rfl, rfl⟩
    · exact ⟨_, _, _, rfl, rfl⟩

/-- C14 (a buffer is released twice). A `WritePacket` call on a `ClientPacketConn` whose
header has been sent releases the buffer twice, whether the transport accepts the write
or not: once in `WritePacket`, to which it delegates, and once more by its own deferred
`Release`. Likewise `bufio.WriteTo` over a `PacketConn` and `bufio.Write` over a
`ClientConn` whose header has been sent release the buffer twice: once in the callee
and once more by their own deferred `Release`. -/
theorem ClientPacketConn_WritePacket_releases_twice (F : Families) (ser : Serializer)
    (c : ClientPacketConn) (buffer : Buffer) (dest : Socksaddr)
    (hsent : c.headerWritten = true) (hrep : dest.Representable) (hwf : buffer.WellFormed)
    (hroom : ser.AddrPortLen dest + 4 ≤ buffer.Start) (hlen : buffer.Len ≤ 65535) :
    (∃ err c1 b1, c.WritePacket F ser buffer dest = some (err, c1, b1) ∧
      b1.released = buffer.released + 2) ∧
    (∃ r w1 b1, bufio.WriteTo (PacketConn.WritePacket F ser) id { Conn := c.Conn } buffer dest
        = some (r, w1, b1) ∧
      b1.released = buffer.released + 2) ∧
    (∀ cc : ClientConn, cc.headerWritten = true →
      ∃ r w1 b1, bufio.Write (ClientConn.WriteBuffer F ser) cc buffer = some (r, w1, b1) ∧
        b1.released = buffer.released + 2) := by
  obtain ⟨err, c1, b1, h, hr⟩ :=
    WritePacket_releases_once F ser c.Conn buffer dest hrep hwf hroom hlen
  refine ⟨?_, ?_, ?_⟩
  · refine ⟨err, { c with Conn := c1 }, b1.Release, ?_, ?_⟩
    · simp [ClientPacketConn.WritePacket, hsent, h]
    · show b1.released + 1 = buffer.released + 2
      omega
  · cases err with
    | none =>
      refine ⟨(buffer.Len, none), ⟨c1⟩, b1.Release, ?_, ?_⟩
      · simp [bufio.WriteTo, PacketConn.WritePacket, h]
      · show b1.released + 1 = buffer.released + 2
        omega
    | some e =>
      refine ⟨(0, some e), ⟨c1⟩, b1.Release, ?_, ?_⟩
      · simp [bufio.WriteTo, PacketConn.WritePacket, h]
      · show b1.released + 1 = buffer.released + 2
        omega
  · intro cc hcc
    unfold bufio.Write ClientConn.WriteBuffer
    simp only [hcc, ↓reduceIte]
    rcases cc.Conn.Write buffer.Bytes with ⟨_ | e, c2⟩
    · exact ⟨_, _, _, rfl, rfl⟩
    · exact ⟨_, _, _, rfl, rfl⟩

/-- C14, at a concrete input: a `ClientPacketConn` whose header has been sent, and the
payload 7, 8, 9 behind 100 bytes of headroom, sent to the domain name "abc" with port
8080. -/
theorem ClientPacketConn_WritePacket_releases_twice_witness :
    (∃ err c1 b1, ({ Conn := Conn.fresh, key := exampleKey, headerWritten := true }
        : ClientPacketConn).WritePacket exampleFamilies exampleSerializer
          (Buffer.ofPayload 100 [7, 8, 9] 5) exampleDomain = some (err, c1, b1) ∧
      b1.released = (Buffer.ofPayload 100 [7, 8, 9] 5).released + 2) ∧
    (∃ r w1 b1, bufio.WriteTo (PacketConn.WritePacket exampleFamilies exampleSerializer) id
        { Conn := ({ Conn := Conn.fresh, key := exampleKey, headerWritten := true }
          : ClientPacketConn).Conn } (Buffer.ofPayload 100 [7, 8, 9] 5) exampleDomain
        = some (r, w1, b1) ∧
      b1.released = (Buffer.ofPayload 100 [7, 8, 9] 5).released + 2) ∧
    (∀ cc : ClientConn, cc.headerWritten = true →
      ∃ r w1 b1, bufio.Write (ClientConn.WriteBuffer exampleFamilies exampleSerializer) cc
          (Buffer.ofPayload 100 [7, 8, 9] 5) = some (r, w1, b1) ∧
        b1.released = (Buffer.ofPayload 100 [7, 8, 9] 5).released + 2) :=
  ClientPacketConn_WritePacket_releases_twice exampleFamilies exampleSerializer
    { Conn := Conn.fresh, key := exampleKey, headerWritten := true }
    (Buffer.ofPayload 100 [7, 8, 9] 5) exampleDomain rfl (by decide) (by decide) (by decide)
    (by decide)

/-- The release counts of the example, written out: two after `WritePacket` on a
`ClientPacketConn` whose header has been sent, one after its first `WritePacket`. -/
theorem release_count_example :
    (({ Conn := Conn.fresh, key := exampleKey, headerWritten := true }
        : ClientPacketConn).WritePacket exampleFamilies exampleSerializer
          (Buffer.ofPayload 100 [7, 8, 9] 5) exampleDomain).map (fun r => r.2.2.released)
      = some 2 ∧
    ((NewClientPacketConn Conn.fresh exampleKey).WritePacket exampleFamilies exampleSerializer
          (Buffer.ofPayload 100 [7, 8, 9] 5) exampleDomain).map (fun r => r.2.2.released)
      = some 1 := by
  constructor <;> rfl

/-- The loop of `UniqBy` keeps the first item of each key that has not been seen. -/
theorem UniqBy_loop_eq {ε κ : Type} [DecidableEq κ] (block : ε → κ) (l : List ε)
    (seen : List κ) :
    UniqBy.loop block seen l = (firstOfEachKey block l).filter (fun x => block x ∉ seen) := by
  induction l generalizing seen with
  | nil => rfl
  | cons item rest ih =>
    by_cases h : block item ∈ seen
    · simp only [UniqBy.loop, h, ↓reduceIte, firstOfEachKey, List.filter_cons,
        not_true_eq_false, decide_False, Bool.false_eq_true, List.filter_filter, ih]
      apply List.filter_congr
      intro x _
      by_cases hx : block x ∈ seen
      · simp [hx]
      · have : block x ≠ block item := fun e => hx (e ▸ h)
        simp [hx, this]
    · simp only [UniqBy.loop, h, ↓reduceIte, firstOfEachKey, List.filter_cons,
        not_false_eq_true, decide_True, List.filter_filter, ih, List.cons.injEq, true_and]
      apply List.filter_congr
      intro x _
      simp [List.mem_cons, not_or, Bool.and_comm]

/-- The keys of what the loop of `UniqBy` keeps are pairwise distinct and not among the
keys seen before. -/
theorem UniqBy_loop_nodup {ε κ : Type} [DecidableEq κ] (block : ε → κ) (l : List ε)
    (seen : List κ) :
    ((UniqBy.loop block seen l).map block).Nodup ∧
      ∀ x ∈ UniqBy.loop block seen l, block x ∉ seen := by
  induction l generalizing seen with
  | nil => simp [UniqBy.loop]
  | cons item rest ih =>
    by_cases h : block item ∈ seen
    · simpa [UniqBy.loop, h] using ih seen
    · obtain ⟨hn, hs⟩ := ih (block item :: seen)
      simp only [UniqBy.loop, h, ↓reduceIte, List.map_cons, List.nodup_cons, List.mem_map,
        not_exists, not_and, List.mem_cons, forall_eq_or_imp, not_false_eq_true, true_and]
      refine ⟨⟨fun x hx e => ?_, hn⟩, fun x hx hm => ?_⟩
      · exact hs x hx (by simp [e])
      · exact hs x hx (List.mem_cons_of_mem _ hm)

/-- The loop of `UniqBy` only drops items, and drops no key that has not been seen. -/
theorem UniqBy_loop_sublist {ε κ : Type} [DecidableEq κ] (block : ε → κ) (l : List ε)
    (seen : List κ) :
    (UniqBy.loop block seen l).Sublist l ∧
      ∀ x ∈ l, block x ∈ seen ∨ block x ∈ (UniqBy.loop block seen l).map block := by
  induction l generalizing seen with
  | nil => simp [UniqBy.loop]
  | cons item rest ih =>
    by_cases h : block item ∈ seen
    · obtain ⟨hsub, hc⟩ := ih seen
      simp only [UniqBy.loop, h, ↓reduceIte, List.mem_cons, forall_eq_or_imp, true_or, true_and]
      exact ⟨hsub.trans (List.sublist_cons_self _ _), hc⟩
    · obtain ⟨hsub, hc⟩ := ih (block item :: seen)
      simp only [UniqBy.loop, h, ↓reduceIte, List.mem_cons, forall_eq_or_imp, List.map_cons,
        true_or, or_true, true_and]
      refine ⟨hsub.cons₂ _, fun x hx => ?_⟩
      rcases hc x hx with hm | hm
      · rcases List.mem_cons.mp hm with e | hm
        · exact Or.inr (Or.inl e)
        · exact Or.inl hm
      · exact Or.inr (Or.inr hm)

/-- The function `Run` when every task that has appended an error has appended `errA`,
and at least one has: the result is `errA` itself, however many of the appends are
there. -/
theorem Run_one_error {ε : Type} (Error : ε → String) (errA : ε) (finished : List (Option ε))
    (hall : ∀ e ∈ finished, e = none ∨ e = some errA) (hone : some errA ∈ finished) :
    Run Error none finished = some (ErrorValue.plain errA) := by
  have hrep : ∀ l : List (Option ε), (∀ e ∈ l, e = none ∨ e = some errA) →
      ∃ n, FilterNotNil l = List.replicate n errA := by
    intro l
    induction l with
    | nil => exact fun _ => ⟨0, rfl⟩
    | cons e rest ih =>
      intro h
      obtain ⟨n, hn⟩ := ih (fun x hx => h x (List.mem_cons_of_mem _ hx))
      rcases h e (List.mem_cons_self _ _) with he | he
      · exact ⟨n, by simpa [FilterNotNil, he] using hn⟩
      · refine ⟨n + 1, ?_⟩
        have : FilterNotNil (e :: rest) = errA :: FilterNotNil rest := by
          simp [FilterNotNil, he]
        rw [this, hn, List.replicate_succ]
  have hseen : ∀ n, UniqBy.loop Error [Error errA] (List.replicate n errA) = [] := by
    intro n
    induction n with
    | zero => rfl
    | succ n ih => simp [List.replicate_succ, UniqBy.loop, ih]
  obtain ⟨n, hn⟩ := hrep finished hall
  have hmem : errA ∈ FilterNotNil finished := by
    simp only [FilterNotNil, List.mem_filterMap, id_eq]
    exact ⟨some errA, hone, rfl⟩
  have hback : FilterNotNil ((FilterNotNil finished).map some ++ [none]) = FilterNotNil finished := by
    generalize FilterNotNil finished = l
    induction l with
    | nil => rfl
    | cons x rest ih =>
      have : FilterNotNil ((x :: rest).map some ++ [none])
          = x :: FilterNotNil (rest.map some ++ [none]) := by
        simp [FilterNotNil]
      rw [this, ih]
  unfold Run Errors
  simp only []
  rw [hback, hn]
  rw [hn] at hmem
  cases n with
  | zero => simp at hmem
  | succ n => simp [List.replicate_succ, UniqBy, UniqBy.loop, hseen]

/-- C15 (`Errors` and `Run`). For every list of errors, `nil` entries allowed:
`FilterNotNil` keeps the entries that are not `nil`, in order; of these `UniqBy` keeps
the first of each message, in order, so that the kept errors are a sublist, no message
occurs twice among them, and every message of the list occurs among them. `Errors`
returns `nil` when nothing is kept, the error itself when one is kept, and otherwise a
`multiError` with exactly the kept errors. Consequently `Run` with a context that is
never cancelled, over three tasks that return `nil`, `errA` and `errA` and finish in any
order, returns `errA` itself; and so it does whenever `errA` is the only error appended
and has been appended at least once. -/
theorem Errors_keeps_first_of_each_message {ε : Type} (Error : ε → String)
    (errors : List (Option ε)) :
    (FilterNotNil errors).map some = errors.filter (fun e => e.isSome) ∧
    UniqBy (FilterNotNil errors) Error = firstOfEachKey Error (FilterNotNil errors) ∧
    (UniqBy (FilterNotNil errors) Error).Sublist (FilterNotNil errors) ∧
    ((UniqBy (FilterNotNil errors) Error).map Error).Nodup ∧
    (∀ e, some e ∈ errors → Error e ∈ (UniqBy (FilterNotNil errors) Error).map Error) ∧
    (UniqBy (FilterNotNil errors) Error = [] → Errors Error errors = none) ∧
    (∀ e, UniqBy (FilterNotNil errors) Error = [e] →
      Errors Error errors = some (ErrorValue.plain e)) ∧
    (2 ≤ (UniqBy (FilterNotNil errors) Error).length →
      Errors Error errors =
        some (ErrorValue.multiError (UniqBy (FilterNotNil errors) Error))) ∧
    (∀ (errA : ε) (finished : List (Option ε)),
      finished.Perm [none, some errA, some errA] →
        Run Error none finished = some (ErrorValue.plain errA)) ∧
    (∀ (errA : ε) (finished : List (Option ε)),
      (∀ e ∈ finished, e = none ∨ e = some errA) → some errA ∈ finished →
        Run Error none finished = some (ErrorValue.plain errA)) := by
  refine ⟨?_, ?_, ?_, ?_, ?_, ?_, ?_, ?_, ?_, fun errA finished => Run_one_error Error errA finished⟩
  · induction errors with
    | nil => rfl
    | cons e rest ih =>
      cases e with
      | none => simpa [FilterNotNil] using ih
      | some e => simpa [FilterNotNil] using ih
  · simp [UniqBy, UniqBy_loop_eq]
  · exact (UniqBy_loop_sublist Error _ []).1
  · exact (UniqBy_loop_nodup Error _ []).1
  · intro e he
    have hm : e ∈ FilterNotNil errors := by
      simp only [FilterNotNil, List.mem_filterMap, id_eq]
      exact ⟨some e, he, rfl⟩
    rcases (UniqBy_loop_sublist Error (FilterNotNil errors) []).2 e hm with h | h
    · simp at h
    · exact h
  · intro h
    simp [Errors, h]
  · intro e h
    simp [Errors, h]
  · intro h
    rcases hk : UniqBy (FilterNotNil errors) Error with _ | ⟨a, _ | ⟨b, t⟩⟩
    · simp [hk] at h
    · simp [hk] at h
    · simp [Errors, hk]
  · intro errA finished hp
    have h1 : (FilterNotNil finished).Perm (FilterNotNil [none, some errA, some errA]) :=
      hp.filterMap id
    have h2 : FilterNotNil finished = [errA, errA] := by
      have : FilterNotNil [none, some errA, some errA] = List.replicate 2 errA := rfl
      rw [this] at h1
      exact List.perm_replicate.mp h1
    unfold Run
    rw [h2]
    simp [Errors, FilterNotNil, UniqBy, UniqBy.loop]

/-- C15 at concrete values, with strings for errors: of `nil`, "b", "a", "b", `nil`, "a"
the errors "b" and "a" are kept; and `Run` over tasks returning `nil`, "a", "a" returns
"a". -/
theorem Errors_example :
    Errors id [none, some "b", some "a", some "b", none, some "a"]
      = some (ErrorValue.multiError ["b", "a"]) ∧
    Errors id [none, some "a", none, some "a"] = some (ErrorValue.plain "a") ∧
    Errors (id : String → String) [none, none] = none ∧
    Run id none [none, some "a", some "a"] = some (ErrorValue.plain "a") := by
  refine ⟨?_, ?_, ?_, ?_⟩ <;> decide

/-- A relay chunk in terms of the slices `WriteAddrPort` writes and the length of the
buffer. -/
theorem relayChunk_eq (F : Families) (ser : Serializer) (dest : Socksaddr) (buffer : Buffer)
    (hrep : dest.Representable) (hwf : buffer.WellFormed) :
    relayChunk F ser dest buffer.Bytes =
      (ser.chunks F dest).flatten ++ bigEndian16 buffer.Len ++ CRLF ++ buffer.Bytes := by
  rw [relayChunk, wire_eq_chunks F ser dest (NameFits_of_Representable dest hrep),
    Bytes_length buffer hwf.2]

/-- The `WritePacket` calls of a `ClientPacketConn` whose header has been sent, on a
transport that accepts every write: each sends its relay chunk, and the header stays
sent. -/
theorem WritePackets_HeaderSent (F : Families) (ser : Serializer)
    (rest : List (Buffer × Socksaddr)) (c : ClientPacketConn)
    (hsent : c.headerWritten = true) (hq : c.Conn.quota = none)
    (hrest : ∀ bd ∈ rest, bd.2.Representable ∧ bd.1.WellFormed ∧ bd.1.Len ≤ 65535 ∧
      ser.AddrPortLen bd.2 + 4 ≤ bd.1.Start) :
    ∃ c1, c.WritePackets F ser rest = some c1 ∧
      c1.Conn.sent = c.Conn.sent ++
        (rest.map fun bd => relayChunk F ser bd.2 bd.1.Bytes).flatten ∧
      c1.headerWritten = true ∧ c1.Conn.quota = none := by
  induction rest generalizing c with
  | nil => exact ⟨c, rfl, by simp, hsent, hq⟩
  | cons bd rest ih =>
    obtain ⟨buffer, dest⟩ := bd
    obtain ⟨hrep, hwf, hlen, hroom⟩ := hrest (buffer, dest) (List.mem_cons_self _ _)
    have hcall : c.WritePacket F ser buffer dest =
        some (none, { c with Conn := { c.Conn with writes := c.Conn.writes ++
            [(ser.chunks F dest).flatten ++ bigEndian16 buffer.Len ++ CRLF ++ buffer.Bytes] } },
          (buffer.withHeader
            ((ser.chunks F dest).flatten ++ bigEndian16 buffer.Len ++ CRLF)).Release.Release) := by
      unfold ClientPacketConn.WritePacket
      rw [WritePacket_eq F ser c.Conn buffer dest hrep hwf hroom hlen, Conn_Write_ok _ _ hq]
      simp [hsent]
    obtain ⟨c1, h1, hs1, hw1, hq1⟩ := ih
      { c with Conn := { c.Conn with writes := c.Conn.writes ++
          [(ser.chunks F dest).flatten ++ bigEndian16 buffer.Len ++ CRLF ++ buffer.Bytes] } }
      hsent hq (fun bd hbd => hrest bd (List.mem_cons_of_mem _ hbd))
    refine ⟨c1, ?_, ?_, hw1, hq1⟩
    · simp only [ClientPacketConn.WritePackets, hcall]
      exact h1
    · rw [hs1, List.map_cons, List.flatten_cons, relayChunk_eq F ser dest buffer hrep hwf]
      simp [Conn.sent, List.append_assoc]

/-- A sequence of `WritePacket` calls in two parts: the second part goes on from where the
first has come to. -/
theorem WritePackets_append (F : Families) (ser : Serializer)
    (l1 l2 : List (Buffer × Socksaddr)) (c : ClientPacketConn) :
    c.WritePackets F ser (l1 ++ l2) =
      (c.WritePackets F ser l1).bind fun c1 => c1.WritePackets F ser l2 := by
  induction l1 generalizing c with
  | nil => rfl
  | cons bd rest ih =>
    obtain ⟨buffer, dest⟩ := bd
    simp only [List.cons_append, ClientPacketConn.WritePackets]
    rcases hc : c.WritePacket F ser buffer dest with _ | ⟨_ | e, c1, b1⟩
    · rfl
    · exact ih c1
    · rfl

/-- The function `WritePacket` panics in `ExtendHeader` when the buffer has less headroom
than the relay header needs. -/
theorem WritePacket_no_headroom (F : Families) (ser : Serializer) (conn : Conn)
    (buffer : Buffer) (dest : Socksaddr) (h : buffer.Start < ser.AddrPortLen dest + 4) :
    WritePacket F ser conn buffer dest = none := by
  have hno : ¬ ser.AddrPortLen dest + 4 ≤ buffer.start := by
    have : buffer.Start = buffer.start := rfl
    omega
  simp [WritePacket, Buffer.ExtendHeader, hno]

/-- C16 fails on the code for a later datagram whose buffer has no headroom: after the
first datagram, `WritePacket` writes the relay header in front of the payload with
`ExtendHeader`, which fails, and the call panics. -/
theorem WritePackets_later_buffer_without_headroom_panics :
    (Buffer.ofPayload 100 [7, 8, 9] 0).Bytes = [7, 8, 9] ∧
    (Buffer.ofPayload 0 [5, 6] 0).Bytes = [5, 6] ∧
    (Buffer.ofPayload 0 [5, 6] 0).Start = 0 ∧
    (NewClientPacketConn Conn.fresh exampleKey).WritePackets exampleFamilies exampleSerializer
      [(Buffer.ofPayload 100 [7, 8, 9] 0, exampleDomain),
       (Buffer.ofPayload 0 [5, 6] 0, exampleIPv4)] = none := by
  refine ⟨rfl, rfl, rfl, rfl⟩

/-- C16, as amended. For a fresh `ClientPacketConn` with a key `k` of 56 bytes, on a
transport that accepts every write, and every non-empty sequence of `WritePacket` calls
whose payloads have at most 65535 bytes each and whose buffers after the first have at
least `AddrPortLen(destination) + 4` bytes of headroom: the calls return no error, and
the bytes written are `k`, CR LF (the bytes 13, 10), the byte 3, the encoded first
destination, CR LF, the relay chunk of the first datagram, and then the relay chunks of
the later datagrams in order, a relay chunk being the encoded destination, the length of
the payload as 2 big-endian bytes, CR LF and the payload. Nothing is asked of the
headroom of the first buffer, so the bytes are the same with and without room for the
header in it. A later call whose buffer has less headroom than that panics in
`ExtendHeader`. (Destinations are IPv4, IPv6 or domain names of at most 255 bytes.) -/
theorem WritePackets_wire_format (F : Families) (ser : Serializer) (conn : Conn)
    (key : Octets) (buffer : Buffer) (dest : Socksaddr) (rest : List (Buffer × Socksaddr))
    (hq : conn.quota = none) (hkey : key.length = 56)
    (hrep : dest.Representable) (hwf : buffer.WellFormed) (hlen : buffer.Bytes.length ≤ 65535)
    (hrest : ∀ bd ∈ rest, bd.2.Representable ∧ bd.1.WellFormed ∧ bd.1.Bytes.length ≤ 65535 ∧
      ser.AddrPortLen bd.2 + 4 ≤ bd.1.Start) :
    (∃ c1, (NewClientPacketConn conn key).WritePackets F ser ((buffer, dest) :: rest) = some c1 ∧
      c1.Conn.sent = conn.sent ++ key ++ [13, 10] ++ [3] ++ ser.wire F dest ++ [13, 10] ++
        (ser.wire F dest ++ [buffer.Bytes.length / 256 % 256, buffer.Bytes.length % 256] ++
          [13, 10] ++ buffer.Bytes) ++
        (rest.map fun bd =>
          ser.wire F bd.2 ++ [bd.1.Bytes.length / 256 % 256, bd.1.Bytes.length % 256] ++
            [13, 10] ++ bd.1.Bytes).flatten) ∧
    (∀ (lacking : Buffer) (d : Socksaddr) (more : List (Buffer × Socksaddr)),
      lacking.Start < ser.AddrPortLen d + 4 →
      (NewClientPacketConn conn key).WritePackets F ser
        ((buffer, dest) :: (rest ++ (lacking, d) :: more)) = none) := by
  have hkey1 : key.length = KeyLength := hkey
  have hlen1 : buffer.Len ≤ 65535 := by rw [← Bytes_length buffer hwf.2]; exact hlen
  have hrest1 : ∀ bd ∈ rest, bd.2.Representable ∧ bd.1.WellFormed ∧ bd.1.Len ≤ 65535 ∧
      ser.AddrPortLen bd.2 + 4 ≤ bd.1.Start := by
    intro bd hbd
    obtain ⟨h1, h2, h3, h4⟩ := hrest bd hbd
    exact ⟨h1, h2, by rw [← Bytes_length bd.1 h2.2]; exact h3, h4⟩
  have hfirst : ∃ b1, (NewClientPacketConn conn key).WritePacket F ser buffer dest =
      some (none, ClientPacketConn.mk { conn with writes := conn.writes ++
          (if buffer.Start ≥ KeyLength + 2 * ser.AddrPortLen dest + 9 then
            [key ++ CRLF ++ [CommandUDP] ++ (ser.chunks F dest).flatten ++ CRLF ++
              (ser.chunks F dest).flatten ++ bigEndian16 buffer.Len ++ CRLF ++ buffer.Bytes]
           else
            [key ++ CRLF ++ [CommandUDP] ++ (ser.chunks F dest).flatten ++ CRLF ++
              (ser.chunks F dest).flatten ++ bigEndian16 buffer.Len ++ CRLF, buffer.Bytes]) }
        key true, b1) := by
    unfold ClientPacketConn.WritePacket NewClientPacketConn
    simp only [Bool.not_false, ↓reduceIte]
    rw [ClientHandshakePacket_eq F ser conn key dest buffer hkey1 hrep hwf hlen1]
    by_cases hh : buffer.Start ≥ KeyLength + 2 * ser.AddrPortLen dest + 9
    · rw [if_pos hh, if_pos hh, Conn_Write_ok _ _ hq]
      exact ⟨_, rfl⟩
    · rw [if_neg hh, if_neg hh, Conn_Write_ok _ _ hq]
      simp only
      rw [Conn_Write_ok _ _ (by exact hq)]
      exact ⟨buffer.Release, by simp⟩
  obtain ⟨b1, hcall⟩ := hfirst
  obtain ⟨c1, h1, hs1, hw1, hq1⟩ := WritePackets_HeaderSent F ser rest
    (ClientPacketConn.mk { conn with writes := conn.writes ++
      (if buffer.Start ≥ KeyLength + 2 * ser.AddrPortLen dest + 9 then
        [key ++ CRLF ++ [CommandUDP] ++ (ser.chunks F dest).flatten ++ CRLF ++
          (ser.chunks F dest).flatten ++ bigEndian16 buffer.Len ++ CRLF ++ buffer.Bytes]
       else
        [key ++ CRLF ++ [CommandUDP] ++ (ser.chunks F dest).flatten ++ CRLF ++
          (ser.chunks F dest).flatten ++ bigEndian16 buffer.Len ++ CRLF, buffer.Bytes]) }
      key true) rfl hq hrest1
  refine ⟨⟨c1, ?_, ?_⟩, ?_⟩
  · simp only [ClientPacketConn.WritePackets, hcall]
    exact h1
  · have hgoal : c1.Conn.sent = conn.sent ++ key ++ CRLF ++ [CommandUDP] ++ ser.wire F dest ++
        CRLF ++ relayChunk F ser dest buffer.Bytes ++
        (rest.map fun bd => relayChunk F ser bd.2 bd.1.Bytes).flatten := by
      rw [hs1, relayChunk_eq F ser dest buffer hrep hwf,
        wire_eq_chunks F ser dest (NameFits_of_Representable dest hrep)]
      by_cases hh : buffer.Start ≥ KeyLength + 2 * ser.AddrPortLen dest + 9
      · simp [Conn.sent, hh, List.append_assoc]
      · simp [Conn.sent, hh, List.append_assoc]
    exact hgoal
  · intro lacking d more hlack
    simp only [ClientPacketConn.WritePackets, hcall]
    rw [WritePackets_append, h1]
    simp only [Option.some_bind, ClientPacketConn.WritePackets, ClientPacketConn.WritePacket,
      hw1, Bool.not_true, Bool.false_eq_true, ↓reduceIte,
      WritePacket_no_headroom F ser c1.Conn lacking d hlack]

/-- C16 as amended, at a concrete input: `exampleKey`, the payload 7, 8, 9 in a buffer
with no headroom, sent to the domain name "abc" with port 8080, and then the payload
5, 6 behind 100 bytes of headroom, sent to 1.2.3.4:80. -/
theorem WritePackets_wire_format_witness :
    (Buffer.ofPayload 0 [7, 8, 9] 0).Start <
      56 + 2 * exampleSerializer.AddrPortLen exampleDomain + 9 ∧
    ∃ c1, (NewClientPacketConn Conn.fresh exampleKey).WritePackets exampleFamilies
        exampleSerializer
        ((Buffer.ofPayload 0 [7, 8, 9] 0, exampleDomain) ::
          [(Buffer.ofPayload 100 [5, 6] 0, exampleIPv4)]) = some c1 ∧
      c1.Conn.sent = Conn.fresh.sent ++ exampleKey ++ [13, 10] ++ [3] ++
        exampleSerializer.wire exampleFamilies exampleDomain ++ [13, 10] ++
        (exampleSerializer.wire exampleFamilies exampleDomain ++
          [(Buffer.ofPayload 0 [7, 8, 9] 0).Bytes.length / 256 % 256,
           (Buffer.ofPayload 0 [7, 8, 9] 0).Bytes.length % 256] ++
          [13, 10] ++ (Buffer.ofPayload 0 [7, 8, 9] 0).Bytes) ++
        ([(Buffer.ofPayload 100 [5, 6] 0, exampleIPv4)].map fun bd =>
          exampleSerializer.wire exampleFamilies bd.2 ++
            [bd.1.Bytes.length / 256 % 256, bd.1.Bytes.length % 256] ++
            [13, 10] ++ bd.1.Bytes).flatten :=
  ⟨by decide,
    (WritePackets_wire_format exampleFamilies exampleSerializer Conn.fresh exampleKey
      (Buffer.ofPayload 0 [7, 8, 9] 0) exampleDomain [(Buffer.ofPayload 100 [5, 6] 0, exampleIPv4)]
      rfl (by decide) (by decide) (by decide) (by decide) (by decide)).1⟩

set_option maxRecDepth 20000 in
/-- The bytes of the example, written out, with no headroom in the first buffer and with
100 bytes of it: the same bytes go out. -/
theorem WritePackets_example :
    ((NewClientPacketConn Conn.fresh exampleKey).WritePackets exampleFamilies exampleSerializer
        [(Buffer.ofPayload 0 [7, 8, 9] 0, exampleDomain),
         (Buffer.ofPayload 100 [5, 6] 0, exampleIPv4)]).map (fun c => c.Conn.sent)
      = some (exampleKey ++ [13, 10, 3, 3, 3, 97, 98, 99, 31, 144, 13, 10] ++
          [3, 3, 97, 98, 99, 31, 144, 0, 3, 13, 10, 7, 8, 9] ++
          [1, 1, 2, 3, 4, 0, 80, 0, 2, 13, 10, 5, 6]) ∧
    ((NewClientPacketConn Conn.fresh exampleKey).WritePackets exampleFamilies exampleSerializer
        [(Buffer.ofPayload 100 [7, 8, 9] 0, exampleDomain),
         (Buffer.ofPayload 100 [5, 6] 0, exampleIPv4)]).map (fun c => c.Conn.sent)
      = some (exampleKey ++ [13, 10, 3, 3, 3, 97, 98, 99, 31, 144, 13, 10] ++
          [3, 3, 97, 98, 99, 31, 144, 0, 3, 13, 10, 7, 8, 9] ++
          [1, 1, 2, 3, 4, 0, 80, 0, 2, 13, 10, 5, 6]) := by
  constructor <;> rfl

set_option maxRecDepth 20000 in
/-- The latch of the example, written out: the first `Write` of 7, 8, 9 sends the header
and the payload in one write and sets the latch; the `Write` of 5, 6 after it sends
5, 6 alone. -/
theorem ClientConn_Write_example :
    ((NewClientConn Conn.fresh exampleKey exampleIPv4).steps exampleFamilies exampleSerializer
        [.Write [7, 8, 9], .Write [5, 6]]).map (fun c => (c.headerWritten, c.Conn.writes))
      = some (true, [exampleKey ++ [13, 10, 1, 1, 1, 2, 3, 4, 0, 80, 13, 10, 7, 8, 9], [5, 6]]) := by
  rfl

/-- A serializer built from `AddressFamilyByte` options only has the address first; with
`PortThenAddress` among the options it has the port first. -/
theorem NewSerializer_portFirst (tagsBefore tagsAfter : List (Nat × Nat)) :
    (NewSerializer ((tagsBefore ++ tagsAfter).map
      fun t => AddressFamilyByte t.1 t.2)).portFirst = false ∧
    (NewSerializer (tagsBefore.map (fun t => AddressFamilyByte t.1 t.2) ++ [PortThenAddress] ++
      tagsAfter.map (fun t => AddressFamilyByte t.1 t.2))).portFirst = true := by
  have key : ∀ (ts : List (Nat × Nat)) (s : Serializer),
      ((ts.map fun t => AddressFamilyByte t.1 t.2).foldl (fun s option => option s) s).portFirst
        = s.portFirst := by
    intro ts
    induction ts with
    | nil => intro s; rfl
    | cons t ts ih =>
      intro s
      simp only [List.map_cons, List.foldl_cons]
      rw [ih]
      rfl
  constructor
  · unfold NewSerializer
    rw [key]
  · unfold NewSerializer
    rw [List.foldl_append, List.foldl_append, key]
    simp only [List.foldl_cons, List.foldl_nil, PortThenAddress]

/-- The method `WriteAddress` on a transport that accepts every write, for an address
it can encode: one write for each slice. -/
theorem WriteAddress_conn (F : Families) (s : Serializer) (c : Conn) (hq : c.quota = none)
    (a : Socksaddr) (ha : a.NameFits) :
    s.WriteAddress F c a = (none, { c with writes := c.writes ++ a.chunks F }) := by
  rw [WriteAddress_eq_writeAll F s c a ha, writeAll_conn c hq]

/-- The method `WriteAddress` on a transport that accepts every write, for a domain name
of more than 255 bytes: the tag byte goes out and the call fails. -/
theorem WriteAddress_conn_long (F : Families) (s : Serializer) (c : Conn)
    (hq : c.quota = none) (a : Socksaddr) (ha : ¬ a.NameFits) :
    s.WriteAddress F c a = (some (Err.New "fqdn too long" []),
      { c with writes := c.writes ++ [[F.AddressFamilyFqdn]] }) := by
  have hz : a.Addr = .zero ∧ 255 < a.Fqdn.length := by
    unfold Socksaddr.NameFits at ha
    by_cases h : a.Addr = .zero
    · exact ⟨h, by simp [h] at ha; omega⟩
    · exact absurd (fun h2 => absurd h2 h) ha
  have w1 : rw.WriteByte c F.AddressFamilyFqdn
      = (none, { c with writes := c.writes ++ [[F.AddressFamilyFqdn]] }) :=
    Conn_Write_ok c _ hq
  have w2 := WriteSocksString_conn { c with writes := c.writes ++ [[F.AddressFamilyFqdn]] }
    hq a.Fqdn
  simp only [Serializer.WriteAddress, Socksaddr.IsIPv4, Socksaddr.IsIPv6, hz.1, NetipAddr.Is4,
    NetipAddr.Is6, NetipAddr.IsValid, Bool.false_eq_true, ↓reduceIte, w1, w2]
  simp [hz.2]

/-- C19. For every serializer and address, on a transport that accepts every write:
with the address first (a serializer built without `PortThenAddress`), when
`WriteAddress` succeeds the output of `WriteAddrPort` is the output of `WriteAddress`
followed by the port as 2 big-endian bytes; with the port first (built with
`PortThenAddress`), it is the 2 big-endian port bytes followed by the output of
`WriteAddress`. On every writer, when the first of the two writes fails, `WriteAddrPort`
returns that error and leaves the writer as the first write left it: the second write
is not attempted. -/
theorem WriteAddrPort_order (F : Families) (s : Serializer) (a : Socksaddr) :
    (s.portFirst = false → (s.WriteAddress F Conn.fresh a).1 = none →
      (s.WriteAddrPort F Conn.fresh a).1 = none ∧
      s.wire F a = s.addressWire F a ++ [a.Port / 256 % 256, a.Port % 256]) ∧
    (s.portFirst = true →
      (s.WriteAddrPort F Conn.fresh a).1 = (s.WriteAddress F Conn.fresh a).1 ∧
      s.wire F a = [a.Port / 256 % 256, a.Port % 256] ++ s.addressWire F a) ∧
    (∀ (σ : Type) [Writer σ] (w w1 : σ) (err : Err),
      (s.portFirst = false → s.WriteAddress F w a = (some err, w1) →
        s.WriteAddrPort F w a = (some err, w1)) ∧
      (s.portFirst = true → s.WritePort w a.Port = (some err, w1) →
        s.WriteAddrPort F w a = (some err, w1))) ∧
    (∀ (pre post : List (Nat × Nat)),
      (NewSerializer ((pre ++ post).map fun t => AddressFamilyByte t.1 t.2)).portFirst = false ∧
      (NewSerializer (pre.map (fun t => AddressFamilyByte t.1 t.2) ++ [PortThenAddress] ++
        post.map (fun t => AddressFamilyByte t.1 t.2))).portFirst = true) := by
  refine ⟨?_, ?_, ?_, NewSerializer_portFirst⟩
  · intro hp hok
    have hfit : a.NameFits := by
      by_contra hn
      rw [WriteAddress_conn_long F s Conn.fresh rfl a hn] at hok
      simp at hok
    refine ⟨?_, ?_⟩
    · rw [WriteAddrPort_eq_writeAll F s _ a hfit, writeAll_conn Conn.fresh rfl]
    · rw [wire_eq_chunks F s a hfit, addressWire_eq_chunks F s a hfit]
      simp [Serializer.chunks, hp, bigEndian16]
  · intro hp
    by_cases hfit : a.NameFits
    · refine ⟨?_, ?_⟩
      · rw [WriteAddrPort_eq_writeAll F s _ a hfit, writeAll_conn Conn.fresh rfl,
          WriteAddress_conn F s Conn.fresh rfl a hfit]
      · rw [wire_eq_chunks F s a hfit, addressWire_eq_chunks F s a hfit]
        simp [Serializer.chunks, hp, bigEndian16]
    · have hw : s.WritePort Conn.fresh a.Port
          = (none, { Conn.fresh with writes := [bigEndian16 a.Port] }) := rfl
      have h1 := WriteAddress_conn_long F s Conn.fresh rfl a hfit
      have h2 := WriteAddress_conn_long F s { Conn.fresh with writes := [bigEndian16 a.Port] }
        rfl a hfit
      refine ⟨?_, ?_⟩
      · simp only [Serializer.WriteAddrPort, hp, Bool.not_true, Bool.false_eq_true, ↓reduceIte,
          hw, h1, h2]
      · simp only [Serializer.wire, Serializer.addressWire, Serializer.WriteAddrPort, hp,
          Bool.not_true, Bool.false_eq_true, ↓reduceIte, hw, h1, h2]
        simp [Conn.sent, Conn.fresh, bigEndian16]
  · intro σ inst w w1 err
    refine ⟨?_, ?_⟩
    · intro hp h
      simp [Serializer.WriteAddrPort, hp, h]
    · intro hp h
      simp [Serializer.WriteAddrPort, hp, h]

/-- C20. In every registry state that a sequence of `AddUser`, `RemoveUser` and
`ResetUsers` calls makes of a new service, and for every user id: `RemoveUser(id)`
returns true exactly when the id is registered; it then removes the entry of the id and
the entry of its key, and leaves the entries of every other user, in both maps, as
they were; a second `RemoveUser(id)` returns false and changes nothing; and after
`RemoveUser(id)`, `AddUser(id, p)` with a password `p` whose key the id had before
succeeds. -/
theorem RemoveUser_outcomes {K : Type} [DecidableEq K] (sha224 : Octets → Octets)
    (ops : List (RegistryOp K)) (id : K) :
    (((Service.run sha224 ops).RemoveUser id).1 = true ↔
      (Service.run sha224 ops).users id ≠ none) ∧
    (((Service.run sha224 ops).RemoveUser id).2.users id = none) ∧
    (∀ key, (Service.run sha224 ops).users id = some key →
      ((Service.run sha224 ops).RemoveUser id).2.keys key = none) ∧
    (∀ u, u ≠ id →
      ((Service.run sha224 ops).RemoveUser id).2.users u = (Service.run sha224 ops).users u) ∧
    (∀ k u, u ≠ id → (Service.run sha224 ops).keys k = some u →
      ((Service.run sha224 ops).RemoveUser id).2.keys k = some u) ∧
    (∀ k, ((Service.run sha224 ops).RemoveUser id).2.keys k = none ∨
      ((Service.run sha224 ops).RemoveUser id).2.keys k = (Service.run sha224 ops).keys k) ∧
    ((((Service.run sha224 ops).RemoveUser id).2.RemoveUser id).1 = false ∧
      (((Service.run sha224 ops).RemoveUser id).2.RemoveUser id).2.users
        = ((Service.run sha224 ops).RemoveUser id).2.users ∧
      (((Service.run sha224 ops).RemoveUser id).2.RemoveUser id).2.keys
        = ((Service.run sha224 ops).RemoveUser id).2.keys) ∧
    (∀ p, (Service.run sha224 ops).users id = some (Key sha224 p) →
      ((Service.run sha224 ops).RemoveUser id).1 = true ∧
      ((((Service.run sha224 ops).RemoveUser id).2.AddUser sha224 id p).1 = none) ∧
      ((((Service.run sha224 ops).RemoveUser id).2.AddUser sha224 id p).2.users id
        = some (Key sha224 p)) ∧
      ((((Service.run sha224 ops).RemoveUser id).2.AddUser sha224 id p).2.keys (Key sha224 p)
        = some id)) := by
  have hinv : (Service.run sha224 ops).Inverse := by
    apply foldl_Inverse
    intro u k
    simp [NewService]
  generalize Service.run sha224 ops = s at hinv ⊢
  cases hu : s.users id with
  | none =>
    have e : s.RemoveUser id = (false, s) := by simp [Service.RemoveUser, hu]
    rw [e]
    refine ⟨by simp, hu, ?_, ?_, ?_, ?_, ?_, ?_⟩
    · intro key hk; cases hk
    · intro u _; rfl
    · intro k u _ h; exact h
    · intro k; exact Or.inr rfl
    · rw [e]; exact ⟨rfl, rfl, rfl⟩
    · intro p hp; cases hp
  | some key =>
    have e : s.RemoveUser id = (true,
        { users := fun u => if u = id then none else s.users u,
          keys := fun k => if k = key then none else s.keys k }) := by
      simp [Service.RemoveUser, hu]
    rw [e]
    have e2 : ∀ s1 : Service K, s1.users id = none → s1.RemoveUser id = (false, s1) := by
      intro s1 h1
      simp [Service.RemoveUser, h1]
    refine ⟨by simp, by simp, ?_, ?_, ?_, ?_, ?_, ?_⟩
    · intro key2 hk
      cases hk
      simp
    · intro u hne
      simp [hne]
    · intro k u hne hk
      have hk2 : k ≠ key := by
        intro h
        subst h
        have := (hinv id k).1 hu
        rw [hk] at this
        exact hne (Option.some.inj this)
      simp [hk2, hk]
    · intro k
      by_cases h : k = key
      · left; simp [h]
      · right; simp [h]
    · rw [e2 _ (by simp)]; exact ⟨rfl, rfl, rfl⟩
    · intro p hp
      cases hp
      refine ⟨rfl, ?_, ?_, ?_⟩ <;> simp [Service.AddUser]

/-- The spec's registry example for `RemoveUser`: on a registry that holds the user "a"
the first `RemoveUser("a")` reports a removal, the second does not. -/
theorem RemoveUser_example (sha224 : Octets → Octets) (p1 : Octets) :
    (((NewService String).AddUser sha224 "a" p1).2.RemoveUser "a").1 = true ∧
    ((((NewService String).AddUser sha224 "a" p1).2.RemoveUser "a").2.RemoveUser "a").1
      = false := by
  constructor <;> simp [Service.AddUser, Service.RemoveUser, NewService]

/-- The function `hex.Encode` writes two bytes for each byte. -/
theorem hexEncode_length (bs : Octets) : (hexEncode bs).length = 2 * bs.length := by
  induction bs with
  | nil => rfl
  | cons b bs ih => simp [hexEncode, ih]; omega

/-- A hexadecimal digit is written as one of the characters `0` to `9` and `a` to `f`. -/
theorem hexDigit_range (d : Nat) (h : d < 16) :
    (48 ≤ hexDigit d ∧ hexDigit d ≤ 57) ∨ (97 ≤ hexDigit d ∧ hexDigit d ≤ 102) := by
  unfold hexDigit
  split <;> omega

/-- Every byte that `hex.Encode` writes is one of the characters `0` to `9` and `a` to
`f`. -/
theorem hexEncode_range (bs : Octets) :
    ∀ c ∈ hexEncode bs, (48 ≤ c ∧ c ≤ 57) ∨ (97 ≤ c ∧ c ≤ 102) := by
  induction bs with
  | nil => simp [hexEncode]
  | cons b bs ih =>
    intro c hc
    simp only [hexEncode, List.mem_cons] at hc
    rcases hc with h | h | h
    · rw [h]
      exact hexDigit_range _ (Nat.mod_lt _ (by decide))
    · rw [h]
      exact hexDigit_range _ (Nat.mod_lt _ (by decide))
    · exact ih c h

/-- The digest of SHA-224 has 28 bytes, whatever the message. -/
theorem Sum224_length (data : Octets) : (sha256.Sum224 data).length = 28 := by
  simp [sha256.Sum224, sha256.bytes]

/-- The function `Key` with a digest of 28 bytes: the 56 hexadecimal digits of the digest
fill the array. -/
theorem Key_of_digest (digest : Octets → Octets) (password : Octets)
    (h : (digest password).length = 28) :
    Key digest password = hexEncode (digest password) := by
  unfold Key
  apply arrayFilled_full
  rw [hexEncode_length, h]
  rfl

/-- The round constants are what FIPS 180-4 says they are: each is the first 32 bits of
the fractional part of the cube root of its prime number `p`, that is, with `n` the
whole part of the cube root, `n * 2^32 + k` is the whole part of the cube root of
`p * 2^96`. The words of the initial state of SHA-224 are the second 32 bits of the
fractional parts of the square roots of the 9th to the 16th prime number: the last 32
bits of the whole part `m` of the square root of `p * 2^128`. -/
theorem sha256_constants :
    sha256.K.length = 64 ∧ sha256.primes.length = 64 ∧
    (∀ pk ∈ sha256.primes.zip sha256.K, pk.2 < 2 ^ 32 ∧
      ∃ n < 8, (n * 2 ^ 32 + pk.2) ^ 3 ≤ pk.1 * 2 ^ 96 ∧
        pk.1 * 2 ^ 96 < (n * 2 ^ 32 + pk.2 + 1) ^ 3) ∧
    (∀ ph ∈ (sha256.primes.drop 8).zip
        [sha256.init224.a, sha256.init224.b, sha256.init224.c, sha256.init224.d,
         sha256.init224.e, sha256.init224.f, sha256.init224.g, sha256.init224.h],
      ∃ m, m ^ 2 ≤ ph.1 * 2 ^ 128 ∧ ph.1 * 2 ^ 128 < (m + 1) ^ 2 ∧ m % 2 ^ 32 = ph.2) := by
  refine ⟨rfl, rfl, by decide, ?_⟩
  intro ph hph
  simp only [sha256.primes, sha256.init224, List.drop_succ_cons, List.drop_zero, List.zip_cons_cons,
    List.zip_nil_right, List.mem_cons, List.mem_nil_iff, or_false] at hph
  rcases hph with rfl | rfl | rfl | rfl | rfl | rfl | rfl | rfl
  · exact ⟨88467476731178360536, by norm_num, by norm_num, by norm_num⟩
  · exact ⟨99338756991957652743, by norm_num, by norm_num, by norm_num⟩
  · exact ⟨102707124263845944599, by norm_num, by norm_num, by norm_num⟩
  · exact ⟨112207163657561200953, by norm_num, by norm_num, by norm_num⟩
  · exact ⟨118116794080090393393, by norm_num, by norm_num, by norm_num⟩
  · exact ⟨120963390236882638097, by norm_num, by norm_num, by norm_num⟩
  · exact ⟨126464505871347584935, by norm_num, by norm_num, by norm_num⟩
  · exact ⟨134294323956039700388, by norm_num, by norm_num, by norm_num⟩

/-- The digits of a byte stand for the byte. -/
theorem hexDecode_hexEncode (bs : Octets) (h : ∀ b ∈ bs, b < 256) :
    hexDecode (hexEncode bs) = bs := by
  induction bs with
  | nil => rfl
  | cons b bs ih =>
    have hb : b < 256 := h b (List.mem_cons_self _ _)
    have hd : ∀ d, d < 16 → hexValue (hexDigit d) = d := by
      intro d hd
      unfold hexValue hexDigit
      split <;> split <;> omega
    simp only [hexEncode, hexDecode, hd _ (Nat.mod_lt _ (by decide : 0 < 16)),
      ih (fun x hx => h x (List.mem_cons_of_mem _ hx)), List.cons.injEq, and_true]
    omega

/-- Every byte of the digest of SHA-224 is a byte. -/
theorem Sum224_bytes (data : Octets) : ∀ b ∈ sha256.Sum224 data, b < 256 := by
  intro b hb
  simp only [sha256.Sum224, sha256.bytes, List.mem_append, List.mem_cons, List.mem_nil_iff,
    or_false] at hb
  have h256 : ∀ x : Nat, x % 256 < 256 := fun x => Nat.mod_lt _ (by decide)
  rcases hb with ((((((h | h | h | h) | (h | h | h | h)) | (h | h | h | h)) | (h | h | h | h)) |
    (h | h | h | h)) | (h | h | h | h)) | (h | h | h | h) <;> (rw [h]; exact h256 _)

set_option maxRecDepth 100000 in
/-- C21. For every password, `Key(password)` is the lowercase hexadecimal encoding of the
SHA-224 digest of the bytes of the password: the digest has 28 bytes; the key has exactly
56 bytes, each of them one of the ASCII characters `0` to `9` and `a` to `f`, and read as
hexadecimal digits, two to a byte, they are the digest. The digest is SHA-224: for the
passwords "" and "abc" and the message of 56 bytes of FIPS 180-4, and for "password",
the key is the one written out here. (`Key` is a function of the password alone.) -/
theorem Key_is_hex_of_SHA224 (password : Octets) :
    Key sha256.Sum224 password = hexEncode (sha256.Sum224 password) ∧
    (sha256.Sum224 password).length = 28 ∧
    (Key sha256.Sum224 password).length = KeyLength ∧
    KeyLength = 56 ∧
    (∀ c ∈ Key sha256.Sum224 password, (48 ≤ c ∧ c ≤ 57) ∨ (97 ≤ c ∧ c ≤ 102)) ∧
    hexDecode (Key sha256.Sum224 password) = sha256.Sum224 password ∧
    (∀ b ∈ sha256.Sum224 password, b < 256) ∧
    Key sha256.Sum224 [] =
      "d14a028c2a3a2bc9476102bb288234c415a2b01f828ea62ac5b3e42f".toList.map (fun c => c.toNat) ∧
    Key sha256.Sum224 [97, 98, 99] =
      "23097d223405d8228642a477bda255b32aadbce4bda0b3f7e36c9da7".toList.map (fun c => c.toNat) ∧
    Key sha256.Sum224
        ("abcdbcdecdefdefgefghfghighijhijkijkljklmklmnlmnomnopnopq".toList.map (fun c => c.toNat)) =
      "75388b16512776cc5dba5da1fd890150b0c6455cb4f58b1952522525".toList.map (fun c => c.toNat) ∧
    Key sha256.Sum224 [112, 97, 115, 115, 119, 111, 114, 100] =
      "d63dc919e201d7bc4c825630d2cf25fdc93d4b2f0d46706d29038d01".toList.map (fun c => c.toNat) ∧
    sha256.Sum224 [97, 98, 99] =
      [0x23, 0x09, 0x7d, 0x22, 0x34, 0x05, 0xd8, 0x22, 0x86, 0x42, 0xa4, 0x77, 0xbd, 0xa2,
       0x55, 0xb3, 0x2a, 0xad, 0xbc, 0xe4, 0xbd, 0xa0, 0xb3, 0xf7, 0xe3, 0x6c, 0x9d, 0xa7] := by
  have hk := Key_of_digest sha256.Sum224 password (Sum224_length password)
  refine ⟨hk, Sum224_length password, ?_, rfl, ?_, ?_, Sum224_bytes password, rfl, rfl, rfl, rfl,
    rfl⟩
  · rw [hk, hexEncode_length, Sum224_length]
    rfl
  · rw [hk]
    exact hexEncode_range _
  · rw [hk]
    exact hexDecode_hexEncode _ (Sum224_bytes password)

set_option maxRecDepth 100000 in
/-- The key of the password "abc", written out byte by byte: the characters
`2`, `3`, `0`, `9`, `7`, `d`, ... of its digest 23 09 7d ... in hexadecimal. -/
theorem Key_example :
    (Key sha256.Sum224 [97, 98, 99]).take 6 = [50, 51, 48, 57, 55, 100] ∧
    hexDecode [50, 51, 48, 57, 55, 100] = [0x23, 0x09, 0x7d] := by
  constructor <;> rfl

/-- What holds of `Any` at every moment: `runtimeCtx` is cancelled only when a goroutine
has run to the end of its body, and the caller has returned only when `runtimeCtx` is
cancelled. -/
theorem Any_step_cancelled {ε : Type} (Error : ε → String) (s s1 : AnyState ε)
    (step : AnyStep) (h : Any.step Error s step = some s1)
    (hdone : s.runtimeDone = true → ∃ j : Nat, s.goroutines[j]? = some AnyGoroutine.exited)
    (hret : s.returned.isSome = true → s.runtimeDone = true) :
    (s1.runtimeDone = true → ∃ j : Nat, s1.goroutines[j]? = some AnyGoroutine.exited) ∧
      (s1.returned.isSome = true → s1.runtimeDone = true) := by
  have hkeep : ∀ (i : Nat) (g x : AnyGoroutine ε), s.goroutines[i]? = some g →
      g ≠ AnyGoroutine.exited → s.runtimeDone = true →
      ∃ j : Nat, (s.goroutines.set i x)[j]? = some AnyGoroutine.exited := by
    intro i g x hg hne hd
    obtain ⟨j, hj⟩ := hdone hd
    have hij : i ≠ j := by
      intro e
      subst e
      rw [hg] at hj
      exact hne (Option.some.inj hj)
    exact ⟨j, by rw [List.getElem?_set_ne hij]; exact hj⟩
  cases step with
  | goroutine i =>
    simp only [Any.step, List.get?_eq_getElem?] at h
    rcases hg : s.goroutines[i]? with _ | g
    · simp [hg] at h
    · cases g with
      | running t =>
        simp only [hg, Option.some.injEq] at h
        subst h
        exact ⟨fun hd => hkeep i _ _ hg (by simp) hd, hret⟩
      | returned err =>
        simp only [hg, Option.some.injEq] at h
        subst h
        exact ⟨fun hd => hkeep i _ _ hg (by simp) hd, hret⟩
      | assigned =>
        simp only [hg, Option.some.injEq] at h
        subst h
        have hi : i < s.goroutines.length := by
          rcases Nat.lt_or_ge i s.goroutines.length with hlt | hge
          · exact hlt
          · rw [List.getElem?_eq_none hge] at hg
            simp at hg
        exact ⟨fun _ => ⟨i, by simp [List.getElem?_set_self, hi]⟩, fun _ => rfl⟩
      | exited => simp [hg] at h
  | caller =>
    simp only [Any.step] at h
    by_cases hr : s.returned.isSome = true
    · simp [hr] at h
    · by_cases hd : s.runtimeDone = true
      · simp only [hr, Bool.false_eq_true, ↓reduceIte, hd, Option.some.injEq] at h
        subst h
        exact ⟨fun _ => hdone hd, fun _ => rfl⟩
      · simp [hr, hd] at h

/-- In every run of `Any` with a context that is never cancelled, the caller has returned
only when the goroutine of a task has run to the end of its body: `Any` does not return
before a task has returned. -/
theorem Any_returns_after_a_task {ε : Type} (Error : ε → String)
    (tasks : List (Bool → Option ε)) (steps : List AnyStep) (s : AnyState ε)
    (h : Any.run Error (Any.start tasks) steps = some s) (hret : s.returned.isSome = true) :
    ∃ j : Nat, s.goroutines[j]? = some AnyGoroutine.exited := by
  have hrun : ∀ (steps : List AnyStep) (s0 s : AnyState ε),
      Any.run Error s0 steps = some s →
      (s0.runtimeDone = true → ∃ j : Nat, s0.goroutines[j]? = some AnyGoroutine.exited) →
      (s0.returned.isSome = true → s0.runtimeDone = true) →
      (s.runtimeDone = true → ∃ j : Nat, s.goroutines[j]? = some AnyGoroutine.exited) ∧
        (s.returned.isSome = true → s.runtimeDone = true) := by
    intro steps
    induction steps with
    | nil =>
      intro s0 s h h1 h2
      simp only [Any.run, Option.some.injEq] at h
      subst h
      exact ⟨h1, h2⟩
    | cons step rest ih =>
      intro s0 s h h1 h2
      simp only [Any.run] at h
      rcases hs : Any.step Error s0 step with _ | s1
      · simp [hs] at h
      · simp only [hs, Option.some_bind] at h
        obtain ⟨h3, h4⟩ := Any_step_cancelled Error s0 s1 step hs h1 h2
        exact ih s1 s h h3 h4
  obtain ⟨h1, h2⟩ := hrun steps (Any.start tasks) s h (fun hd => by simp [Any.start] at hd)
    (fun hr => by simp [Any.start] at hr)
  exact h1 (h2 hret)

/-- With no task, `Any` with a context that is never cancelled does not return. -/
theorem Any_no_task_never_returns {ε : Type} (Error : ε → String) (steps : List AnyStep) :
    ∀ s, Any.run Error (Any.start ([] : List (Bool → Option ε))) steps = some s →
      s.returned = none := by
  have hstep : ∀ (s s1 : AnyState ε) (step : AnyStep), s.goroutines = [] →
      s.runtimeDone = false → s.returned = none → Any.step Error s step = some s1 → False := by
    intro s s1 step hg hd hr h
    cases step with
    | goroutine i => simp [Any.step, hg] at h
    | caller => simp [Any.step, hd, hr] at h
  intro s h
  cases steps with
  | nil =>
    simp only [Any.run, Option.some.injEq] at h
    subst h
    rfl
  | cons step rest =>
    simp only [Any.run] at h
    rcases h1 : Any.step Error (Any.start ([] : List (Bool → Option ε))) step with _ | s1
    · simp [h1] at h
    · exact (hstep _ s1 step rfl rfl rfl h1).elim

/-- C22 (`Any` returns the last error assigned, not the result of the first task). For
every list of further tasks: when the first task succeeds and the second fails with
`errB`, and the goroutine of the second task assigns `retErr` after the first goroutine
has called `cancel()` and before the caller of `Any` reads `retErr`, `Any` returns
`errB`, although the task that returned first succeeded. When the first task fails with
`errA` and the second with `errB` in such a run, `Any` returns `errB`, not the failure
of the task that returned first. When the goroutine of the first task has run to its
`cancel()` and the caller reads `retErr` before another goroutine has assigned to it,
`Any` returns the result of the first task without waiting for the others. -/
theorem Any_returns_last_assigned_error {ε : Type} (Error : ε → String)
    (errA errB : ε) (others : List (Bool → Option ε)) :
    (Any.run Error (Any.start (taskSucceeds :: taskFails errB :: others))
        [.goroutine 0, .goroutine 0, .goroutine 0, .goroutine 1, .goroutine 1, .caller]).map
          (fun s => s.returned)
      = some (some (some (ErrorValue.plain errB))) ∧
    (Any.run Error (Any.start (taskFails errA :: taskFails errB :: others))
        [.goroutine 0, .goroutine 0, .goroutine 0, .goroutine 1, .goroutine 1, .caller]).map
          (fun s => s.returned)
      = some (some (some (ErrorValue.plain errB))) ∧
    (Any.run Error (Any.start (taskSucceeds :: taskUntilCancelled errB :: others))
        [.goroutine 0, .goroutine 0, .goroutine 0, .goroutine 1, .goroutine 1, .caller]).map
          (fun s => s.returned)
      = some (some (some (ErrorValue.plain errB))) ∧
    (Any.run Error (Any.start (taskFails errA :: others))
        [.goroutine 0, .goroutine 0, .goroutine 0, .caller]).map (fun s => s.returned)
      = some (some (some (ErrorValue.plain errA))) ∧
    (Any.run Error (Any.start (taskSucceeds :: others))
        [.goroutine 0, .goroutine 0, .goroutine 0, .caller]).map (fun s => s.returned)
      = some (some none) := by
  refine ⟨?_, ?_, ?_, ?_, ?_⟩ <;>
    simp [Any.run, Any.step, Any.start, taskSucceeds, taskFails, taskUntilCancelled, Errors,
      FilterNotNil, UniqBy, UniqBy.loop]

/-- C22 at concrete values, with strings for errors: a task that succeeds and a task that
fails with "b". In the first run `Any` returns "b" although the task that succeeded
returned first; in the second run, where the caller reads `retErr` before the second
goroutine assigns to it, `Any` returns no error. -/
theorem Any_example :
    (Any.run id (Any.start [taskSucceeds, taskFails "b"])
        [.goroutine 0, .goroutine 0, .goroutine 0, .goroutine 1, .goroutine 1, .caller]).map
          (fun s => s.returned)
      = some (some (some (ErrorValue.plain "b"))) ∧
    (Any.run id (Any.start [taskSucceeds, taskFails "b"])
        [.goroutine 0, .goroutine 0, .goroutine 0, .caller, .goroutine 1, .goroutine 1]).map
          (fun s => s.returned)
      = some (some none) := by
  constructor <;> decide

/-- The method `reader.Read(p)` at the end of a stream that holds fewer bytes than
`len(p)`, but at least one, on a transport that does not cut the stream: it delivers
what is there and reports no error. -/
theorem Conn_Read_short (c : Conn) (n : Nat) (h1 : 1 ≤ c.input.length)
    (hn : c.input.length < n) (hcuts : c.cuts = []) :
    c.Read n = (c.input, none, { c with input := [] }) := by
  have hne : c.input ≠ [] := by
    intro h
    rw [h] at h1
    simp at h1
  have h0 : n ≠ 0 := by omega
  have hm : min n c.input.length = c.input.length := Nat.min_eq_right (Nat.le_of_lt hn)
  simp [Conn.Read, readLen_whole c n hcuts, h0, hne, hm]

/-- C23 (a short read is padded with zero bytes). When the stream ends after the tag
byte of an IPv4 address and between 1 and 3 further bytes, on a transport that hands out
what is there in one piece: `ReadAddress` returns no error and the address made of these
bytes followed by zero bytes; `ReadAddrPort` of a serializer that reads the port first
returns that address with the port, and no error; `ReadAddrPort` of a serializer that
reads the address first returns an error, but the one of the port that is missing after
the address has been accepted. And on every transport, however it cuts the stream,
`ReadAddress` returns no error and an address made of the first `k` of these bytes, for
some `k` between 1 and their number, followed by zero bytes. The same holds for IPv6
with between 1 and 15 bytes. -/
theorem ReadAddress_pads_short_read (F : Families) (s : Serializer) (tag : Nat) (bs : Octets)
    (hbs : 1 ≤ bs.length) :
    (mapIndex s.familyMap tag = F.AddressFamilyIPv4 →
      F.AddressFamilyIPv4 ≠ F.AddressFamilyFqdn → bs.length < 4 →
      (∀ c : Conn, c.cuts = [] → c.input = tag :: bs →
        s.ReadAddress F c =
          (.ok { Socksaddr.empty with
                 Addr := AddrFrom4 (bs ++ List.replicate (4 - bs.length) 0) },
            { c with input := [] })) ∧
      (∀ (c : Conn) (p1 p2 : Nat), c.cuts = [] → s.portFirst = true →
        c.input = p1 :: p2 :: tag :: bs →
        s.ReadAddrPort F c =
          (.ok { Socksaddr.empty with
                 Addr := AddrFrom4 (bs ++ List.replicate (4 - bs.length) 0),
                 Port := p1 * 256 + p2 },
            { c with input := [] })) ∧
      (∀ c : Conn, c.cuts = [] → s.portFirst = false → c.input = tag :: bs →
        s.ReadAddrPort F c =
          (.error (Err.Cause Err.EOF "read port"), { c with input := [] })) ∧
      (∀ c : Conn, c.input = tag :: bs →
        ∃ k, 1 ≤ k ∧ k ≤ bs.length ∧
          s.ReadAddress F c =
            (.ok { Socksaddr.empty with
                   Addr := AddrFrom4 (bs.take k ++ List.replicate (4 - k) 0) },
              { c with input := bs.drop k }))) ∧
    (mapIndex s.familyMap tag = F.AddressFamilyIPv6 →
      F.AddressFamilyIPv6 ≠ F.AddressFamilyFqdn → F.AddressFamilyIPv6 ≠ F.AddressFamilyIPv4 →
      bs.length < 16 →
      (∀ c : Conn, c.cuts = [] → c.input = tag :: bs →
        s.ReadAddress F c =
          (.ok { Socksaddr.empty with
                 Addr := AddrFrom16 (bs ++ List.replicate (16 - bs.length) 0) },
            { c with input := [] })) ∧
      (∀ (c : Conn) (p1 p2 : Nat), c.cuts = [] → s.portFirst = true →
        c.input = p1 :: p2 :: tag :: bs →
        s.ReadAddrPort F c =
          (.ok { Socksaddr.empty with
                 Addr := AddrFrom16 (bs ++ List.replicate (16 - bs.length) 0),
                 Port := p1 * 256 + p2 },
            { c with input := [] })) ∧
      (∀ c : Conn, c.cuts = [] → s.portFirst = false → c.input = tag :: bs →
        s.ReadAddrPort F c =
          (.error (Err.Cause Err.EOF "read port"), { c with input := [] })) ∧
      (∀ c : Conn, c.input = tag :: bs →
        ∃ k, 1 ≤ k ∧ k ≤ bs.length ∧
          s.ReadAddress F c =
            (.ok { Socksaddr.empty with
                   Addr := AddrFrom16 (bs.take k ++ List.replicate (16 - k) 0) },
              { c with input := bs.drop k }))) := by
  have hne0 : bs ≠ [] := by
    intro h
    rw [h] at hbs
    simp at hbs
  have hnoport : ∀ c : Conn, c.input = [] →
      s.ReadPort c = (.error (Err.Cause Err.EOF "read port"), c) := by
    intro c hc
    simp [Serializer.ReadPort, rw.ReadBytes, ReadFull, hc]
  refine ⟨?_, ?_⟩
  · intro htag hne hlen
    have haddr : ∀ c : Conn, c.cuts = [] → c.input = tag :: bs →
        s.ReadAddress F c =
          (.ok { Socksaddr.empty with
                 Addr := AddrFrom4 (bs ++ List.replicate (4 - bs.length) 0) },
            { c with input := [] }) := by
      intro c hcuts hc
      have hr := Conn_Read_short { c with input := bs } 4 hbs hlen hcuts
      simp only [Serializer.ReadAddress, ReadByte_cons c tag bs hc, htag, hne, ↓reduceIte, hr,
        arrayFilled_short 4 bs (Nat.le_of_lt hlen)]
    refine ⟨haddr, ?_, ?_, ?_⟩
    · intro c p1 p2 hcuts hp hc
      simp [Serializer.ReadAddrPort, hp, ReadPort_cons s c p1 p2 (tag :: bs) hc,
        haddr { c with input := tag :: bs } hcuts rfl]
    · intro c hcuts hp hc
      simp [Serializer.ReadAddrPort, hp, haddr c hcuts hc, hnoport { c with input := [] } rfl]
    · intro c hc
      obtain ⟨-, hle, hpos⟩ := readLen_bounds { c with input := bs } 4
      refine ⟨({ c with input := bs } : Conn).readLen 4, hpos (by decide) hne0, hle, ?_⟩
      rw [ReadAddress_ip4_read F s tag bs c htag hne hc hne0, Nat.min_eq_left hle]
  · intro htag hne hne4 hlen
    have haddr : ∀ c : Conn, c.cuts = [] → c.input = tag :: bs →
        s.ReadAddress F c =
          (.ok { Socksaddr.empty with
                 Addr := AddrFrom16 (bs ++ List.replicate (16 - bs.length) 0) },
            { c with input := [] }) := by
      intro c hcuts hc
      have hr := Conn_Read_short { c with input := bs } 16 hbs hlen hcuts
      simp only [Serializer.ReadAddress, ReadByte_cons c tag bs hc, htag, hne, hne4, ↓reduceIte,
        hr, arrayFilled_short 16 bs (Nat.le_of_lt hlen), Socksaddr.Unwrap]
    refine ⟨haddr, ?_, ?_, ?_⟩
    · intro c p1 p2 hcuts hp hc
      simp [Serializer.ReadAddrPort, hp, ReadPort_cons s c p1 p2 (tag :: bs) hc,
        haddr { c with input := tag :: bs } hcuts rfl]
    · intro c hcuts hp hc
      simp [Serializer.ReadAddrPort, hp, haddr c hcuts hc, hnoport { c with input := [] } rfl]
    · intro c hc
      obtain ⟨-, hle, hpos⟩ := readLen_bounds { c with input := bs } 16
      refine ⟨({ c with input := bs } : Conn).readLen 16, hpos (by decide) hne0, hle, ?_⟩
      rw [ReadAddress_ip6_read F s tag bs c htag hne hne4 hc hne0, Nat.min_eq_left hle]

/-- C23, at a concrete input: the tag byte 1 of `exampleSerializer`, which it maps to
IPv4, followed by the two bytes 1, 2 and the end of the stream. -/
theorem ReadAddress_pads_short_read_witness :
    exampleSerializer.ReadAddress exampleFamilies (Conn.ofInput [1, 1, 2]) =
      (.ok { Socksaddr.empty with Addr := AddrFrom4 [1, 2, 0, 0] }, Conn.ofInput []) :=
  ((ReadAddress_pads_short_read exampleFamilies exampleSerializer 1 [1, 2] (by decide)).1
    rfl (by decide) (by decide)).1 (Conn.ofInput [1, 1, 2]) rfl rfl

/-- The short reads of the examples, written out: `ReadAddress` makes 1.2.0.0 of the
tag and the bytes 1, 2; `ReadAddrPort` with the port first makes 1.2.0.0:80 of the port
0, 80, the tag and the bytes 1, 2; the same bytes followed by 3, 4 make 1.2.3.4:80. -/
theorem ReadAddress_short_read_example :
    (exampleSerializer.ReadAddress exampleFamilies (Conn.ofInput [1, 1, 2])).1
      = .ok { Addr := .ip4 [1, 2, 0, 0], Port := 0, Fqdn := [] } ∧
    (examplePortFirstSerializer.ReadAddrPort exampleFamilies
        (Conn.ofInput [0, 80, 1, 1, 2])).1
      = .ok { Addr := .ip4 [1, 2, 0, 0], Port := 80, Fqdn := [] } ∧
    (examplePortFirstSerializer.ReadAddrPort exampleFamilies
        (Conn.ofInput [0, 80, 1, 1, 2, 3, 4])).1
      = .ok { Addr := .ip4 [1, 2, 3, 4], Port := 80, Fqdn := [] } ∧
    (exampleSerializer.ReadAddrPort exampleFamilies (Conn.ofInput [1, 1, 2])).1
      = .error (Err.Cause Err.EOF "read port") := by
  refine ⟨?_, ?_, ?_, ?_⟩ <;> rfl

end Sing
